import Mathlib

/-!
# Verification of the pdf_merger library (`src/lib.rs`)

This file shallowly embeds the two public operations of the crate,
`make_page_count_even` and `insert`, together with the parts of the
`lopdf` document-store collaborator that they use.  The collaborator
(`lopdf`) is not part of the repository sources; its operations are
modelled from the specification's external-interface contract (§6), as
noted in the doc comments of the corresponding definitions.

The embedding is executable: documents are finite association tables,
page-tree traversal is fuel-bounded (the real traversal can diverge on a
cyclic page tree), and the Rust functions' `unwrap`/`assert!` panics and
early `return`s are reflected in a three-valued result type.
-/

/-- A PDF object identifier: `(number, generation)`, mirroring lopdf's
`ObjectId = (u32, u16)`.  `BTreeMap<ObjectId, _>` iterates in lexicographic
order of these pairs. -/
abbrev ObjectId := Nat × Nat

/-- Strict lexicographic order on `ObjectId`, the order `BTreeMap` uses. -/
def idLt (a b : ObjectId) : Prop :=
  a.1 < b.1 ∨ (a.1 = b.1 ∧ a.2 < b.2)

instance (a b : ObjectId) : Decidable (idLt a b) := by
  unfold idLt; infer_instance

/-- The PDF object value, mirroring lopdf's `Object` type.  `Real` carries an
uninterpreted payload (the merge code never computes with reals); `Stream`
carries its dictionary and an opaque byte payload. -/
inductive Object where
  | null : Object
  | boolean (b : Bool) : Object
  | integer (i : Int) : Object
  | real (payload : String) : Object
  | string (s : String) : Object
  | name (n : String) : Object
  | array (elems : List Object) : Object
  | dictionary (entries : List (String × Object)) : Object
  | stream (dict : List (String × Object)) (content : String) : Object
  | reference (id : ObjectId) : Object

/-- A PDF dictionary: an insertion-ordered map from names to objects,
mirroring lopdf's `Dictionary` (a `LinkedHashMap`). -/
abbrev Dict := List (String × Object)

/-- `Dictionary::get`: first entry with the given key. -/
def dictGet (d : Dict) (k : String) : Option Object :=
  match d with
  | [] => none
  | (k', v) :: rest => if k' = k then some v else dictGet rest k

/-- `Dictionary::set` / `LinkedHashMap::insert`: replace the value in place if
the key is present (keeping its position), otherwise append at the end. -/
def dictSet (d : Dict) (k : String) (v : Object) : Dict :=
  match d with
  | [] => [(k, v)]
  | (k', v') :: rest => if k' = k then (k, v) :: rest else (k', v') :: dictSet rest k v

/-- `Dictionary::remove`: drop the entry with the given key. -/
def dictRemove (d : Dict) (k : String) : Dict :=
  match d with
  | [] => []
  | (k', v') :: rest => if k' = k then dictRemove rest k else (k', v') :: dictRemove rest k

/-- `Dictionary::extend(&mut self, other)`.  Modelled from the spec: the
collaborator's dictionary-merge operation inserts every entry of `other`
into `self`, so that on a key collision `other`'s value wins (spec §4.2
step 6: the previously collected object's value wins over the current one,
which contributes only keys absent from it). -/
def dictExtend (self other : Dict) : Dict :=
  other.foldl (fun acc kv => dictSet acc kv.1 kv.2) self

/-- `Dictionary::type_name`: the value of the `Type` key when it is a name. -/
def dictTypeName (d : Dict) : Option String :=
  match dictGet d "Type" with
  | some (Object.name n) => some n
  | _ => none

/-- `Object::type_name`: declared type of a dictionary or stream object. -/
def typeName : Object → Option String
  | Object.dictionary d => dictTypeName d
  | Object.stream d _ => dictTypeName d
  | _ => none

/-- `Object::as_dict`: succeeds only on plain dictionaries (not streams). -/
def asDict : Object → Option Dict
  | Object.dictionary d => some d
  | _ => none

/-- `Document::get_dictionary`-style view: the dictionary of a dictionary
object or of a stream object. -/
def objDict : Object → Option Dict
  | Object.dictionary d => some d
  | Object.stream d _ => some d
  | _ => none

/-- `Object::as_i64`: integer objects only. -/
def asI64 : Object → Option Int
  | Object.integer i => some i
  | _ => none

/-- Lookup in a `BTreeMap<ObjectId, α>` modelled as an association list. -/
def btLookup (m : List (ObjectId × α)) (k : ObjectId) : Option α :=
  match m with
  | [] => none
  | (k', v) :: rest => if k' = k then some v else btLookup rest k

/-- `BTreeMap::insert`: keep the entry list sorted by key; replace on an
existing key. -/
def btInsert (m : List (ObjectId × α)) (k : ObjectId) (v : α) : List (ObjectId × α) :=
  match m with
  | [] => [(k, v)]
  | (k', v') :: rest =>
    if idLt k k' then (k, v) :: (k', v') :: rest
    else if k = k' then (k, v) :: rest
    else (k', v') :: btInsert rest k v

/-- `BTreeMap::extend`: insert every entry of `l` (in order) into `m`. -/
def btExtend (m : List (ObjectId × α)) (l : List (ObjectId × α)) : List (ObjectId × α) :=
  l.foldl (fun acc kv => btInsert acc kv.1 kv.2) m

mutual

/-- Rewrite every `Reference` in an object through `σ`.  This is the
reference-update half of renumbering (spec §6: `renumber_objects_with`
"updates all internal references consistently"). -/
def renameObj (σ : ObjectId → ObjectId) : Object → Object
  | Object.reference id => Object.reference (σ id)
  | Object.array xs => Object.array (renameObjList σ xs)
  | Object.dictionary d => Object.dictionary (renameDict σ d)
  | Object.stream d c => Object.stream (renameDict σ d) c
  | Object.null => Object.null
  | Object.boolean b => Object.boolean b
  | Object.integer i => Object.integer i
  | Object.real p => Object.real p
  | Object.string s => Object.string s
  | Object.name n => Object.name n

/-- `renameObj` mapped over a list of objects. -/
def renameObjList (σ : ObjectId → ObjectId) : List Object → List Object
  | [] => []
  | x :: xs => renameObj σ x :: renameObjList σ xs

/-- `renameObj` mapped over the values of a dictionary. -/
def renameDict (σ : ObjectId → ObjectId) : Dict → Dict
  | [] => []
  | (k, v) :: rest => (k, renameObj σ v) :: renameDict σ rest

end

/-- A loaded PDF document, mirroring the fields of lopdf's `Document` that
`lib.rs` uses: the sorted object table, the trailer dictionary and the
high-water mark `max_id`. -/
structure Document where
  objects : List (ObjectId × Object)
  trailer : Dict
  maxId : Nat

/-- The id substitution performed by `renumber_objects_with(start)`:
the document's ids, in ascending order, are reassigned the numbers
`start, start+1, ...`, keeping each id's generation; ids not present in
the document are left unchanged. -/
def renumberId (ids : List ObjectId) (start : Nat) (r : ObjectId) : ObjectId :=
  match ids with
  | [] => r
  | i :: rest => if i = r then (start, r.2) else renumberId rest (start + 1) r

/-- `Document::renumber_objects_with(start)`.  Modelled from the spec (§6):
reassigns every `ObjectId` to the compact range starting at `start`
(ascending by old id, generations kept), updates all internal references
(object table and trailer) consistently, and sets the high-water mark to
the last assigned number. -/
def renumberWith (start : Nat) (doc : Document) : Document :=
  let σ := renumberId (doc.objects.map Prod.fst) start
  { objects := doc.objects.map (fun kv => (σ kv.1, renameObj σ kv.2)),
    trailer := renameDict σ doc.trailer,
    maxId := start + doc.objects.length - 1 }

/-- `Document::dereference`: follow a chain of references (bounded by
`fuel`; the chain in the source is bounded too), returning the last
followed id and the final object. -/
def derefChain (doc : Document) : Nat → Object → Option (Option ObjectId × Object)
  | _, Object.null => some (none, Object.null)
  | _, Object.boolean b => some (none, Object.boolean b)
  | _, Object.integer i => some (none, Object.integer i)
  | _, Object.real p => some (none, Object.real p)
  | _, Object.string s => some (none, Object.string s)
  | _, Object.name n => some (none, Object.name n)
  | _, Object.array xs => some (none, Object.array xs)
  | _, Object.dictionary d => some (none, Object.dictionary d)
  | _, Object.stream d c => some (none, Object.stream d c)
  | 0, Object.reference _ => none
  | fuel + 1, Object.reference id =>
    match btLookup doc.objects id with
    | none => none
    | some o =>
      match derefChain doc fuel o with
      | none => none
      | some (none, res) => some (some id, res)
      | some (some j, res) => some (some j, res)

/-- `Document::catalog()`: the dictionary of the object the trailer's `Root`
reference points at (a dictionary or stream object). -/
def catalogDict (doc : Document) : Option Dict :=
  match dictGet doc.trailer "Root" with
  | some (Object.reference id) =>
    match btLookup doc.objects id with
    | some o => objDict o
    | none => none
  | _ => none

/-- One step of the page-tree walk on a kid entry: a kid participates only
when it is a reference to an object whose dictionary exists.  Mirrors
lopdf's `PageTreeIter` (spec §6 `pages`): a kid typed `Page` is yielded,
a kid typed `Pages` is descended into through its `Kids` array, anything
else is skipped. -/
def kidsOf (o : Object) : List Object :=
  match objDict o with
  | some d =>
    match dictGet d "Kids" with
    | some (Object.array ks) => ks
    | _ => []
  | none => []

/-- One level of the page-tree walk over a `Kids` list, with the descent
into a `Pages` subtree supplied as a function.  A kid participates only
when it is a reference to an object whose declared type is `Page`
(yielded) or `Pages` (descended into); everything else is skipped.
Mirrors lopdf's `PageTreeIter` (spec §6 `pages`). -/
def pagesStep (doc : Document) (descend : Object → List (ObjectId × Object)) :
    List Object → List (ObjectId × Object)
  | [] => []
  | kid :: rest =>
    (match kid with
     | Object.reference id =>
       (match btLookup doc.objects id with
        | some o =>
          (match typeName o with
           | some t =>
             if t = "Page" then [(id, o)]
             else if t = "Pages" then descend o
             else []
           | none => [])
        | none => [])
     | _ => []) ++ pagesStep doc descend rest

/-- The page-tree traversal: walk a `Kids` list, yielding `(id, object)` for
each leaf `Page` in order.  Modelled from the spec (§6 `pages`: "ordered
sequence of (index, ObjectId)"); `fuel` bounds the tree depth, since the
source's traversal diverges on a cyclic tree. -/
def pagesFromAux (doc : Document) : Nat → List Object → List (ObjectId × Object)
  | 0, ks => pagesStep doc (fun _ => []) ks
  | fuel + 1, ks => pagesStep doc (fun o => pagesFromAux doc fuel (kidsOf o)) ks

/-- One level of the visited-id walk, the companion of `pagesStep`. -/
def visitsStep (doc : Document) (descend : Object → List ObjectId) :
    List Object → List ObjectId
  | [] => []
  | kid :: rest =>
    (match kid with
     | Object.reference id =>
       id ::
       (match btLookup doc.objects id with
        | some o =>
          (match typeName o with
           | some t =>
             if t = "Page" then []
             else if t = "Pages" then descend o
             else []
           | none => [])
        | none => [])
     | _ => []) ++ visitsStep doc descend rest

/-- The object ids on which the traversal `pagesFromAux` attempts a lookup,
in order.  Used to state that a document mutation is invisible to the
walk. -/
def pagesVisitsAux (doc : Document) : Nat → List Object → List ObjectId
  | 0, ks => visitsStep doc (fun _ => []) ks
  | fuel + 1, ks => visitsStep doc (fun o => pagesVisitsAux doc fuel (kidsOf o)) ks

/-- The root `Kids` array the traversal starts from: trailer `Root` →
catalog dictionary → `Pages` (dereferenced) → plain dictionary → `Kids`
array.  Mirrors `PageTreeIter::new`. -/
def docRootKids (doc : Document) : Option (List Object) :=
  match catalogDict doc with
  | none => none
  | some cat =>
    match dictGet cat "Pages" with
    | none => none
    | some pref =>
      match derefChain doc (doc.objects.length + 1) pref with
      | none => none
      | some (_, o) =>
        match o with
        | Object.dictionary d =>
          match dictGet d "Kids" with
          | some (Object.array ks) => some ks
          | _ => none
        | _ => none

/-- `Document::get_pages` composed with `get_object`: the document's leaf
pages in page order, each with its object. -/
def pagesWithObjs (doc : Document) (fuel : Nat) : List (ObjectId × Object) :=
  match docRootKids doc with
  | some ks => pagesFromAux doc fuel ks
  | none => []

/-- `Document::get_pages` / `page_iter`: the ordered page ids. -/
def pageIds (doc : Document) (fuel : Nat) : List ObjectId :=
  (pagesWithObjs doc fuel).map Prod.fst

/-- Outcome of one call to a `lib.rs` entry point: a Rust panic
(`unwrap`/`assert!` failure), a return without saving (the destination
file is untouched), or a save of the given document over the destination
path. -/
inductive MergeResult where
  | panicked : MergeResult
  | noWrite : MergeResult
  | saved (doc : Document) : MergeResult

/-- `make_page_count_even` (`lib.rs` lines 22–55): if the page count is odd,
add one empty `Page` whose `Parent` is the pages root, push its reference
onto the root's `Kids`, bump the root's `Count` by one, renumber and save;
otherwise do nothing. -/
def makePageCountEven (doc : Document) (fuel : Nat) : MergeResult :=
  if (pageIds doc fuel).length % 2 ≠ 0 then
    match catalogDict doc with
    | none => MergeResult.panicked
    | some cat =>
      match dictGet cat "Pages" with
      | none => MergeResult.panicked
      | some pref =>
        match derefChain doc (doc.objects.length + 1) pref with
        | none => MergeResult.panicked
        | some (none, _) => MergeResult.panicked
        | some (some pagesId, _) =>
          let pageId : ObjectId := (doc.maxId + 1, 0)
          let page : Object :=
            Object.dictionary
              [("Type", Object.name "Page"), ("Parent", Object.reference pagesId)]
          let doc1 : Document :=
            { doc with objects := btInsert doc.objects pageId page, maxId := doc.maxId + 1 }
          match btLookup doc1.objects pagesId with
          | none => MergeResult.panicked
          | some pobj =>
            match pobj with
            | Object.dictionary pd =>
              match dictGet pd "Kids" with
              | some (Object.array ks) =>
                let pd1 := dictSet pd "Kids" (Object.array (ks ++ [Object.reference pageId]))
                match dictGet pd1 "Count" with
                | some cobj =>
                  match asI64 cobj with
                  | some c =>
                    let pd2 := dictSet pd1 "Count" (Object.integer (c + 1))
                    let doc2 : Document :=
                      { doc1 with objects := btInsert doc1.objects pagesId (Object.dictionary pd2) }
                    MergeResult.saved (renumberWith 1 doc2)
                  | none => MergeResult.panicked
                | none => MergeResult.panicked
              | _ => MergeResult.panicked
            | _ => MergeResult.panicked
  else MergeResult.noWrite

/-- Entries `((base+1, gen), obj), ((base+2, gen'), obj'), ...` for a run of
pages given consecutive linear positions starting after `base`.  This is
the body of the source-page numbering loop in `insert` (`lib.rs` lines
128–140): `result_page_index` is incremented before each key is formed,
and the key's second component is the page id's generation. -/
def numberedFrom (base : Nat) : List (ObjectId × Object) → List (ObjectId × Object)
  | [] => []
  | (id, o) :: rest => ((base + 1, id.2), o) :: numberedFrom (base + 1) rest

/-- The destination-page numbering walk of `insert` (`lib.rs` lines 99–115):
walk the destination's pages carrying `origin` (`origin_page_count`) and
`r` (`result_page_index`); when the current origin index is listed in
`after_pages` the counter first skips `srcN` slots, then each page takes
the next slot as its key's first component. -/
def dstEntriesAux (pts : List Nat) (srcN : Nat) :
    List (ObjectId × Object) → Nat → Nat → List (ObjectId × Object)
  | [], _, _ => []
  | (id, o) :: rest, origin, r =>
    let r' := if origin ∈ pts then r + srcN + 1 else r + 1
    ((r', id.2), o) :: dstEntriesAux pts srcN rest (origin + 1) r'

/-- The classification pass of `insert` (`lib.rs` lines 152–199) over one
entry: collect the first Catalog id (contents from the current object),
merge Pages dictionaries (previously collected values win), skip `Page`,
`Outlines` and `Outline`, and copy everything else into the output
table. -/
def classifyStep
    (acc : Option (ObjectId × Object) × Option (ObjectId × Object) × List (ObjectId × Object))
    (e : ObjectId × Object) :
    Option (ObjectId × Object) × Option (ObjectId × Object) × List (ObjectId × Object) :=
  match typeName e.2 with
  | none => (acc.1, acc.2.1, btInsert acc.2.2 e.1 e.2)
  | some t =>
    if t = "Catalog" then
      (some ((match acc.1 with
              | some x => x.1
              | none => e.1), e.2), acc.2.1, acc.2.2)
    else if t = "Pages" then
      (match asDict e.2 with
       | some d =>
         let d' :=
           match acc.2.1 with
           | some (_, old) =>
             (match asDict old with
              | some oldd => dictExtend d oldd
              | none => d)
           | none => d
         (acc.1,
          some ((match acc.2.1 with
                 | some x => x.1
                 | none => e.1), Object.dictionary d'), acc.2.2)
       | none => acc)
    else if t = "Page" then acc
    else if t = "Outlines" then acc
    else if t = "Outline" then acc
    else (acc.1, acc.2.1, btInsert acc.2.2 e.1 e.2)

/-- The full classification pass: fold `classifyStep` over the merged object
table in ascending id order. -/
def classify (objs : List (ObjectId × Object)) :
    Option (ObjectId × Object) × Option (ObjectId × Object) × List (ObjectId × Object) :=
  objs.foldl classifyStep (none, none, [])

/-- The `Parent` rewrite loop of `insert` (`lib.rs` lines 208–217): every
dictionary entry of the position-ordered page table is given the surviving
Pages root as `Parent` and inserted into the output object table under its
position key; non-dictionary entries are skipped. -/
def parentLoop (base : List (ObjectId × Object)) (pagesTable : List (ObjectId × Object))
    (pagesId : ObjectId) : List (ObjectId × Object) :=
  pagesTable.foldl
    (fun acc kv =>
      match asDict kv.2 with
      | some d => btInsert acc kv.1 (Object.dictionary (dictSet d "Parent" (Object.reference pagesId)))
      | none => acc)
    base

/-- The source-block loop of `insert` (`lib.rs` lines 125–142): for each
insertion point `i`, number a fresh copy of the source's pages starting at
linear position `i + added_pages` and extend the page table with it,
then advance `added_pages` by the source page count. -/
def srcLoop (srcPairs : List (ObjectId × Object)) (srcN : Nat) :
    List Nat → List (ObjectId × Object) → Nat → List (ObjectId × Object)
  | [], m, _ => m
  | i :: rest, m, added =>
    srcLoop srcPairs srcN rest
      (btExtend m (btExtend [] (numberedFrom (i + added) srcPairs)))
      (added + srcN)

/-- Number of pages the merge will produce (`lib.rs` line 85):
`dst_num_pages + after_pages.len() * src_num_pages`. -/
def insertNumPages (dst : Document) (pts : List Nat) (src : Document) (fuel : Nat) : Nat :=
  (pageIds dst fuel).length + pts.length * (pageIds src fuel).length

/-- The destination document after `insert`'s first renumbering
(`lib.rs` line 91): ids start at `num_pages + 1`. -/
def insertDstRenum (dst : Document) (pts : List Nat) (src : Document) (fuel : Nat) : Document :=
  renumberWith (insertNumPages dst pts src fuel + 1) dst

/-- The source document after `insert`'s second renumbering
(`lib.rs` line 122): ids start at the destination's new high-water mark. -/
def insertSrcRenum (dst : Document) (pts : List Nat) (src : Document) (fuel : Nat) : Document :=
  renumberWith (insertDstRenum dst pts src fuel).maxId src

/-- The destination part of `documents_pages` (`lib.rs` lines 99–115),
collected into a `BTreeMap` and extended into the (empty) table. -/
def insertDstTable (dst : Document) (pts : List Nat) (src : Document) (fuel : Nat) :
    List (ObjectId × Object) :=
  btExtend []
    (btExtend []
      (dstEntriesAux pts (pageIds src fuel).length
        (pagesWithObjs (insertDstRenum dst pts src fuel) fuel) 0 0))

/-- The full `documents_pages` table after the source-block loop
(`lib.rs` lines 125–142). -/
def insertPagesTable (dst : Document) (pts : List Nat) (src : Document) (fuel : Nat) :
    List (ObjectId × Object) :=
  srcLoop (pagesWithObjs (insertSrcRenum dst pts src fuel) fuel)
    (pageIds src fuel).length pts (insertDstTable dst pts src fuel) 0

/-- `documents_objects` (`lib.rs` lines 116 and 143): the destination's
renumbered object table extended with the source's renumbered table. -/
def insertDocumentsObjects (dst : Document) (pts : List Nat) (src : Document) (fuel : Nat) :
    List (ObjectId × Object) :=
  btExtend (btExtend [] (insertDstRenum dst pts src fuel).objects)
    (insertSrcRenum dst pts src fuel).objects

/-- `Document::compress`.  Modelled from the spec (§6): an opportunistic
re-encoding of the object table that "must not change document semantics";
the embedding keeps the document unchanged. -/
def compress (doc : Document) : Document := doc

/-- `insert` (`lib.rs` lines 68–271).  The result is `panicked` when an
`assert!`/`unwrap` fires, `noWrite` for the two soft aborts (missing Pages
or Catalog root), and `saved d` when the merged document `d` is written
over the destination path. -/
def insert (dst : Document) (pts : List Nat) (src : Document) (fuel : Nat) : MergeResult :=
  let dstNum := (pageIds dst fuel).length
  let numPages := insertNumPages dst pts src fuel
  let dstPairs := pagesWithObjs (insertDstRenum dst pts src fuel) fuel
  let dstTable := insertDstTable dst pts src fuel
  if dstNum ≠ dstPairs.length then MergeResult.panicked
  else if dstTable.length ≠ dstNum then MergeResult.panicked
  else
    let table := insertPagesTable dst pts src fuel
    if table.length ≠ numPages then MergeResult.panicked
    else
      match classify (insertDocumentsObjects dst pts src fuel) with
      | (catalogObj, pagesObj, mains) =>
        match pagesObj with
        | none => MergeResult.noWrite
        | some (pagesId, pagesO) =>
          let objs1 := parentLoop mains table pagesId
          match catalogObj with
          | none => MergeResult.noWrite
          | some (catId, catO) =>
            let objs2 :=
              match asDict pagesO with
              | some pd =>
                btInsert objs1 pagesId
                  (Object.dictionary
                    (dictSet (dictSet pd "Count" (Object.integer table.length))
                      "Kids" (Object.array (table.map (fun kv => Object.reference kv.1)))))
              | none => objs1
            let objs3 :=
              match asDict catO with
              | some cd =>
                btInsert objs2 catId
                  (Object.dictionary
                    (dictRemove (dictSet cd "Pages" (Object.reference pagesId)) "Outlines"))
              | none => objs2
            let merged : Document :=
              { objects := objs3,
                trailer := dictSet [] "Root" (Object.reference catId),
                maxId := objs3.length }
            MergeResult.saved (compress (renumberWith 1 merged))

/-- A one-page document used as a concrete destination: catalog `(1,0)`
(with a marker key `X = 1`), pages root `(2,0)`, one page `(3,0)` (with a
marker key `M = 1`). -/
def exDst1 : Document :=
  { objects :=
      [((1, 0), Object.dictionary
          [("Type", Object.name "Catalog"), ("Pages", Object.reference (2, 0)),
           ("X", Object.integer 1)]),
       ((2, 0), Object.dictionary
          [("Type", Object.name "Pages"), ("Kids", Object.array [Object.reference (3, 0)]),
           ("Count", Object.integer 1)]),
       ((3, 0), Object.dictionary
          [("Type", Object.name "Page"), ("M", Object.integer 1)])],
    trailer := [("Root", Object.reference (1, 0))],
    maxId := 3 }

/-- A one-page document used as a concrete source: catalog marker `X = 2`,
a source-only pages-root key `S = 7`, page marker `M = 9`. -/
def exSrc1 : Document :=
  { objects :=
      [((1, 0), Object.dictionary
          [("Type", Object.name "Catalog"), ("Pages", Object.reference (2, 0)),
           ("X", Object.integer 2)]),
       ((2, 0), Object.dictionary
          [("Type", Object.name "Pages"), ("Kids", Object.array [Object.reference (3, 0)]),
           ("Count", Object.integer 1), ("S", Object.integer 7)]),
       ((3, 0), Object.dictionary
          [("Type", Object.name "Page"), ("M", Object.integer 9)])],
    trailer := [("Root", Object.reference (1, 0))],
    maxId := 3 }

/-- A two-page document (page markers `M = 1, 2`). -/
def exDst2 : Document :=
  { objects :=
      [((1, 0), Object.dictionary
          [("Type", Object.name "Catalog"), ("Pages", Object.reference (2, 0))]),
       ((2, 0), Object.dictionary
          [("Type", Object.name "Pages"),
           ("Kids", Object.array [Object.reference (3, 0), Object.reference (4, 0)]),
           ("Count", Object.integer 2)]),
       ((3, 0), Object.dictionary [("Type", Object.name "Page"), ("M", Object.integer 1)]),
       ((4, 0), Object.dictionary [("Type", Object.name "Page"), ("M", Object.integer 2)])],
    trailer := [("Root", Object.reference (1, 0))],
    maxId := 4 }

/-- A nine-page document matching the reference test fixture's destination
(`Test1.pdf` has nine pages). -/
def exDst9 : Document :=
  { objects :=
      [((1, 0), Object.dictionary
          [("Type", Object.name "Catalog"), ("Pages", Object.reference (2, 0))]),
       ((2, 0), Object.dictionary
          [("Type", Object.name "Pages"),
           ("Kids", Object.array
              [Object.reference (3, 0), Object.reference (4, 0), Object.reference (5, 0),
               Object.reference (6, 0), Object.reference (7, 0), Object.reference (8, 0),
               Object.reference (9, 0), Object.reference (10, 0), Object.reference (11, 0)]),
           ("Count", Object.integer 9)]),
       ((3, 0), Object.dictionary [("Type", Object.name "Page"), ("M", Object.integer 1)]),
       ((4, 0), Object.dictionary [("Type", Object.name "Page"), ("M", Object.integer 2)]),
       ((5, 0), Object.dictionary [("Type", Object.name "Page"), ("M", Object.integer 3)]),
       ((6, 0), Object.dictionary [("Type", Object.name "Page"), ("M", Object.integer 4)]),
       ((7, 0), Object.dictionary [("Type", Object.name "Page"), ("M", Object.integer 5)]),
       ((8, 0), Object.dictionary [("Type", Object.name "Page"), ("M", Object.integer 6)]),
       ((9, 0), Object.dictionary [("Type", Object.name "Page"), ("M", Object.integer 7)]),
       ((10, 0), Object.dictionary [("Type", Object.name "Page"), ("M", Object.integer 8)]),
       ((11, 0), Object.dictionary [("Type", Object.name "Page"), ("M", Object.integer 9)])],
    trailer := [("Root", Object.reference (1, 0))],
    maxId := 11 }

/-- A two-page document matching the reference test fixture's source
(`Test2.pdf` has two pages); page markers `M = 101, 102`. -/
def exSrc2 : Document :=
  { objects :=
      [((1, 0), Object.dictionary
          [("Type", Object.name "Catalog"), ("Pages", Object.reference (2, 0))]),
       ((2, 0), Object.dictionary
          [("Type", Object.name "Pages"),
           ("Kids", Object.array [Object.reference (3, 0), Object.reference (4, 0)]),
           ("Count", Object.integer 2)]),
       ((3, 0), Object.dictionary [("Type", Object.name "Page"), ("M", Object.integer 101)]),
       ((4, 0), Object.dictionary [("Type", Object.name "Page"), ("M", Object.integer 102)])],
    trailer := [("Root", Object.reference (1, 0))],
    maxId := 4 }

/-- A one-page source that carries an `Outlines` object, referenced from its
catalog. -/
def exOutSrc : Document :=
  { objects :=
      [((1, 0), Object.dictionary
          [("Type", Object.name "Catalog"), ("Pages", Object.reference (2, 0)),
           ("Outlines", Object.reference (4, 0))]),
       ((2, 0), Object.dictionary
          [("Type", Object.name "Pages"), ("Kids", Object.array [Object.reference (3, 0)]),
           ("Count", Object.integer 1)]),
       ((3, 0), Object.dictionary [("Type", Object.name "Page"), ("M", Object.integer 9)]),
       ((4, 0), Object.dictionary
          [("Type", Object.name "Outlines"), ("Count", Object.integer 0)])],
    trailer := [("Root", Object.reference (1, 0))],
    maxId := 4 }

/-- A loadable document with neither a Catalog nor a Pages object. -/
def exNoRoot : Document :=
  { objects :=
      [((1, 0), Object.dictionary [("Type", Object.name "XObject")])],
    trailer := [("Root", Object.reference (1, 0))],
    maxId := 1 }

/-- The `result_page_index` counter value after the destination walk has
processed `n` pages starting at origin `o` with counter `r`. -/
def rAfter (pts : List Nat) (s : Nat) : Nat → Nat → Nat → Nat
  | _, r, 0 => r
  | o, r, n + 1 => rAfter pts s (o + 1) (if o ∈ pts then r + s + 1 else r + 1) n

/-- Analysis view of the destination walk: the entry list split into the
point-free segments between consecutive insertion points, each segment
numbered consecutively, with an `s`-slot gap reserved at every point. -/
def dstSegs (s : Nat) : List Nat → List (ObjectId × Object) → Nat → Nat → List (ObjectId × Object)
  | [], rest, _, r => numberedFrom r rest
  | p :: ps, rest, o, r =>
    numberedFrom r (rest.take (p - o)) ++ dstSegs s ps (rest.drop (p - o)) p (r + (p - o) + s)

/-- Analysis view of the full merged page table in key order: destination
segments interleaved with one freshly numbered copy of the source pages
per insertion point (the copy occupying the gap the walk reserved). -/
def mergedSegs (srcPairs : List (ObjectId × Object)) (s : Nat) :
    List Nat → List (ObjectId × Object) → Nat → Nat → List (ObjectId × Object)
  | [], rest, _, r => numberedFrom r rest
  | p :: ps, rest, o, r =>
    numberedFrom r (rest.take (p - o)) ++ numberedFrom (r + (p - o)) srcPairs ++
      mergedSegs srcPairs s ps (rest.drop (p - o)) p (r + (p - o) + s)

/-- The concatenation of the source-block entry lists produced by the
source loop of `insert`, in loop order. -/
def blocksList (srcPairs : List (ObjectId × Object)) (s : Nat) :
    List Nat → Nat → List (ObjectId × Object)
  | [], _ => []
  | p :: ps, added => numberedFrom (p + added) srcPairs ++ blocksList srcPairs s ps (added + s)

/-- The page sequence the merge actually produces: the source sequence is
spliced in immediately BEFORE the destination page at each listed
(zero-based) index. -/
def spliced (src : List Object) : List Nat → List Object → Nat → List Object
  | [], rest, _ => rest
  | p :: ps, rest, o => rest.take (p - o) ++ src ++ spliced src ps (rest.drop (p - o)) p

/-- The page sequence the specification's merge ordering law describes:
destination pages `0..p` INCLUSIVE, then the source sequence, at each
listed index `p` (the source copy placed immediately AFTER page `p`).
Stated from the spec's words, for comparison with the code's order. -/
def splicedAfterSpec (src : List Object) : List Nat → List Object → Nat → List Object
  | [], rest, _ => rest
  | p :: ps, rest, o =>
    rest.take (p + 1 - o) ++ src ++ splicedAfterSpec src ps (rest.drop (p + 1 - o)) (p + 1)

/-- The entries of an object table whose declared type is `Catalog`, in
table order. -/
def catalogsIn (l : List (ObjectId × Object)) : List (ObjectId × Object) :=
  l.filter (fun e => typeName e.2 = some "Catalog")

/-- The entries of an object table whose declared type is `Pages`, in table
order. -/
def pagesIn (l : List (ObjectId × Object)) : List (ObjectId × Object) :=
  l.filter (fun e => typeName e.2 = some "Pages")

/-- Just the Catalog bookkeeping of the classification pass: on each
Catalog-typed entry, keep the first id seen and the current contents. -/
def catalogFold (c0 : Option (ObjectId × Object)) (l : List (ObjectId × Object)) :
    Option (ObjectId × Object) :=
  l.foldl
    (fun c e =>
      if typeName e.2 = some "Catalog" then
        some ((match c with
               | some x => x.1
               | none => e.1), e.2)
      else c) c0

/-- Just the Pages bookkeeping of the classification pass: on each
Pages-typed dictionary entry, keep the first id seen and merge the
dictionaries with the previously collected values winning. -/
def pagesFold (p0 : Option (ObjectId × Object)) (l : List (ObjectId × Object)) :
    Option (ObjectId × Object) :=
  l.foldl
    (fun p e =>
      if typeName e.2 = some "Pages" then
        match asDict e.2 with
        | some d =>
          let d' :=
            match p with
            | some (_, old) =>
              (match asDict old with
               | some oldd => dictExtend d oldd
               | none => d)
            | none => d
          some ((match p with
                 | some x => x.1
                 | none => e.1), Object.dictionary d')
        | none => p
      else p) p0

/-- The value the earliest dictionary in the list assigns to `k`, if any. -/
def firstVal (k : String) : List Dict → Option Object
  | [] => none
  | d :: rest =>
    match dictGet d k with
    | some v => some v
    | none => firstVal k rest

/-- Boolean test for a plain dictionary object. -/
def isDictObj (o : Object) : Bool :=
  match o with
  | Object.dictionary _ => true
  | _ => false

/-- Boolean test for a dictionary object with duplicate-free keys. -/
def dictKeysNodupB (o : Object) : Bool :=
  match o with
  | Object.dictionary d => decide ((d.map Prod.fst).Nodup)
  | _ => false

/-- The dictionaries of the Pages-typed entries of an object table, in
table order. -/
def pagesDictsOf (l : List (ObjectId × Object)) : List Dict :=
  (pagesIn l).filterMap (fun x => asDict x.2)

/-- The document `make_page_count_even` saves (before the final
renumbering) when the page count is odd: the original objects plus one new
leaf `Page` at id `(max_id + 1, 0)` whose `Parent` is the pages root, with
the root's `Kids` extended by a reference to it and its `Count` bumped by
one. -/
def makeEvenResultDoc (doc : Document) (pagesId : ObjectId) (pd : Dict)
    (kids : List Object) (cnt : Int) : Document :=
  { objects :=
      btInsert
        (btInsert doc.objects (doc.maxId + 1, 0)
          (Object.dictionary
            [("Type", Object.name "Page"), ("Parent", Object.reference pagesId)]))
        pagesId
        (Object.dictionary
          (dictSet (dictSet pd "Kids"
              (Object.array (kids ++ [Object.reference (doc.maxId + 1, 0)])))
            "Count" (Object.integer (cnt + 1)))),
    trailer := doc.trailer,
    maxId := doc.maxId + 1 }

/-- The Pages-root dictionary reached from the trailer: `Root` → catalog →
`Pages` (dereferenced) → plain dictionary.  The access path `lib.rs` uses
both in `make_page_count_even` (lines 28–35) and through lopdf's
`get_pages`. -/
def rootPagesDict (doc : Document) : Option Dict :=
  match catalogDict doc with
  | none => none
  | some cat =>
    match dictGet cat "Pages" with
    | none => none
    | some pref =>
      match derefChain doc (doc.objects.length + 1) pref with
      | none => none
      | some (_, Object.dictionary d) => some d
      | some _ => none

/-- The final object table `insert` builds after classification
(`lib.rs` lines 207–247): the kept objects, the page table with rewritten
`Parent`s, the rebuilt Pages root (fresh `Count` and `Kids`) and the
rebuilt Catalog (fresh `Pages`, `Outlines` dropped). -/
def insertObjs3 (mains table : List (ObjectId × Object)) (pagesId catId : ObjectId)
    (pd cd : Dict) : List (ObjectId × Object) :=
  btInsert
    (btInsert (parentLoop mains table pagesId) pagesId
      (Object.dictionary
        (dictSet (dictSet pd "Count" (Object.integer table.length))
          "Kids" (Object.array (table.map (fun kv => Object.reference kv.1))))))
    catId
    (Object.dictionary (dictRemove (dictSet cd "Pages" (Object.reference pagesId)) "Outlines"))

/-- The merged document `insert` hands to the final renumbering
(`lib.rs` lines 249–260): the built object table, a fresh trailer whose
`Root` is the surviving catalog id, and the table length as high-water
mark. -/
def mergedDocOf (objs3 : List (ObjectId × Object)) (catId : ObjectId) : Document :=
  { objects := objs3,
    trailer := dictSet [] "Root" (Object.reference catId),
    maxId := objs3.length }

/-- Entry order for sorted object tables: compare keys with `idLt`. -/
def entLt {α : Type} (a b : ObjectId × α) : Prop := idLt a.1 b.1

instance {α : Type} (a b : ObjectId × α) : Decidable (entLt a b) :=
  inferInstanceAs (Decidable (idLt a.1 b.1))

theorem idLt_trans {a b c : ObjectId} (h1 : idLt a b) (h2 : idLt b c) : idLt a c := by
  rcases a with ⟨a1, a2⟩; rcases b with ⟨b1, b2⟩; rcases c with ⟨c1, c2⟩
  simp only [idLt] at *
  omega

theorem idLt_irrefl (a : ObjectId) : ¬ idLt a a := by
  rcases a with ⟨a1, a2⟩
  simp only [idLt]
  omega

theorem idLt_asymm {a b : ObjectId} (h : idLt a b) : ¬ idLt b a := by
  rcases a with ⟨a1, a2⟩; rcases b with ⟨b1, b2⟩
  simp only [idLt] at *
  omega

instance {α : Type} : IsAntisymm (ObjectId × α) entLt :=
  ⟨fun _ _ h1 h2 => absurd h2 (idLt_asymm h1)⟩

theorem idLt_ne {a b : ObjectId} (h : idLt a b) : a ≠ b := by
  intro he
  exact idLt_irrefl a (he ▸ h)

theorem idLt_total {a b : ObjectId} (h1 : ¬ idLt a b) (h2 : ¬ a = b) : idLt b a := by
  rcases a with ⟨a1, a2⟩; rcases b with ⟨b1, b2⟩
  simp only [idLt, Prod.mk.injEq] at *
  omega

theorem btInsert_mem {α : Type} {m : List (ObjectId × α)} {k : ObjectId} {v : α} :
    ∀ x ∈ btInsert m k v, x = (k, v) ∨ x ∈ m := by
  induction m with
  | nil =>
    intro x hx
    simp only [btInsert, List.mem_singleton] at hx
    exact Or.inl hx
  | cons e rest ih =>
    intro x hx
    rcases e with ⟨k', v'⟩
    by_cases h1 : idLt k k'
    · rw [show btInsert ((k', v') :: rest) k v = (k, v) :: (k', v') :: rest from by
        simp [btInsert, h1]] at hx
      rcases List.mem_cons.mp hx with h | h
      · exact Or.inl h
      · exact Or.inr h
    · by_cases h2 : k = k'
      · rw [show btInsert ((k', v') :: rest) k v = (k, v) :: rest from by
          simp [btInsert, h1, h2, idLt_irrefl]] at hx
        rcases List.mem_cons.mp hx with h | h
        · exact Or.inl h
        · exact Or.inr (List.mem_cons_of_mem _ h)
      · rw [show btInsert ((k', v') :: rest) k v = (k', v') :: btInsert rest k v from by
          simp [btInsert, h1, h2]] at hx
        rcases List.mem_cons.mp hx with h | h
        · exact Or.inr (by simp [h])
        · rcases ih x h with h' | h'
          · exact Or.inl h'
          · exact Or.inr (List.mem_cons_of_mem _ h')

theorem btInsert_sorted {α : Type} {m : List (ObjectId × α)} (h : m.Pairwise entLt)
    (k : ObjectId) (v : α) : (btInsert m k v).Pairwise entLt := by
  induction m with
  | nil => simp [btInsert]
  | cons e rest ih =>
    rcases e with ⟨k', v'⟩
    rcases List.pairwise_cons.mp h with ⟨hhead, htail⟩
    by_cases h1 : idLt k k'
    · rw [show btInsert ((k', v') :: rest) k v = (k, v) :: (k', v') :: rest from by
        simp [btInsert, h1]]
      refine List.pairwise_cons.mpr ⟨?_, h⟩
      intro x hx
      rcases List.mem_cons.mp hx with hx' | hx'
      · subst hx'; exact h1
      · exact idLt_trans h1 (hhead x hx')
    · by_cases h2 : k = k'
      · rw [show btInsert ((k', v') :: rest) k v = (k, v) :: rest from by
          simp [btInsert, h1, h2, idLt_irrefl]]
        refine List.pairwise_cons.mpr ⟨?_, htail⟩
        intro x hx
        have := hhead x hx
        simpa [entLt, h2] using this
      · rw [show btInsert ((k', v') :: rest) k v = (k', v') :: btInsert rest k v from by
          simp [btInsert, h1, h2]]
        refine List.pairwise_cons.mpr ⟨?_, ih htail⟩
        intro x hx
        rcases btInsert_mem x hx with h' | h'
        · subst h'
          exact idLt_total h1 h2
        · exact hhead x h'

theorem btInsert_perm_fresh {α : Type} {m : List (ObjectId × α)} {k : ObjectId} {v : α}
    (h : k ∉ m.map Prod.fst) : List.Perm (btInsert m k v) ((k, v) :: m) := by
  induction m with
  | nil => simp [btInsert]
  | cons e rest ih =>
    rcases e with ⟨k', v'⟩
    simp only [List.map_cons, List.mem_cons] at h
    push_neg at h
    by_cases h1 : idLt k k'
    · rw [show btInsert ((k', v') :: rest) k v = (k, v) :: (k', v') :: rest from by
        simp [btInsert, h1]]
    · by_cases h2 : k = k'
      · exact absurd h2 h.1
      · rw [show btInsert ((k', v') :: rest) k v = (k', v') :: btInsert rest k v from by
          simp [btInsert, h1, h2]]
        exact List.Perm.trans (List.Perm.cons _ (ih h.2)) (List.Perm.swap _ _ _)

theorem btInsert_append_big {α : Type} {m : List (ObjectId × α)} {k : ObjectId} {v : α}
    (h : ∀ e ∈ m, idLt e.1 k) : btInsert m k v = m ++ [(k, v)] := by
  induction m with
  | nil => simp [btInsert]
  | cons e rest ih =>
    rcases e with ⟨k', v'⟩
    have hk : idLt k' k := h (k', v') (by simp)
    have h1 : ¬ idLt k k' := idLt_asymm hk
    have h2 : ¬ k = k' := fun he => idLt_irrefl k (he ▸ hk)
    simp only [btInsert, if_neg h1, if_neg h2, List.cons_append, List.cons.injEq, true_and]
    exact ih (fun e he => h e (by simp [he]))

theorem sorted_keys_nodup {α : Type} {m : List (ObjectId × α)} (h : m.Pairwise entLt) :
    (m.map Prod.fst).Nodup := by
  exact (List.pairwise_map).mpr (h.imp (fun hab => idLt_ne hab))

theorem btLookup_not_mem {α : Type} {m : List (ObjectId × α)} {k : ObjectId}
    (h : k ∉ m.map Prod.fst) : btLookup m k = none := by
  induction m with
  | nil => rfl
  | cons e rest ih =>
    rcases e with ⟨k', v'⟩
    simp only [List.map_cons, List.mem_cons] at h
    push_neg at h
    simp only [btLookup, if_neg (fun he : k' = k => h.1 he.symm)]
    exact ih h.2

theorem btLookup_mem_nodup {α : Type} {m : List (ObjectId × α)} {k : ObjectId} {v : α}
    (hm : (k, v) ∈ m) (hn : (m.map Prod.fst).Nodup) : btLookup m k = some v := by
  induction m with
  | nil => cases hm
  | cons e rest ih =>
    rcases e with ⟨k', v'⟩
    simp only [List.map_cons, List.nodup_cons] at hn
    rcases List.mem_cons.mp hm with h | h
    · cases h
      simp [btLookup]
    · have hne : k' ≠ k := by
        intro he
        subst he
        exact hn.1 (by
          have : k' ∈ rest.map Prod.fst := by
            exact List.mem_map.mpr ⟨(k', v), h, rfl⟩
          exact this)
      simp only [btLookup, if_neg hne]
      exact ih h hn.2

theorem btExtend_nil {α : Type} (m : List (ObjectId × α)) : btExtend m [] = m := rfl

theorem btExtend_cons {α : Type} (m : List (ObjectId × α)) (e : ObjectId × α)
    (l : List (ObjectId × α)) : btExtend m (e :: l) = btExtend (btInsert m e.1 e.2) l := rfl

theorem btExtend_sorted {α : Type} {l m : List (ObjectId × α)} (h : m.Pairwise entLt) :
    (btExtend m l).Pairwise entLt := by
  induction l generalizing m with
  | nil => exact h
  | cons e rest ih =>
    rw [btExtend_cons]
    exact ih (btInsert_sorted h e.1 e.2)

theorem btExtend_perm {α : Type} {l m : List (ObjectId × α)}
    (h : (m.map Prod.fst ++ l.map Prod.fst).Nodup) : List.Perm (btExtend m l) (m ++ l) := by
  induction l generalizing m with
  | nil => simp [btExtend_nil]
  | cons e rest ih =>
    rcases e with ⟨k, v⟩
    rw [List.map_cons] at h
    rcases List.nodup_append.mp h with ⟨hm, hl, hdisj⟩
    rcases List.nodup_cons.mp hl with ⟨hkrest, hrest⟩
    have hfresh : k ∉ m.map Prod.fst := fun hk => hdisj hk (by simp)
    have hperm1 : List.Perm (btInsert m k v) ((k, v) :: m) := btInsert_perm_fresh hfresh
    have hnodup' : ((btInsert m k v).map Prod.fst ++ rest.map Prod.fst).Nodup := by
      have hperm2 : List.Perm ((btInsert m k v).map Prod.fst ++ rest.map Prod.fst)
          (k :: (m.map Prod.fst ++ rest.map Prod.fst)) := by
        have := (hperm1.map Prod.fst).append_right (rest.map Prod.fst)
        simpa using this
      refine (List.Perm.nodup_iff hperm2).mpr ?_
      refine List.nodup_cons.mpr ⟨?_, ?_⟩
      · intro hk
        rcases List.mem_append.mp hk with hk' | hk'
        · exact hfresh hk'
        · exact hkrest hk'
      · refine List.nodup_append.mpr ⟨hm, hrest, ?_⟩
        intro a ha ha'
        exact hdisj ha (by simp [ha'])
    have hmain : List.Perm (btExtend (btInsert m k v) rest) (btInsert m k v ++ rest) :=
      ih hnodup'
    rw [btExtend_cons]
    refine hmain.trans ?_
    refine (hperm1.append_right rest).trans ?_
    exact List.perm_middle.symm

theorem btExtend_big_append {α : Type} {l m : List (ObjectId × α)}
    (hm : m.Pairwise entLt) (hl : l.Pairwise entLt)
    (hcross : ∀ e ∈ m, ∀ e' ∈ l, idLt e.1 e'.1) : btExtend m l = m ++ l := by
  induction l generalizing m with
  | nil => simp [btExtend_nil]
  | cons e rest ih =>
    rcases e with ⟨k, v⟩
    rcases List.pairwise_cons.mp hl with ⟨hhead, htail⟩
    rw [btExtend_cons]
    have hins : btInsert m k v = m ++ [(k, v)] :=
      btInsert_append_big (fun e he => hcross e he (k, v) (by simp))
    rw [hins]
    have hm' : (m ++ [(k, v)]).Pairwise entLt := by
      refine List.pairwise_append.mpr ⟨hm, by simp, ?_⟩
      intro a ha b hb
      rcases List.mem_singleton.mp hb with rfl
      exact hcross a ha (k, v) (by simp)
    have hcross' : ∀ e ∈ m ++ [(k, v)], ∀ e' ∈ rest, idLt e.1 e'.1 := by
      intro e he e' he'
      rcases List.mem_append.mp he with he2 | he2
      · exact hcross e he2 e' (by simp [he'])
      · rcases List.mem_singleton.mp he2 with rfl
        exact hhead e' he'
    rw [ih hm' htail hcross', List.append_assoc]
    rfl

theorem btExtend_asc_of_nil {α : Type} {l : List (ObjectId × α)} (hl : l.Pairwise entLt) :
    btExtend [] l = l := by
  rw [btExtend_big_append (by simp) hl (by simp)]
  rfl

theorem btExtend_keys_subset {α : Type} {l m : List (ObjectId × α)} :
    ∀ x ∈ btExtend m l, x ∈ m ∨ x ∈ l := by
  induction l generalizing m with
  | nil => intro x hx; exact Or.inl hx
  | cons e rest ih =>
    intro x hx
    rw [btExtend_cons] at hx
    rcases ih x hx with h | h
    · rcases btInsert_mem x h with h' | h'
      · exact Or.inr (by simp [h'])
      · exact Or.inl h'
    · exact Or.inr (by simp [h])

theorem dictGet_not_mem {d : Dict} {k : String} (h : k ∉ d.map Prod.fst) :
    dictGet d k = none := by
  induction d with
  | nil => rfl
  | cons e rest ih =>
    rcases e with ⟨k', v'⟩
    simp only [List.map_cons, List.mem_cons] at h
    push_neg at h
    simp only [dictGet, if_neg (fun he : k' = k => h.1 he.symm)]
    exact ih h.2

theorem dictGet_set_self (d : Dict) (k : String) (v : Object) :
    dictGet (dictSet d k v) k = some v := by
  induction d with
  | nil => simp [dictSet, dictGet]
  | cons e rest ih =>
    rcases e with ⟨k', v'⟩
    by_cases h : k' = k
    · simp [dictSet, dictGet, h]
    · simp [dictSet, dictGet, h, ih]

theorem dictGet_set_other {d : Dict} {k k' : String} (v : Object) (h : k' ≠ k) :
    dictGet (dictSet d k v) k' = dictGet d k' := by
  induction d with
  | nil => simp [dictSet, dictGet, Ne.symm h]
  | cons e rest ih =>
    rcases e with ⟨k0, v0⟩
    by_cases h0 : k0 = k
    · subst h0
      simp [dictSet, dictGet, Ne.symm h]
    · simp [dictSet, dictGet, h0, ih]

theorem dictGet_remove_self (d : Dict) (k : String) :
    dictGet (dictRemove d k) k = none := by
  induction d with
  | nil => rfl
  | cons e rest ih =>
    rcases e with ⟨k', v'⟩
    by_cases h : k' = k
    · simp [dictRemove, h, ih]
    · simp [dictRemove, dictGet, h, ih]

theorem dictGet_remove_other {d : Dict} {k k' : String} (h : k' ≠ k) :
    dictGet (dictRemove d k) k' = dictGet d k' := by
  induction d with
  | nil => rfl
  | cons e rest ih =>
    rcases e with ⟨k0, v0⟩
    by_cases h0 : k0 = k
    · subst h0
      simp [dictRemove, dictGet, Ne.symm h, ih]
    · simp [dictRemove, dictGet, h0, ih]

theorem dictExtend_get {o : Dict} {s : Dict} {k : String} (h : (o.map Prod.fst).Nodup) :
    dictGet (dictExtend s o) k =
      match dictGet o k with
      | some v => some v
      | none => dictGet s k := by
  induction o generalizing s with
  | nil => simp [dictExtend, dictGet]
  | cons e rest ih =>
    rcases e with ⟨k0, v0⟩
    rw [List.map_cons] at h
    rcases List.nodup_cons.mp h with ⟨hk0, hrest⟩
    have hstep : dictExtend s ((k0, v0) :: rest) = dictExtend (dictSet s k0 v0) rest := rfl
    rw [hstep, ih hrest]
    by_cases h0 : k0 = k
    · subst h0
      have : dictGet rest k0 = none := dictGet_not_mem hk0
      simp [dictGet, this, dictGet_set_self]
    · simp [dictGet, h0, dictGet_set_other _ (fun he : k = k0 => h0 he.symm)]

theorem renameObjList_eq_map (σ : ObjectId → ObjectId) (l : List Object) :
    renameObjList σ l = l.map (renameObj σ) := by
  induction l with
  | nil => rfl
  | cons x xs ih => simp [renameObjList, ih]

theorem renameDict_get (σ : ObjectId → ObjectId) (d : Dict) (k : String) :
    dictGet (renameDict σ d) k = (dictGet d k).map (renameObj σ) := by
  induction d with
  | nil => rfl
  | cons e rest ih =>
    rcases e with ⟨k', v'⟩
    by_cases h : k' = k
    · simp [renameDict, dictGet, h]
    · simp [renameDict, dictGet, h, ih]

theorem dictTypeName_rename (σ : ObjectId → ObjectId) (d : Dict) :
    dictTypeName (renameDict σ d) = dictTypeName d := by
  unfold dictTypeName
  rw [renameDict_get]
  cases h : dictGet d "Type" with
  | none => rfl
  | some o => cases o <;> simp [renameObj]

theorem typeName_rename (σ : ObjectId → ObjectId) (o : Object) :
    typeName (renameObj σ o) = typeName o := by
  cases o <;> simp [renameObj, typeName, dictTypeName_rename]

theorem asDict_rename (σ : ObjectId → ObjectId) (o : Object) :
    asDict (renameObj σ o) = (asDict o).map (renameDict σ) := by
  cases o <;> simp [renameObj, asDict]

theorem objDict_rename (σ : ObjectId → ObjectId) (o : Object) :
    objDict (renameObj σ o) = (objDict o).map (renameDict σ) := by
  cases o <;> simp [renameObj, objDict]

theorem renumberId_mem_lower {ids : List ObjectId} {r : ObjectId} (h : r ∈ ids) (s : Nat) :
    s ≤ (renumberId ids s r).1 := by
  induction ids generalizing s with
  | nil => cases h
  | cons i rest ih =>
    by_cases h0 : i = r
    · simp [renumberId, h0]
    · rcases List.mem_cons.mp h with h1 | h1
      · exact absurd h1.symm h0
      · have := ih h1 (s + 1)
        simp only [renumberId, if_neg h0]
        omega

theorem renumberId_head {i : ObjectId} (rest : List ObjectId) (s : Nat) :
    renumberId (i :: rest) s i = (s, i.2) := by
  simp [renumberId]

theorem renumberId_mono {ids : List ObjectId} (hs : ids.Pairwise idLt) {a b : ObjectId}
    (ha : a ∈ ids) (hb : b ∈ ids) (hab : idLt a b) (s : Nat) :
    idLt (renumberId ids s a) (renumberId ids s b) := by
  induction ids generalizing s with
  | nil => cases ha
  | cons i rest ih =>
    rcases List.pairwise_cons.mp hs with ⟨hhead, htail⟩
    by_cases hia : i = a
    · subst hia
      have hib : ¬ i = b := fun he => idLt_irrefl i (he ▸ hab)
      have hbrest : b ∈ rest := by
        rcases List.mem_cons.mp hb with h1 | h1
        · exact absurd h1.symm hib
        · exact h1
      rw [renumberId_head, show renumberId (i :: rest) s b = renumberId rest (s + 1) b from by
        simp [renumberId, hib]]
      have := renumberId_mem_lower hbrest (s + 1)
      exact Or.inl (by omega)
    · have harest : a ∈ rest := by
        rcases List.mem_cons.mp ha with h1 | h1
        · exact absurd h1.symm hia
        · exact h1
      have hib : ¬ i = b := by
        intro he
        subst he
        exact idLt_asymm (hhead a harest) hab
      have hbrest : b ∈ rest := by
        rcases List.mem_cons.mp hb with h1 | h1
        · exact absurd h1.symm hib
        · exact h1
      rw [show renumberId (i :: rest) s a = renumberId rest (s + 1) a from by
        simp [renumberId, hia],
        show renumberId (i :: rest) s b = renumberId rest (s + 1) b from by
        simp [renumberId, hib]]
      exact ih htail harest hbrest (s + 1)

theorem renumberWith_objects (s : Nat) (doc : Document) :
    (renumberWith s doc).objects =
      doc.objects.map (fun kv =>
        (renumberId (doc.objects.map Prod.fst) s kv.1,
         renameObj (renumberId (doc.objects.map Prod.fst) s) kv.2)) := rfl

theorem renumberWith_sorted {doc : Document} (h : doc.objects.Pairwise entLt) (s : Nat) :
    (renumberWith s doc).objects.Pairwise entLt := by
  rw [renumberWith_objects]
  rw [List.pairwise_map]
  have hkeys : (doc.objects.map Prod.fst).Pairwise idLt := (List.pairwise_map).mpr h
  refine List.Pairwise.imp_of_mem ?_ h
  intro a b ha hb hab
  exact renumberId_mono hkeys (List.mem_map.mpr ⟨a, ha, rfl⟩) (List.mem_map.mpr ⟨b, hb, rfl⟩) hab s

theorem renumberWith_lookup {doc : Document} (h : doc.objects.Pairwise entLt) {k : ObjectId}
    {v : Object} (hm : (k, v) ∈ doc.objects) (s : Nat) :
    btLookup (renumberWith s doc).objects (renumberId (doc.objects.map Prod.fst) s k) =
      some (renameObj (renumberId (doc.objects.map Prod.fst) s) v) := by
  have hsorted := renumberWith_sorted h s
  refine btLookup_mem_nodup ?_ (sorted_keys_nodup hsorted)
  rw [renumberWith_objects]
  exact List.mem_map.mpr ⟨(k, v), hm, rfl⟩

theorem renumberWith_keys_lower {doc : Document} {s : Nat} {k : ObjectId}
    (h : k ∈ (renumberWith s doc).objects.map Prod.fst) : s ≤ k.1 := by
  rw [renumberWith_objects] at h
  rcases List.mem_map.mp h with ⟨kv, hkv, rfl⟩
  rcases List.mem_map.mp hkv with ⟨e, he, rfl⟩
  exact renumberId_mem_lower (List.mem_map.mpr ⟨e, he, rfl⟩) s

theorem btLookup_some_mem {α : Type} {m : List (ObjectId × α)} {k : ObjectId} {v : α}
    (h : btLookup m k = some v) : (k, v) ∈ m := by
  induction m with
  | nil => cases h
  | cons e rest ih =>
    rcases e with ⟨k', v'⟩
    by_cases h0 : k' = k
    · subst h0
      simp [btLookup] at h
      simp [h]
    · simp only [btLookup, if_neg h0] at h
      exact List.mem_cons_of_mem _ (ih h)

theorem btLookup_mem_keys {α : Type} {m : List (ObjectId × α)} {k : ObjectId}
    (h : k ∈ m.map Prod.fst) : ∃ v, btLookup m k = some v := by
  induction m with
  | nil => cases h
  | cons e rest ih =>
    rcases e with ⟨k', v'⟩
    by_cases h0 : k' = k
    · exact ⟨v', by simp [btLookup, h0]⟩
    · rw [List.map_cons, List.mem_cons] at h
      rcases h with h | h
      · exact absurd h.symm h0
      · rcases ih h with ⟨v, hv⟩
        exact ⟨v, by simp [btLookup, h0, hv]⟩

theorem pagesFromAux_cons (doc : Document) (fuel : Nat) (kid : Object) (rest : List Object) :
    pagesFromAux doc fuel (kid :: rest) =
      (match kid with
       | Object.reference id =>
         (match btLookup doc.objects id with
          | some o =>
            (match typeName o with
             | some t =>
               if t = "Page" then [(id, o)]
               else if t = "Pages" then
                 match fuel with
                 | 0 => []
                 | fuel' + 1 => pagesFromAux doc fuel' (kidsOf o)
               else []
             | none => [])
          | none => [])
       | _ => []) ++ pagesFromAux doc fuel rest := by
  cases fuel <;> cases kid <;> rfl

theorem pagesVisitsAux_cons (doc : Document) (fuel : Nat) (kid : Object) (rest : List Object) :
    pagesVisitsAux doc fuel (kid :: rest) =
      (match kid with
       | Object.reference id =>
         id ::
         (match btLookup doc.objects id with
          | some o =>
            (match typeName o with
             | some t =>
               if t = "Page" then []
               else if t = "Pages" then
                 match fuel with
                 | 0 => []
                 | fuel' + 1 => pagesVisitsAux doc fuel' (kidsOf o)
               else []
             | none => [])
          | none => [])
       | _ => []) ++ pagesVisitsAux doc fuel rest := by
  cases fuel <;> cases kid <;> rfl

theorem pagesFromAux_nil (doc : Document) (fuel : Nat) : pagesFromAux doc fuel [] = [] := by
  cases fuel <;> rfl

theorem pagesVisitsAux_nil (doc : Document) (fuel : Nat) : pagesVisitsAux doc fuel [] = [] := by
  cases fuel <;> rfl

theorem pagesFromAux_append (doc : Document) (fuel : Nat) (a b : List Object) :
    pagesFromAux doc fuel (a ++ b) = pagesFromAux doc fuel a ++ pagesFromAux doc fuel b := by
  induction a with
  | nil => simp [pagesFromAux_nil]
  | cons kid rest ih =>
    rw [List.cons_append, pagesFromAux_cons, pagesFromAux_cons, ih, List.append_assoc]

theorem pagesVisitsAux_append (doc : Document) (fuel : Nat) (a b : List Object) :
    pagesVisitsAux doc fuel (a ++ b) = pagesVisitsAux doc fuel a ++ pagesVisitsAux doc fuel b := by
  induction a with
  | nil => simp [pagesVisitsAux_nil]
  | cons kid rest ih =>
    rw [List.cons_append, pagesVisitsAux_cons, pagesVisitsAux_cons, ih, List.append_assoc]

theorem pagesFromAux_post (doc : Document) :
    ∀ (fuel : Nat) (ks : List Object), ∀ e ∈ pagesFromAux doc fuel ks,
      btLookup doc.objects e.1 = some e.2 ∧ typeName e.2 = some "Page" := by
  intro fuel
  induction fuel using Nat.strong_induction_on with
  | _ fuel ihf =>
    intro ks
    induction ks with
    | nil => intro e he; rw [pagesFromAux_nil] at he; cases he
    | cons kid rest ihk =>
      intro e he
      rw [pagesFromAux_cons] at he
      rcases List.mem_append.mp he with h | h
      · cases kid with
        | reference id =>
          rcases hlook : btLookup doc.objects id with _ | o
          · simp [hlook] at h
          · rcases htype : typeName o with _ | t
            · simp [hlook, htype] at h
            · by_cases hp : t = "Page"
              · simp [hlook, htype, hp] at h
                subst h
                exact ⟨hlook, by rw [htype, hp]⟩
              · by_cases hps : t = "Pages"
                · cases fuel with
                  | zero => simp [hlook, htype, hp, hps] at h
                  | succ fuel' =>
                    simp only [hlook, htype, if_neg hp, if_pos hps] at h
                    exact ihf fuel' (by omega) (kidsOf o) e h
                · simp [hlook, htype, hp, hps] at h
        | null => simp at h
        | boolean b => simp at h
        | integer i => simp at h
        | real p => simp at h
        | string s => simp at h
        | name n => simp at h
        | array xs => simp at h
        | dictionary d => simp at h
        | stream d c => simp at h
      · exact ihk e h

theorem kidsOf_rename (σ : ObjectId → ObjectId) (o : Object) :
    kidsOf (renameObj σ o) = renameObjList σ (kidsOf o) := by
  unfold kidsOf
  rw [objDict_rename]
  cases h : objDict o with
  | none => simp [renameObjList]
  | some d =>
    simp only [Option.map_some']
    rw [renameDict_get]
    cases h2 : dictGet d "Kids" with
    | none => simp [renameObjList]
    | some v => cases v <;> simp [renameObj, renameObjList]

theorem pagesAux_agree (doc1 doc2 : Document) :
    ∀ (fuel : Nat) (ks : List Object),
      (∀ v ∈ pagesVisitsAux doc1 fuel ks, btLookup doc2.objects v = btLookup doc1.objects v) →
      pagesFromAux doc2 fuel ks = pagesFromAux doc1 fuel ks ∧
      pagesVisitsAux doc2 fuel ks = pagesVisitsAux doc1 fuel ks := by
  intro fuel
  induction fuel using Nat.strong_induction_on with
  | _ fuel ihf =>
    intro ks
    induction ks with
    | nil => intro _; simp [pagesFromAux_nil, pagesVisitsAux_nil]
    | cons kid rest ihk =>
      intro hyp
      rw [pagesVisitsAux_cons] at hyp
      have hrest : ∀ v ∈ pagesVisitsAux doc1 fuel rest,
          btLookup doc2.objects v = btLookup doc1.objects v :=
        fun v hv => hyp v (List.mem_append_right _ hv)
      rcases ihk hrest with ⟨ihk1, ihk2⟩
      cases kid
      case reference id =>
        have hid : btLookup doc2.objects id = btLookup doc1.objects id := hyp id (by simp)
        rcases hlook : btLookup doc1.objects id with _ | o
        · constructor <;>
            simp [pagesFromAux_cons, pagesVisitsAux_cons, hid, hlook, ihk1, ihk2]
        · rcases htype : typeName o with _ | t
          · constructor <;>
              simp [pagesFromAux_cons, pagesVisitsAux_cons, hid, hlook, htype, ihk1, ihk2]
          · by_cases hp : t = "Page"
            · subst hp
              constructor <;>
                simp [pagesFromAux_cons, pagesVisitsAux_cons, hid, hlook, htype, ihk1, ihk2]
            · by_cases hps : t = "Pages"
              · subst hps
                cases fuel with
                | zero =>
                  constructor <;>
                    simp [pagesFromAux_cons, pagesVisitsAux_cons, hid, hlook, htype, ihk1, ihk2]
                | succ fuel' =>
                  have hsub : ∀ v ∈ pagesVisitsAux doc1 fuel' (kidsOf o),
                      btLookup doc2.objects v = btLookup doc1.objects v := by
                    intro v hv
                    exact hyp v (by simp [hlook, htype, hv])
                  rcases ihf fuel' (Nat.lt_succ_self _) (kidsOf o) hsub with ⟨hs1, hs2⟩
                  constructor <;>
                    simp [pagesFromAux_cons, pagesVisitsAux_cons, hid, hlook, htype, ihk1,
                      ihk2, hs1, hs2]
              · constructor <;>
                  simp [pagesFromAux_cons, pagesVisitsAux_cons, hid, hlook, htype, hp, hps,
                    ihk1, ihk2]
      all_goals
        constructor <;> simp [pagesFromAux_cons, pagesVisitsAux_cons, ihk1, ihk2]

theorem pagesFromAux_renumber {doc : Document} (hs : doc.objects.Pairwise entLt) (s : Nat) :
    ∀ (fuel : Nat) (ks : List Object),
      (∀ v ∈ pagesVisitsAux doc fuel ks, v ∈ doc.objects.map Prod.fst) →
      pagesFromAux (renumberWith s doc) fuel
          (renameObjList (renumberId (doc.objects.map Prod.fst) s) ks) =
        (pagesFromAux doc fuel ks).map
          (fun kv => (renumberId (doc.objects.map Prod.fst) s kv.1,
                      renameObj (renumberId (doc.objects.map Prod.fst) s) kv.2)) := by
  intro fuel
  induction fuel using Nat.strong_induction_on with
  | _ fuel ihf =>
    intro ks
    induction ks with
    | nil => intro _; simp [pagesFromAux_nil, renameObjList]
    | cons kid rest ihk =>
      intro hyp
      rw [pagesVisitsAux_cons] at hyp
      have hrest : ∀ v ∈ pagesVisitsAux doc fuel rest, v ∈ doc.objects.map Prod.fst :=
        fun v hv => hyp v (List.mem_append_right _ hv)
      have ihk1 := ihk hrest
      cases kid
      case reference id =>
        have hidk : id ∈ doc.objects.map Prod.fst := hyp id (by simp)
        rcases btLookup_mem_keys hidk with ⟨v, hv⟩
        have hmem : (id, v) ∈ doc.objects := btLookup_some_mem hv
        have hlookR :
            btLookup (renumberWith s doc).objects
              (renumberId (doc.objects.map Prod.fst) s id) =
            some (renameObj (renumberId (doc.objects.map Prod.fst) s) v) :=
          renumberWith_lookup hs hmem s
        have htypeR :
            typeName (renameObj (renumberId (doc.objects.map Prod.fst) s) v) = typeName v :=
          typeName_rename _ v
        rcases htype : typeName v with _ | t
        · rw [htype] at htypeR
          simp [pagesFromAux_cons, renameObjList, renameObj, hlookR, htypeR, hv, htype, ihk1]
        · rw [htype] at htypeR
          by_cases hp : t = "Page"
          · subst hp
            simp [pagesFromAux_cons, renameObjList, renameObj, hlookR, htypeR, hv, htype, ihk1]
          · by_cases hps : t = "Pages"
            · subst hps
              cases fuel with
              | zero =>
                simp [pagesFromAux_cons, renameObjList, renameObj, hlookR, htypeR, hv, htype,
                  ihk1]
              | succ fuel' =>
                have hsub : ∀ u ∈ pagesVisitsAux doc fuel' (kidsOf v),
                    u ∈ doc.objects.map Prod.fst := by
                  intro u hu
                  exact hyp u (by simp [hv, htype, hu])
                have ihs := ihf fuel' (Nat.lt_succ_self _) (kidsOf v) hsub
                simp [pagesFromAux_cons, renameObjList, renameObj, hlookR, htypeR, hv, htype,
                  ihk1, kidsOf_rename, ihs]
            · simp [pagesFromAux_cons, renameObjList, renameObj, hlookR, htypeR, hv, htype,
                hp, hps, ihk1]
      all_goals
        simp [pagesFromAux_cons, renameObjList, renameObj, ihk1]

theorem numberedFrom_length (r : Nat) (l : List (ObjectId × Object)) :
    (numberedFrom r l).length = l.length := by
  induction l generalizing r with
  | nil => rfl
  | cons e rest ih => cases e; simp [numberedFrom, ih]

theorem numberedFrom_append (r : Nat) (a b : List (ObjectId × Object)) :
    numberedFrom r (a ++ b) = numberedFrom r a ++ numberedFrom (r + a.length) b := by
  induction a generalizing r with
  | nil => simp [numberedFrom]
  | cons e rest ih =>
    cases e
    simp only [List.cons_append, numberedFrom, List.length_cons, List.append_eq]
    rw [ih (r + 1), show r + (rest.length + 1) = r + 1 + rest.length from by omega]

theorem numberedFrom_key_bounds {r : Nat} {l : List (ObjectId × Object)} :
    ∀ e ∈ numberedFrom r l, r < e.1.1 ∧ e.1.1 ≤ r + l.length := by
  induction l generalizing r with
  | nil => intro e he; cases he
  | cons x rest ih =>
    rcases x with ⟨id, o⟩
    intro e he
    rcases List.mem_cons.mp he with h | h
    · subst h
      refine ⟨?_, ?_⟩
      · show r < r + 1
        omega
      · show r + 1 ≤ r + ((id, o) :: rest).length
        simp only [List.length_cons]
        omega
    · have := @ih (r + 1) e h
      constructor
      · omega
      · simp only [List.length_cons]
        omega

theorem numberedFrom_sorted (r : Nat) (l : List (ObjectId × Object)) :
    (numberedFrom r l).Pairwise entLt := by
  induction l generalizing r with
  | nil => simp [numberedFrom]
  | cons x rest ih =>
    rcases x with ⟨id, o⟩
    refine List.pairwise_cons.mpr ⟨?_, ih (r + 1)⟩
    intro e he
    have := (numberedFrom_key_bounds e he).1
    exact Or.inl (by simpa using this)

theorem numberedFrom_values (r : Nat) (l : List (ObjectId × Object)) :
    (numberedFrom r l).map Prod.snd = l.map Prod.snd := by
  induction l generalizing r with
  | nil => rfl
  | cons x rest ih => cases x; simp [numberedFrom, ih]

theorem numberedFrom_get_mem {l : List (ObjectId × Object)} (r : Nat) (t : Nat)
    (ht : t < l.length) :
    ((r + t + 1, (l.get ⟨t, ht⟩).1.2), (l.get ⟨t, ht⟩).2) ∈ numberedFrom r l := by
  induction l generalizing r t with
  | nil => cases ht
  | cons x rest ih =>
    rcases x with ⟨id, o⟩
    cases t with
    | zero => simp [numberedFrom]
    | succ t' =>
      have := ih (r + 1) t' (by simpa using ht)
      refine List.mem_cons_of_mem _ ?_
      have harith : r + 1 + t' + 1 = r + (t' + 1) + 1 := by omega
      simpa [harith] using this

theorem dstEntriesAux_split (pts : List Nat) (s : Nat) (a b : List (ObjectId × Object)) :
    ∀ (o r : Nat),
      dstEntriesAux pts s (a ++ b) o r =
        dstEntriesAux pts s a o r ++ dstEntriesAux pts s b (o + a.length) (rAfter pts s o r a.length) := by
  induction a with
  | nil => intro o r; simp [dstEntriesAux, rAfter]
  | cons x rest ih =>
    rcases x with ⟨id, obj⟩
    intro o r
    simp only [List.cons_append, dstEntriesAux, List.cons.injEq, true_and, List.append_eq]
    rw [ih (o + 1) (if o ∈ pts then r + s + 1 else r + 1)]
    have h1 : o + 1 + rest.length = o + (rest.length + 1) := by omega
    have h2 : rAfter pts s o r (rest.length + 1) =
        rAfter pts s (o + 1) (if o ∈ pts then r + s + 1 else r + 1) rest.length := rfl
    simp [h1, h2, List.length_cons]

theorem rAfter_nopts {pts : List Nat} {s : Nat} :
    ∀ (n o r : Nat), 0 < n → (∀ t, 0 < t → t < n → (o + t) ∉ pts) →
      rAfter pts s o r n = (if o ∈ pts then r + s else r) + n := by
  intro n
  induction n with
  | zero => intro o r h _; omega
  | succ n' ih =>
    intro o r _ hno
    have hstep : rAfter pts s o r (n' + 1) =
        rAfter pts s (o + 1) (if o ∈ pts then r + s + 1 else r + 1) n' := rfl
    cases n' with
    | zero =>
      rw [hstep]
      by_cases ho : o ∈ pts <;> simp [rAfter, ho]
    | succ m =>
      have hnotin : (o + 1) ∉ pts := hno 1 (by omega) (by omega)
      have hno' : ∀ t, 0 < t → t < m + 1 → (o + 1 + t) ∉ pts := by
        intro t ht1 ht2
        have := hno (t + 1) (by omega) (by omega)
        simpa [show o + (t + 1) = o + 1 + t from by omega] using this
      rw [hstep, ih (o + 1) _ (by omega) hno', if_neg hnotin]
      by_cases ho : o ∈ pts <;> simp [ho] <;> omega

theorem dstEntriesAux_nopts {pts : List Nat} {s : Nat} :
    ∀ (l : List (ObjectId × Object)) (o r : Nat),
      (∀ t, 0 < t → t < l.length → (o + t) ∉ pts) →
      dstEntriesAux pts s l o r = numberedFrom (if o ∈ pts then r + s else r) l := by
  intro l
  induction l with
  | nil => intro o r _; simp [dstEntriesAux, numberedFrom]
  | cons x rest ih =>
    rcases x with ⟨id, obj⟩
    intro o r hno
    have hr' : (if o ∈ pts then r + s + 1 else r + 1) = (if o ∈ pts then r + s else r) + 1 := by
      by_cases ho : o ∈ pts <;> simp [ho]
    have htail : dstEntriesAux pts s rest (o + 1) ((if o ∈ pts then r + s else r) + 1) =
        numberedFrom ((if o ∈ pts then r + s else r) + 1) rest := by
      cases rest with
      | nil => simp [dstEntriesAux, numberedFrom]
      | cons y ys =>
        have hnotin : (o + 1) ∉ pts := hno 1 (by omega) (by simp)
        have hno' : ∀ t, 0 < t → t < (y :: ys).length → (o + 1 + t) ∉ pts := by
          intro t ht1 ht2
          have := hno (t + 1) (by omega) (by simp at ht2 ⊢; omega)
          simpa [show o + (t + 1) = o + 1 + t from by omega] using this
        rw [ih (o + 1) _ hno', if_neg hnotin]
    simp only [dstEntriesAux, numberedFrom]
    rw [hr', htail]

theorem dstEntriesAux_segs {pts : List Nat} {s : Nat} :
    ∀ (rem : List Nat) (rest : List (ObjectId × Object)) (o r : Nat),
      rem.Pairwise (· < ·) →
      (∀ q ∈ rem, o < q) →
      (∀ t, o < t → (t ∈ pts ↔ t ∈ rem)) →
      (∀ q ∈ rem, q ≤ o + rest.length) →
      dstEntriesAux pts s rest o r = dstSegs s rem rest o (if o ∈ pts then r + s else r) := by
  intro rem
  induction rem with
  | nil =>
    intro rest o r _ _ hequiv _
    have hno : ∀ t, 0 < t → t < rest.length → (o + t) ∉ pts := by
      intro t ht1 _ hc
      exact absurd ((hequiv (o + t) (by omega)).mp hc) (List.not_mem_nil _)
    rw [dstEntriesAux_nopts rest o r hno]
    rfl
  | cons p ps ih =>
    intro rest o r hp hq hequiv hrange
    rcases List.pairwise_cons.mp hp with ⟨hphead, hptail⟩
    have hop : o < p := hq p (by simp)
    have hple : p ≤ o + rest.length := hrange p (by simp)
    have hsplit := dstEntriesAux_split pts s (rest.take (p - o)) (rest.drop (p - o)) o r
    rw [List.take_append_drop] at hsplit
    rw [hsplit]
    have htklen : (rest.take (p - o)).length = p - o := by
      rw [List.length_take]; omega
    have hWno : ∀ t, 0 < t → t < (rest.take (p - o)).length → (o + t) ∉ pts := by
      intro t ht1 ht2 hc
      rw [htklen] at ht2
      have hmem : o + t ∈ p :: ps := (hequiv (o + t) (by omega)).mp hc
      rcases List.mem_cons.mp hmem with h | h
      · omega
      · have := hphead _ h
        omega
    have hoN : o + (rest.take (p - o)).length = p := by rw [htklen]; omega
    have hrA : rAfter pts s o r (rest.take (p - o)).length =
        (if o ∈ pts then r + s else r) + (p - o) := by
      rw [rAfter_nopts _ o r (by rw [htklen]; omega) hWno, htklen]
    rw [dstEntriesAux_nopts _ o r hWno, hoN, hrA]
    have hpin : p ∈ pts := (hequiv p hop).mpr (by simp)
    have ihh := ih (rest.drop (p - o)) p ((if o ∈ pts then r + s else r) + (p - o)) hptail
      (fun q hq' => hphead q hq')
      (fun t ht => by
        rw [hequiv t (by omega)]
        constructor
        · intro h
          rcases List.mem_cons.mp h with h | h
          · omega
          · exact h
        · intro h
          exact List.mem_cons_of_mem _ h)
      (fun q hq' => by
        have := hrange q (List.mem_cons_of_mem _ hq')
        rw [List.length_drop]
        omega)
    rw [ihh, if_pos hpin]
    rfl

theorem dstEntriesAux_eq_dstSegs {pts : List Nat} {s : Nat}
    (hp : pts.Pairwise (· < ·)) {pairs : List (ObjectId × Object)}
    (hrange : ∀ q ∈ pts, q < pairs.length) :
    dstEntriesAux pts s pairs 0 0 = dstSegs s pts pairs 0 0 := by
  by_cases h0 : 0 ∈ pts
  · cases pts with
    | nil => cases h0
    | cons p ps =>
      have hp0 : p = 0 := by
        rcases List.mem_cons.mp h0 with h | h
        · omega
        · have := (List.pairwise_cons.mp hp).1 _ h
          omega
      subst hp0
      have hseg := @dstEntriesAux_segs (0 :: ps) s ps pairs 0 0
        (List.pairwise_cons.mp hp).2
        (fun q hq => (List.pairwise_cons.mp hp).1 q hq)
        (fun t ht => by
          constructor
          · intro hmem
            rcases List.mem_cons.mp hmem with h | h
            · omega
            · exact h
          · intro hmem
            exact List.mem_cons_of_mem _ hmem)
        (fun q hq => le_of_lt (by simpa using hrange q (List.mem_cons_of_mem _ hq)))
      rw [hseg, if_pos h0]
      show dstSegs s ps pairs 0 (0 + s) = dstSegs s (0 :: ps) pairs 0 0
      simp [dstSegs, numberedFrom]
  · have hseg := @dstEntriesAux_segs pts s pts pairs 0 0 hp
      (fun q hq => by
        rcases Nat.eq_zero_or_pos q with h | h
        · exact absurd (h ▸ hq) h0
        · exact h)
      (fun t ht => Iff.rfl)
      (fun q hq => le_of_lt (by simpa using hrange q hq))
    rw [hseg, if_neg h0]

theorem mergedSegs_key_lb {srcPairs : List (ObjectId × Object)} {s : Nat} :
    ∀ (rem : List Nat) (rest : List (ObjectId × Object)) (o r : Nat),
      rem.Pairwise (· < ·) → (∀ q ∈ rem, o ≤ q) →
      ∀ e ∈ mergedSegs srcPairs s rem rest o r, r < e.1.1 := by
  intro rem
  induction rem with
  | nil =>
    intro rest o r _ _ e he
    exact (numberedFrom_key_bounds e he).1
  | cons p ps ih =>
    intro rest o r hp hq e he
    rcases List.pairwise_cons.mp hp with ⟨hphead, hptail⟩
    have hop : o ≤ p := hq p (by simp)
    rcases List.mem_append.mp he with h | h
    · rcases List.mem_append.mp h with h2 | h2
      · exact (numberedFrom_key_bounds e h2).1
      · have := (numberedFrom_key_bounds e h2).1
        omega
    · have := ih (rest.drop (p - o)) p (r + (p - o) + s) hptail
        (fun q hq' => le_of_lt (hphead q hq')) e h
      omega

theorem mergedSegs_key_ub {srcPairs : List (ObjectId × Object)} {s : Nat}
    (hsl : srcPairs.length = s) :
    ∀ (rem : List Nat) (rest : List (ObjectId × Object)) (o r : Nat),
      rem.Pairwise (· < ·) → (∀ q ∈ rem, o ≤ q) → (∀ q ∈ rem, q ≤ o + rest.length) →
      ∀ e ∈ mergedSegs srcPairs s rem rest o r,
        e.1.1 ≤ r + rest.length + rem.length * s := by
  intro rem
  induction rem with
  | nil =>
    intro rest o r _ _ _ e he
    have := (numberedFrom_key_bounds e he).2
    simpa using this
  | cons p ps ih =>
    intro rest o r hp hq hrange e he
    rcases List.pairwise_cons.mp hp with ⟨hphead, hptail⟩
    have hop : o ≤ p := hq p (by simp)
    have hple : p ≤ o + rest.length := hrange p (by simp)
    have htklen : (rest.take (p - o)).length = p - o := by
      rw [List.length_take]; omega
    rcases List.mem_append.mp he with h | h
    · rcases List.mem_append.mp h with h2 | h2
      · have := (numberedFrom_key_bounds e h2).2
        rw [htklen] at this
        simp only [List.length_cons]
        have hmul : (ps.length + 1) * s = ps.length * s + s := by ring
        omega
      · have := (numberedFrom_key_bounds e h2).2
        rw [hsl] at this
        simp only [List.length_cons]
        have hmul : (ps.length + 1) * s = ps.length * s + s := by ring
        omega
    · have := ih (rest.drop (p - o)) p (r + (p - o) + s) hptail
        (fun q hq' => le_of_lt (hphead q hq'))
        (fun q hq' => by
          have := hrange q (List.mem_cons_of_mem _ hq')
          rw [List.length_drop]
          omega) e h
      rw [List.length_drop] at this
      simp only [List.length_cons]
      have hmul : (ps.length + 1) * s = ps.length * s + s := by ring
      omega

theorem mergedSegs_length {srcPairs : List (ObjectId × Object)} {s : Nat} :
    ∀ (rem : List Nat) (rest : List (ObjectId × Object)) (o r : Nat),
      rem.Pairwise (· < ·) → (∀ q ∈ rem, o ≤ q) → (∀ q ∈ rem, q ≤ o + rest.length) →
      (mergedSegs srcPairs s rem rest o r).length =
        rest.length + rem.length * srcPairs.length := by
  intro rem
  induction rem with
  | nil =>
    intro rest o r _ _ _
    simp [mergedSegs, numberedFrom_length]
  | cons p ps ih =>
    intro rest o r hp hq hrange
    rcases List.pairwise_cons.mp hp with ⟨hphead, hptail⟩
    have hop : o ≤ p := hq p (by simp)
    have hple : p ≤ o + rest.length := hrange p (by simp)
    have htklen : (rest.take (p - o)).length = p - o := by
      rw [List.length_take]; omega
    have ihh := ih (rest.drop (p - o)) p (r + (p - o) + s) hptail
      (fun q hq' => le_of_lt (hphead q hq'))
      (fun q hq' => by
        have := hrange q (List.mem_cons_of_mem _ hq')
        rw [List.length_drop]
        omega)
    simp only [mergedSegs, List.length_append, ihh, numberedFrom_length, htklen,
      List.length_drop, List.length_cons]
    ring_nf
    omega

theorem mergedSegs_sorted {srcPairs : List (ObjectId × Object)} {s : Nat}
    (hsl : srcPairs.length = s) :
    ∀ (rem : List Nat) (rest : List (ObjectId × Object)) (o r : Nat),
      rem.Pairwise (· < ·) → (∀ q ∈ rem, o ≤ q) → (∀ q ∈ rem, q ≤ o + rest.length) →
      (mergedSegs srcPairs s rem rest o r).Pairwise entLt := by
  intro rem
  induction rem with
  | nil =>
    intro rest o r _ _ _
    exact numberedFrom_sorted r rest
  | cons p ps ih =>
    intro rest o r hp hq hrange
    rcases List.pairwise_cons.mp hp with ⟨hphead, hptail⟩
    have hop : o ≤ p := hq p (by simp)
    have hple : p ≤ o + rest.length := hrange p (by simp)
    have htklen : (rest.take (p - o)).length = p - o := by
      rw [List.length_take]; omega
    have hCsorted := ih (rest.drop (p - o)) p (r + (p - o) + s) hptail
      (fun q hq' => le_of_lt (hphead q hq'))
      (fun q hq' => by
        have := hrange q (List.mem_cons_of_mem _ hq')
        rw [List.length_drop]
        omega)
    have hClb := @mergedSegs_key_lb srcPairs s ps (rest.drop (p - o)) p
      (r + (p - o) + s) hptail (fun q hq' => le_of_lt (hphead q hq'))
    simp only [mergedSegs]
    rw [List.append_assoc]
    refine List.pairwise_append.mpr ⟨numberedFrom_sorted r _, ?_, ?_⟩
    · refine List.pairwise_append.mpr ⟨numberedFrom_sorted _ _, hCsorted, ?_⟩
      intro a ha b hb
      have hub := (numberedFrom_key_bounds a ha).2
      rw [hsl] at hub
      have hlb := hClb b hb
      exact Or.inl (by omega)
    · intro a ha b hb
      have hub := (numberedFrom_key_bounds a ha).2
      rw [htklen] at hub
      rcases List.mem_append.mp hb with h | h
      · have hlb := (numberedFrom_key_bounds b h).1
        exact Or.inl (by omega)
      · have hlb := hClb b h
        exact Or.inl (by omega)

theorem mergedSegs_values {srcPairs : List (ObjectId × Object)} {s : Nat} :
    ∀ (rem : List Nat) (rest : List (ObjectId × Object)) (o r : Nat),
      (mergedSegs srcPairs s rem rest o r).map Prod.snd =
        spliced (srcPairs.map Prod.snd) rem (rest.map Prod.snd) o := by
  intro rem
  induction rem with
  | nil =>
    intro rest o r
    exact numberedFrom_values r rest
  | cons p ps ih =>
    intro rest o r
    simp only [mergedSegs, spliced]
    rw [List.map_append, List.map_append, numberedFrom_values, numberedFrom_values, ih,
      List.map_take, List.map_drop]

theorem mergedSegs_perm {srcPairs : List (ObjectId × Object)} {s : Nat} :
    ∀ (rem : List Nat) (rest : List (ObjectId × Object)) (o r : Nat),
      rem.Pairwise (· < ·) → o ≤ r → (∀ q ∈ rem, o ≤ q) →
      List.Perm (mergedSegs srcPairs s rem rest o r)
        (dstSegs s rem rest o r ++ blocksList srcPairs s rem (r - o)) := by
  intro rem
  induction rem with
  | nil =>
    intro rest o r _ _ _
    simp [mergedSegs, dstSegs, blocksList]
  | cons p ps ih =>
    intro rest o r hp hor hq
    rcases List.pairwise_cons.mp hp with ⟨hphead, hptail⟩
    have hop : o ≤ p := hq p (by simp)
    have hbase : r + (p - o) = p + (r - o) := by omega
    have harg : r + (p - o) + s - p = r - o + s := by omega
    have ihh := ih (rest.drop (p - o)) p (r + (p - o) + s) hptail (by omega)
      (fun q hq' => le_of_lt (hphead q hq'))
    rw [harg] at ihh
    simp only [mergedSegs, dstSegs, blocksList]
    rw [hbase] at ihh ⊢
    rw [List.append_assoc, List.append_assoc]
    exact List.Perm.append_left _ ((List.Perm.append_left _ ihh).trans
      (List.perm_append_comm_assoc _ _ _))

theorem dstEntriesAux_key_lb {pts : List Nat} {s : Nat} :
    ∀ (l : List (ObjectId × Object)) (o r : Nat), ∀ e ∈ dstEntriesAux pts s l o r, r < e.1.1 := by
  intro l
  induction l with
  | nil => intro o r e he; cases he
  | cons x rest ih =>
    rcases x with ⟨id, obj⟩
    intro o r e he
    rcases List.mem_cons.mp he with h | h
    · subst h
      by_cases ho : o ∈ pts <;> simp [ho] <;> omega
    · have := ih (o + 1) (if o ∈ pts then r + s + 1 else r + 1) e h
      by_cases ho : o ∈ pts <;> simp [ho] at this <;> omega

theorem dstEntriesAux_sorted {pts : List Nat} {s : Nat} :
    ∀ (l : List (ObjectId × Object)) (o r : Nat), (dstEntriesAux pts s l o r).Pairwise entLt := by
  intro l
  induction l with
  | nil => intro o r; simp [dstEntriesAux]
  | cons x rest ih =>
    rcases x with ⟨id, obj⟩
    intro o r
    refine List.pairwise_cons.mpr ⟨?_, ih (o + 1) _⟩
    intro e he
    have := dstEntriesAux_key_lb rest (o + 1) (if o ∈ pts then r + s + 1 else r + 1) e he
    exact Or.inl (by simpa using this)

theorem dstEntriesAux_length {pts : List Nat} {s : Nat} :
    ∀ (l : List (ObjectId × Object)) (o r : Nat), (dstEntriesAux pts s l o r).length = l.length := by
  intro l
  induction l with
  | nil => intro o r; rfl
  | cons x rest ih =>
    rcases x with ⟨id, obj⟩
    intro o r
    simp [dstEntriesAux, ih]

theorem srcLoop_eq (srcPairs : List (ObjectId × Object)) (srcN : Nat) :
    ∀ (pts' : List Nat) (m : List (ObjectId × Object)) (added : Nat),
      srcLoop srcPairs srcN pts' m added = btExtend m (blocksList srcPairs srcN pts' added) := by
  intro pts'
  induction pts' with
  | nil => intro m added; rfl
  | cons i rest ih =>
    intro m added
    show srcLoop srcPairs srcN rest
        (btExtend m (btExtend [] (numberedFrom (i + added) srcPairs))) (added + srcN) = _
    rw [btExtend_asc_of_nil (numberedFrom_sorted _ _), ih]
    show _ = btExtend m (numberedFrom (i + added) srcPairs ++ blocksList srcPairs srcN rest (added + srcN))
    unfold btExtend
    rw [List.foldl_append]

theorem insertPagesTable_eq {dst src : Document} {pts : List Nat} {fuel : Nat}
    (hp : pts.Pairwise (· < ·))
    (hrange : ∀ q ∈ pts, q < (pagesWithObjs (insertDstRenum dst pts src fuel) fuel).length)
    (hsl : (pagesWithObjs (insertSrcRenum dst pts src fuel) fuel).length =
      (pageIds src fuel).length) :
    insertPagesTable dst pts src fuel =
      mergedSegs (pagesWithObjs (insertSrcRenum dst pts src fuel) fuel)
        (pageIds src fuel).length pts
        (pagesWithObjs (insertDstRenum dst pts src fuel) fuel) 0 0 := by
  have hd : insertDstTable dst pts src fuel =
      dstEntriesAux pts (pageIds src fuel).length
        (pagesWithObjs (insertDstRenum dst pts src fuel) fuel) 0 0 := by
    unfold insertDstTable
    rw [btExtend_asc_of_nil (dstEntriesAux_sorted _ 0 0),
      btExtend_asc_of_nil (dstEntriesAux_sorted _ 0 0)]
  have htab : insertPagesTable dst pts src fuel =
      btExtend (dstEntriesAux pts (pageIds src fuel).length
          (pagesWithObjs (insertDstRenum dst pts src fuel) fuel) 0 0)
        (blocksList (pagesWithObjs (insertSrcRenum dst pts src fuel) fuel)
          (pageIds src fuel).length pts 0) := by
    unfold insertPagesTable
    rw [srcLoop_eq, hd]
  have hEsorted := mergedSegs_sorted hsl pts
    (pagesWithObjs (insertDstRenum dst pts src fuel) fuel) 0 0 hp
    (fun q _ => Nat.zero_le q) (fun q hq => by have := hrange q hq; omega)
  have hEperm := @mergedSegs_perm (pagesWithObjs (insertSrcRenum dst pts src fuel) fuel)
    ((pageIds src fuel).length) pts
    (pagesWithObjs (insertDstRenum dst pts src fuel) fuel) 0 0 hp (le_refl 0)
    (fun q _ => Nat.zero_le q)
  rw [dstEntriesAux_eq_dstSegs hp hrange] at hd htab
  have hperm2 : List.Perm
      (mergedSegs (pagesWithObjs (insertSrcRenum dst pts src fuel) fuel)
        (pageIds src fuel).length pts
        (pagesWithObjs (insertDstRenum dst pts src fuel) fuel) 0 0)
      (dstSegs (pageIds src fuel).length pts
          (pagesWithObjs (insertDstRenum dst pts src fuel) fuel) 0 0 ++
        blocksList (pagesWithObjs (insertSrcRenum dst pts src fuel) fuel)
          (pageIds src fuel).length pts 0) := hEperm
  have hnodup : ((dstSegs (pageIds src fuel).length pts
        (pagesWithObjs (insertDstRenum dst pts src fuel) fuel) 0 0 ++
      blocksList (pagesWithObjs (insertSrcRenum dst pts src fuel) fuel)
        (pageIds src fuel).length pts 0).map Prod.fst).Nodup := by
    refine (List.Perm.nodup_iff (List.Perm.map Prod.fst hperm2)).mp ?_
    exact sorted_keys_nodup hEsorted
  have htabperm : List.Perm (insertPagesTable dst pts src fuel)
      (dstSegs (pageIds src fuel).length pts
          (pagesWithObjs (insertDstRenum dst pts src fuel) fuel) 0 0 ++
        blocksList (pagesWithObjs (insertSrcRenum dst pts src fuel) fuel)
          (pageIds src fuel).length pts 0) := by
    rw [htab]
    refine btExtend_perm ?_
    rw [← List.map_append]
    exact hnodup
  have htabsorted : (insertPagesTable dst pts src fuel).Pairwise entLt := by
    rw [htab]
    exact btExtend_sorted (by rw [← dstEntriesAux_eq_dstSegs hp hrange]; exact dstEntriesAux_sorted _ 0 0)
  exact List.eq_of_perm_of_sorted (htabperm.trans hperm2.symm) htabsorted hEsorted

/-- C1 (amended): for ascending, in-range, duplicate-free insertion points,
the merged page table of `insert`, read in key order, equals the
destination pages with a full copy of the source pages placed immediately
BEFORE the destination page at each listed zero-based index (equivalently,
after the destination page at one-based position `p`); the claim's
"immediately after the destination page at each listed zero-based index"
does not hold. -/
theorem insert_merge_ordering (dst src : Document) (pts : List Nat) (fuel : Nat)
    (hp : pts.Pairwise (· < ·))
    (hrange : ∀ q ∈ pts, q < (pagesWithObjs (insertDstRenum dst pts src fuel) fuel).length)
    (hsl : (pagesWithObjs (insertSrcRenum dst pts src fuel) fuel).length =
      (pageIds src fuel).length) :
    (insertPagesTable dst pts src fuel).map Prod.snd =
      spliced ((pagesWithObjs (insertSrcRenum dst pts src fuel) fuel).map Prod.snd) pts
        ((pagesWithObjs (insertDstRenum dst pts src fuel) fuel).map Prod.snd) 0 := by
  rw [insertPagesTable_eq hp hrange hsl, mergedSegs_values]

/-- Witness for `insert_merge_ordering`: a one-page destination, a one-page
source and insertion point list `[0]`. -/
theorem insert_merge_ordering_witness :
    List.Pairwise (· < ·) [0] ∧
    (insertPagesTable exDst1 [0] exSrc1 6).map Prod.snd =
      spliced ((pagesWithObjs (insertSrcRenum exDst1 [0] exSrc1 6) 6).map Prod.snd) [0]
        ((pagesWithObjs (insertDstRenum exDst1 [0] exSrc1 6) 6).map Prod.snd) 0 :=
  ⟨by decide,
   insert_merge_ordering exDst1 exSrc1 [0] 6 (by decide) (by decide) (by decide)⟩

/-- C1 counterexample: on the one-page destination `exDst1`, source
`exSrc1` and insertion points `[0]`, the merged page sequence is the
source page followed by the destination page, not the sequence the claim
describes (destination pages `0..0` inclusive, then the source). -/
theorem insert_merge_ordering_claim_false :
    (insertPagesTable exDst1 [0] exSrc1 6).map Prod.snd ≠
      splicedAfterSpec ((pagesWithObjs (insertSrcRenum exDst1 [0] exSrc1 6) 6).map Prod.snd) [0]
        ((pagesWithObjs (insertDstRenum exDst1 [0] exSrc1 6) 6).map Prod.snd) 0 := by
  intro h
  have h2 := congrArg
    (List.map (fun o => (objDict o).bind (fun d => (dictGet d "M").bind asI64))) h
  have hl : List.map (fun o => (objDict o).bind (fun d => (dictGet d "M").bind asI64))
      ((insertPagesTable exDst1 [0] exSrc1 6).map Prod.snd) =
      [some (9 : Int), some 1] := by decide
  have hr : List.map (fun o => (objDict o).bind (fun d => (dictGet d "M").bind asI64))
      (splicedAfterSpec ((pagesWithObjs (insertSrcRenum exDst1 [0] exSrc1 6) 6).map Prod.snd)
        [0] ((pagesWithObjs (insertDstRenum exDst1 [0] exSrc1 6) 6).map Prod.snd) 0) =
      [some (1 : Int), some 9] := by decide
  rw [hl, hr] at h2
  exact absurd h2 (by decide)

theorem classifyStep_fst
    (acc : Option (ObjectId × Object) × Option (ObjectId × Object) × List (ObjectId × Object))
    (e : ObjectId × Object) :
    (classifyStep acc e).1 =
      if typeName e.2 = some "Catalog" then
        some ((match acc.1 with
               | some x => x.1
               | none => e.1), e.2)
      else acc.1 := by
  rcases ht : typeName e.2 with _ | t
  · simp [classifyStep, ht]
  · by_cases h1 : t = "Catalog"
    · subst h1; simp [classifyStep, ht]
    · by_cases h2 : t = "Pages"
      · subst h2
        rcases hd : asDict e.2 with _ | d <;> simp [classifyStep, ht, hd, h1]
      · by_cases h3 : t = "Page"
        · subst h3; simp [classifyStep, ht, h1, h2]
        · by_cases h4 : t = "Outlines"
          · subst h4; simp [classifyStep, ht, h1, h2, h3]
          · by_cases h5 : t = "Outline"
            · subst h5; simp [classifyStep, ht, h1, h2, h3, h4]
            · simp [classifyStep, ht, h1, h2, h3, h4, h5]

theorem classifyStep_pages
    (acc : Option (ObjectId × Object) × Option (ObjectId × Object) × List (ObjectId × Object))
    (e : ObjectId × Object) :
    (classifyStep acc e).2.1 =
      (if typeName e.2 = some "Pages" then
        match asDict e.2 with
        | some d =>
          some ((match acc.2.1 with
                 | some x => x.1
                 | none => e.1),
            Object.dictionary
              (match acc.2.1 with
               | some (_, old) =>
                 (match asDict old with
                  | some oldd => dictExtend d oldd
                  | none => d)
               | none => d))
        | none => acc.2.1
      else acc.2.1) := by
  rcases ht : typeName e.2 with _ | t
  · simp [classifyStep, ht]
  · by_cases h1 : t = "Catalog"
    · subst h1; simp [classifyStep, ht]
    · by_cases h2 : t = "Pages"
      · subst h2
        rcases hd : asDict e.2 with _ | d <;> simp [classifyStep, ht, hd, h1]
      · by_cases h3 : t = "Page"
        · subst h3; simp [classifyStep, ht, h1, h2]
        · by_cases h4 : t = "Outlines"
          · subst h4; simp [classifyStep, ht, h1, h2, h3]
          · by_cases h5 : t = "Outline"
            · subst h5; simp [classifyStep, ht, h1, h2, h3, h4]
            · simp [classifyStep, ht, h1, h2, h3, h4, h5]

theorem classifyStep_mains
    (acc : Option (ObjectId × Object) × Option (ObjectId × Object) × List (ObjectId × Object))
    (e : ObjectId × Object) :
    (classifyStep acc e).2.2 =
      if typeName e.2 = some "Catalog" ∨ typeName e.2 = some "Pages" ∨
          typeName e.2 = some "Page" ∨ typeName e.2 = some "Outlines" ∨
          typeName e.2 = some "Outline" then
        acc.2.2
      else btInsert acc.2.2 e.1 e.2 := by
  rcases ht : typeName e.2 with _ | t
  · simp [classifyStep, ht]
  · by_cases h1 : t = "Catalog"
    · subst h1; simp [classifyStep, ht]
    · by_cases h2 : t = "Pages"
      · subst h2
        rcases hd : asDict e.2 with _ | d <;> simp [classifyStep, ht, hd, h1]
      · by_cases h3 : t = "Page"
        · subst h3; simp [classifyStep, ht, h1, h2]
        · by_cases h4 : t = "Outlines"
          · subst h4; simp [classifyStep, ht, h1, h2, h3]
          · by_cases h5 : t = "Outline"
            · subst h5; simp [classifyStep, ht, h1, h2, h3, h4]
            · simp [classifyStep, ht, h1, h2, h3, h4, h5]

theorem classify_fst (l : List (ObjectId × Object)) :
    ∀ acc, (l.foldl classifyStep acc).1 = catalogFold acc.1 l := by
  induction l with
  | nil => intro acc; rfl
  | cons e rest ih =>
    intro acc
    show (rest.foldl classifyStep (classifyStep acc e)).1 = _
    rw [ih (classifyStep acc e)]
    show catalogFold (classifyStep acc e).1 rest = catalogFold _ (e :: rest)
    rw [classifyStep_fst]
    rfl

theorem classify_pages (l : List (ObjectId × Object)) :
    ∀ acc, (l.foldl classifyStep acc).2.1 =
      pagesFold acc.2.1 l := by
  induction l with
  | nil => intro acc; rfl
  | cons e rest ih =>
    intro acc
    show (rest.foldl classifyStep (classifyStep acc e)).2.1 = _
    rw [ih (classifyStep acc e)]
    show pagesFold (classifyStep acc e).2.1 rest = pagesFold _ (e :: rest)
    rw [classifyStep_pages]
    rfl

theorem dictSet_keys_subset {d : Dict} {k : String} {v : Object} :
    ∀ k' ∈ (dictSet d k v).map Prod.fst, k' = k ∨ k' ∈ d.map Prod.fst := by
  induction d with
  | nil => intro k' h; simp [dictSet] at h; exact Or.inl h
  | cons e rest ih =>
    rcases e with ⟨k0, v0⟩
    intro k' h
    by_cases h0 : k0 = k
    · simp [dictSet, h0] at h
      rcases h with h | h
      · exact Or.inl h
      · exact Or.inr (by simp [h])
    · simp only [dictSet, if_neg h0, List.map_cons, List.mem_cons] at h
      rcases h with h | h
      · exact Or.inr (by simp [h])
      · rcases ih k' h with h' | h'
        · exact Or.inl h'
        · exact Or.inr (by simp [h'])

theorem dictSet_keys_nodup {d : Dict} (h : (d.map Prod.fst).Nodup) (k : String) (v : Object) :
    ((dictSet d k v).map Prod.fst).Nodup := by
  induction d with
  | nil => simp [dictSet]
  | cons e rest ih =>
    rcases e with ⟨k0, v0⟩
    rw [List.map_cons] at h
    rcases List.nodup_cons.mp h with ⟨hk0, hrest⟩
    by_cases h0 : k0 = k
    · subst h0
      simp only [dictSet, if_pos rfl, List.map_cons]
      exact List.nodup_cons.mpr ⟨hk0, hrest⟩
    · simp only [dictSet, if_neg h0, List.map_cons]
      refine List.nodup_cons.mpr ⟨?_, ih hrest⟩
      intro hc
      rcases dictSet_keys_subset k0 hc with h' | h'
      · exact h0 h'
      · exact hk0 h'

theorem dictExtend_keys_nodup {d o : Dict} (h : (d.map Prod.fst).Nodup) :
    ((dictExtend d o).map Prod.fst).Nodup := by
  induction o generalizing d with
  | nil => exact h
  | cons e rest ih =>
    show ((dictExtend (dictSet d e.1 e.2) rest).map Prod.fst).Nodup
    exact ih (dictSet_keys_nodup h e.1 e.2)

theorem catalogFold_nil {l : List (ObjectId × Object)} (h : catalogsIn l = []) :
    ∀ c0, catalogFold c0 l = c0 := by
  induction l with
  | nil => intro c0; rfl
  | cons x xs ih =>
    intro c0
    by_cases ht : typeName x.2 = some "Catalog"
    · exfalso
      have : x ∈ catalogsIn (x :: xs) := List.mem_filter.mpr ⟨by simp, by simp [ht]⟩
      rw [h] at this
      cases this
    · have hxs : catalogsIn xs = [] := by
        have := h
        unfold catalogsIn at this ⊢
        rwa [List.filter_cons_of_neg (by simpa using ht)] at this
      show catalogFold (if typeName x.2 = some "Catalog" then _ else c0) xs = c0
      rw [if_neg ht]
      exact ih hxs c0

theorem catalogFold_char {l : List (ObjectId × Object)} {e : ObjectId × Object}
    {es : List (ObjectId × Object)} (h : catalogsIn l = e :: es) :
    ∀ c0, catalogFold c0 l =
      some ((match c0 with
             | some x => x.1
             | none => e.1), ((e :: es).getLast (List.cons_ne_nil _ _)).2) := by
  induction l generalizing e es with
  | nil => cases h
  | cons x xs ih =>
    intro c0
    by_cases ht : typeName x.2 = some "Catalog"
    · have hfil : catalogsIn (x :: xs) = x :: catalogsIn xs := by
        unfold catalogsIn
        rw [List.filter_cons_of_pos (by simpa using ht)]
      rw [hfil] at h
      rcases List.cons.injEq .. ▸ h with ⟨hex, hes⟩
      subst hex
      show catalogFold (if typeName x.2 = some "Catalog" then
        some ((match c0 with
               | some c => c.1
               | none => x.1), x.2) else c0) xs = _
      rw [if_pos ht]
      rcases hxs : catalogsIn xs with _ | ⟨f, fs⟩
      · rw [catalogFold_nil hxs]
        rw [hxs] at hes
        subst hes
        rfl
      · rw [hxs] at hes
        subst hes
        rw [ih hxs]
        have hlast : ((f :: fs).getLast (List.cons_ne_nil _ _)) =
            ((x :: f :: fs).getLast (List.cons_ne_nil _ _)) := by
          rw [List.getLast_cons (List.cons_ne_nil _ _)]
        rw [hlast]
    · have hfil : catalogsIn (x :: xs) = catalogsIn xs := by
        unfold catalogsIn
        rw [List.filter_cons_of_neg (by simpa using ht)]
      rw [hfil] at h
      show catalogFold (if typeName x.2 = some "Catalog" then _ else c0) xs = _
      rw [if_neg ht]
      exact ih h c0

theorem pagesFold_nil {l : List (ObjectId × Object)} (h : pagesIn l = []) :
    ∀ p0, pagesFold p0 l = p0 := by
  induction l with
  | nil => intro p0; rfl
  | cons x xs ih =>
    intro p0
    by_cases ht : typeName x.2 = some "Pages"
    · exfalso
      have : x ∈ pagesIn (x :: xs) := List.mem_filter.mpr ⟨by simp, by simp [ht]⟩
      rw [h] at this
      cases this
    · have hxs : pagesIn xs = [] := by
        have := h
        unfold pagesIn at this ⊢
        rwa [List.filter_cons_of_neg (by simpa using ht)] at this
      show pagesFold (if typeName x.2 = some "Pages" then _ else p0) xs = p0
      rw [if_neg ht]
      exact ih hxs p0

theorem pagesFold_some {l : List (ObjectId × Object)}
    (hh : ∀ x ∈ pagesIn l, ∃ d, x.2 = Object.dictionary d ∧ (d.map Prod.fst).Nodup) :
    ∀ (i0 : ObjectId) (D0 : Dict), (D0.map Prod.fst).Nodup →
      ∃ D, pagesFold (some (i0, Object.dictionary D0)) l = some (i0, Object.dictionary D) ∧
        (D.map Prod.fst).Nodup ∧
        ∀ k, dictGet D k =
          (match dictGet D0 k with
           | some v => some v
           | none => firstVal k (pagesDictsOf l)) := by
  induction l with
  | nil =>
    intro i0 D0 hD0
    refine ⟨D0, rfl, hD0, ?_⟩
    intro k
    show dictGet D0 k = _
    unfold pagesDictsOf pagesIn
    cases hk : dictGet D0 k <;> simp [firstVal, hk]
  | cons x xs ih =>
    intro i0 D0 hD0
    by_cases ht : typeName x.2 = some "Pages"
    · have hxmem : x ∈ pagesIn (x :: xs) := List.mem_filter.mpr ⟨by simp, by simp [ht]⟩
      rcases hh x hxmem with ⟨d, hxd, hdnodup⟩
      have hfil : pagesIn (x :: xs) = x :: pagesIn xs := by
        unfold pagesIn
        rw [List.filter_cons_of_pos (by simpa using ht)]
      have hh' : ∀ y ∈ pagesIn xs, ∃ d, y.2 = Object.dictionary d ∧ (d.map Prod.fst).Nodup := by
        intro y hy
        exact hh y (by rw [hfil]; exact List.mem_cons_of_mem _ hy)
      have hstep : pagesFold (some (i0, Object.dictionary D0)) (x :: xs) =
          pagesFold (some (i0, Object.dictionary (dictExtend d D0))) xs := by
        show pagesFold (if typeName x.2 = some "Pages" then _ else _) xs = _
        rw [if_pos ht, hxd]
        rfl
      rw [hstep]
      rcases ih hh' i0 (dictExtend d D0) (dictExtend_keys_nodup hdnodup) with ⟨D, hD, hDn, hget⟩
      refine ⟨D, hD, hDn, ?_⟩
      intro k
      rw [hget k, dictExtend_get hD0]
      have hdicts : pagesDictsOf (x :: xs) = d :: pagesDictsOf xs := by
        unfold pagesDictsOf
        rw [hfil, List.filterMap_cons, hxd]
        rfl
      rw [hdicts]
      cases h0 : dictGet D0 k with
      | some v => rfl
      | none =>
        cases hd2 : dictGet d k <;> simp [firstVal, hd2]
    · have hfil : pagesIn (x :: xs) = pagesIn xs := by
        unfold pagesIn
        rw [List.filter_cons_of_neg (by simpa using ht)]
      have hstep : pagesFold (some (i0, Object.dictionary D0)) (x :: xs) =
          pagesFold (some (i0, Object.dictionary D0)) xs := by
        show pagesFold (if typeName x.2 = some "Pages" then _ else _) xs = _
        rw [if_neg ht]
      rw [hstep]
      rcases ih (fun y hy => hh y (by rw [hfil]; exact hy)) i0 D0 hD0 with ⟨D, hD, hDn, hget⟩
      refine ⟨D, hD, hDn, ?_⟩
      intro k
      rw [hget k]
      have hdicts : pagesDictsOf (x :: xs) = pagesDictsOf xs := by
        unfold pagesDictsOf
        rw [hfil]
      rw [hdicts]

theorem pagesFold_char {l : List (ObjectId × Object)} {e : ObjectId × Object}
    {es : List (ObjectId × Object)} (h : pagesIn l = e :: es)
    (hh : ∀ x ∈ pagesIn l, ∃ d, x.2 = Object.dictionary d ∧ (d.map Prod.fst).Nodup) :
    ∃ D, pagesFold none l = some (e.1, Object.dictionary D) ∧
      (D.map Prod.fst).Nodup ∧
      ∀ k, dictGet D k = firstVal k (pagesDictsOf l) := by
  induction l generalizing e es with
  | nil => cases h
  | cons x xs ih =>
    by_cases ht : typeName x.2 = some "Pages"
    · have hxmem : x ∈ pagesIn (x :: xs) := List.mem_filter.mpr ⟨by simp, by simp [ht]⟩
      rcases hh x hxmem with ⟨d, hxd, hdnodup⟩
      have hfil : pagesIn (x :: xs) = x :: pagesIn xs := by
        unfold pagesIn
        rw [List.filter_cons_of_pos (by simpa using ht)]
      have hex : e = x := by
        rw [hfil] at h
        exact ((List.cons.injEq .. ▸ h).1).symm
      subst hex
      have hh' : ∀ y ∈ pagesIn xs, ∃ d, y.2 = Object.dictionary d ∧ (d.map Prod.fst).Nodup :=
        fun y hy => hh y (by rw [hfil]; exact List.mem_cons_of_mem _ hy)
      have hstep : pagesFold (none : Option (ObjectId × Object)) (e :: xs) =
          pagesFold (some (e.1, Object.dictionary d)) xs := by
        show pagesFold (if typeName e.2 = some "Pages" then _ else _) xs = _
        rw [if_pos ht, hxd]
        rfl
      rw [hstep]
      rcases pagesFold_some hh' e.1 d hdnodup with ⟨D, hD, hDn, hget⟩
      refine ⟨D, hD, hDn, ?_⟩
      intro k
      rw [hget k]
      have hdicts : pagesDictsOf (e :: xs) = d :: pagesDictsOf xs := by
        unfold pagesDictsOf
        rw [hfil, List.filterMap_cons, hxd]
        rfl
      rw [hdicts]
      cases hd2 : dictGet d k <;> simp [firstVal, hd2]
    · have hfil : pagesIn (x :: xs) = pagesIn xs := by
        unfold pagesIn
        rw [List.filter_cons_of_neg (by simpa using ht)]
      rw [hfil] at h
      have hstep : pagesFold (none : Option (ObjectId × Object)) (x :: xs) =
          pagesFold none xs := by
        show pagesFold (if typeName x.2 = some "Pages" then _ else _) xs = _
        rw [if_neg ht]
      rw [hstep]
      rcases ih h (fun y hy => hh y (by rw [hfil]; exact hy)) with ⟨D, hD, hDn, hget⟩
      refine ⟨D, hD, hDn, ?_⟩
      intro k
      rw [hget k]
      have hdicts : pagesDictsOf (x :: xs) = pagesDictsOf xs := by
        unfold pagesDictsOf
        rw [hfil]
      rw [hdicts]

/-- C4 counterexample: merging `exDst1` into `exSrc1` (insertion point 0),
the classification pass sees two Catalog objects: the destination's (id
`(3,0)`, marker `X = 1`, encountered first) and the source's (id `(5,0)`,
marker `X = 2`).  The surviving Catalog keeps the FIRST id but the LAST
object's dictionary contents (`X = 2`), so the first-encountered Catalog's
contents are NOT kept. -/
theorem catalog_tiebreak_claim_false :
    (classify (insertDocumentsObjects exDst1 [0] exSrc1 6)).1 =
      some ((3, 0), Object.dictionary
        [("Type", Object.name "Catalog"), ("Pages", Object.reference (6, 0)),
         ("X", Object.integer 2)]) ∧
    (catalogsIn (insertDocumentsObjects exDst1 [0] exSrc1 6)).map
        (fun e => (e.1, (objDict e.2).bind (fun d => (dictGet d "X").bind asI64))) =
      [((3, 0), some 1), ((5, 0), some 2)] :=
  ⟨rfl, rfl⟩

/-- C4 (amended): when the classification pass encounters one or more
objects of declared type Catalog (in ascending merged-id order), the
surviving Catalog keeps the FIRST encountered object's ObjectId, but its
contents are those of the LAST encountered Catalog object — each later
Catalog replaces the previous contents wholesale, with no field merge. -/
theorem classify_catalog_tiebreak (l : List (ObjectId × Object))
    (e : ObjectId × Object) (es : List (ObjectId × Object))
    (h : catalogsIn l = e :: es) :
    (classify l).1 = some (e.1, ((e :: es).getLast (List.cons_ne_nil _ _)).2) := by
  rw [show (classify l).1 = catalogFold none l from classify_fst l _, catalogFold_char h]

/-- Witness for `classify_catalog_tiebreak` on the two-catalog merged table
of `exDst1` and `exSrc1`. -/
theorem classify_catalog_tiebreak_witness :
    catalogsIn (insertDocumentsObjects exDst1 [0] exSrc1 6) =
      [((3, 0), Object.dictionary
          [("Type", Object.name "Catalog"), ("Pages", Object.reference (4, 0)),
           ("X", Object.integer 1)]),
       ((5, 0), Object.dictionary
          [("Type", Object.name "Catalog"), ("Pages", Object.reference (6, 0)),
           ("X", Object.integer 2)])] ∧
    (classify (insertDocumentsObjects exDst1 [0] exSrc1 6)).1 =
      some ((3, 0),
        ([((3, 0), Object.dictionary
            [("Type", Object.name "Catalog"), ("Pages", Object.reference (4, 0)),
             ("X", Object.integer 1)]),
          ((5, 0), Object.dictionary
            [("Type", Object.name "Catalog"), ("Pages", Object.reference (6, 0)),
             ("X", Object.integer 2)])].getLast (List.cons_ne_nil _ _)).2) :=
  ⟨rfl, classify_catalog_tiebreak (insertDocumentsObjects exDst1 [0] exSrc1 6)
    ((3, 0), Object.dictionary
      [("Type", Object.name "Catalog"), ("Pages", Object.reference (4, 0)),
       ("X", Object.integer 1)])
    [((5, 0), Object.dictionary
      [("Type", Object.name "Catalog"), ("Pages", Object.reference (6, 0)),
       ("X", Object.integer 2)])] rfl⟩

/-- C5: when the classification pass encounters one or more Pages-typed
dictionary objects (duplicate-free keys), the surviving Pages object keeps
the FIRST encountered object's ObjectId, and its dictionary is the
key-wise union of all encountered Pages dictionaries in which, for every
key, the value comes from the EARLIEST encountered dictionary that has
that key — so on a collision the first-encountered object's value wins and
a later object contributes its value only for keys absent so far. -/
theorem classify_pages_tiebreak (l : List (ObjectId × Object))
    (e : ObjectId × Object) (es : List (ObjectId × Object))
    (h : pagesIn l = e :: es)
    (hh : ∀ x ∈ pagesIn l, ∃ d, x.2 = Object.dictionary d ∧ (d.map Prod.fst).Nodup) :
    ∃ D, (classify l).2.1 = some (e.1, Object.dictionary D) ∧
      ∀ k, dictGet D k = firstVal k (pagesDictsOf l) := by
  rw [show (classify l).2.1 = pagesFold none l from classify_pages l _]
  rcases pagesFold_char h hh with ⟨D, h1, _, h3⟩
  exact ⟨D, h1, h3⟩

/-- Witness for `classify_pages_tiebreak` on the two-Pages merged table of
`exDst1` and `exSrc1`: the surviving Pages keeps the destination root's id
`(4,0)`, the destination's values for the colliding keys (`Kids`,
`Count`), and gains the source-only key `S`. -/
theorem classify_pages_tiebreak_witness :
    pagesIn (insertDocumentsObjects exDst1 [0] exSrc1 6) =
      ((4, 0), Object.dictionary
          [("Type", Object.name "Pages"),
           ("Kids", Object.array [Object.reference (5, 0)]),
           ("Count", Object.integer 1)]) ::
        [((6, 0), Object.dictionary
          [("Type", Object.name "Pages"),
           ("Kids", Object.array [Object.reference (7, 0)]),
           ("Count", Object.integer 1), ("S", Object.integer 7)])] ∧
    ∃ D, (classify (insertDocumentsObjects exDst1 [0] exSrc1 6)).2.1 =
        some ((4, 0), Object.dictionary D) ∧
      ∀ k, dictGet D k = firstVal k (pagesDictsOf (insertDocumentsObjects exDst1 [0] exSrc1 6)) := by
  refine ⟨rfl, classify_pages_tiebreak (insertDocumentsObjects exDst1 [0] exSrc1 6)
    ((4, 0), Object.dictionary
      [("Type", Object.name "Pages"),
       ("Kids", Object.array [Object.reference (5, 0)]),
       ("Count", Object.integer 1)])
    [((6, 0), Object.dictionary
      [("Type", Object.name "Pages"),
       ("Kids", Object.array [Object.reference (7, 0)]),
       ("Count", Object.integer 1), ("S", Object.integer 7)])] rfl ?_⟩
  intro x hx
  have hx' : x = ((4, 0), Object.dictionary
      [("Type", Object.name "Pages"),
       ("Kids", Object.array [Object.reference (5, 0)]),
       ("Count", Object.integer 1)]) ∨
      x = ((6, 0), Object.dictionary
        [("Type", Object.name "Pages"),
         ("Kids", Object.array [Object.reference (7, 0)]),
         ("Count", Object.integer 1), ("S", Object.integer 7)]) := by
    have : pagesIn (insertDocumentsObjects exDst1 [0] exSrc1 6) =
        [((4, 0), Object.dictionary
            [("Type", Object.name "Pages"),
             ("Kids", Object.array [Object.reference (5, 0)]),
             ("Count", Object.integer 1)]),
         ((6, 0), Object.dictionary
            [("Type", Object.name "Pages"),
             ("Kids", Object.array [Object.reference (7, 0)]),
             ("Count", Object.integer 1), ("S", Object.integer 7)])] := rfl
    rw [this] at hx
    simpa using hx
  rcases hx' with h | h <;> subst h
  · exact ⟨_, rfl, by decide⟩
  · exact ⟨_, rfl, by decide⟩

/-- Unfolding equation for `insert` (the definition restated with the
named stage definitions inlined). -/
theorem insert_def (dst : Document) (pts : List Nat) (src : Document) (fuel : Nat) :
    insert dst pts src fuel =
      (if (pageIds dst fuel).length ≠
          (pagesWithObjs (insertDstRenum dst pts src fuel) fuel).length then
        MergeResult.panicked
      else if (insertDstTable dst pts src fuel).length ≠ (pageIds dst fuel).length then
        MergeResult.panicked
      else if (insertPagesTable dst pts src fuel).length ≠ insertNumPages dst pts src fuel then
        MergeResult.panicked
      else
        match classify (insertDocumentsObjects dst pts src fuel) with
        | (catalogObj, pagesObj, mains) =>
          match pagesObj with
          | none => MergeResult.noWrite
          | some (pagesId, pagesO) =>
            let objs1 := parentLoop mains (insertPagesTable dst pts src fuel) pagesId
            match catalogObj with
            | none => MergeResult.noWrite
            | some (catId, catO) =>
              let objs2 :=
                match asDict pagesO with
                | some pd =>
                  btInsert objs1 pagesId
                    (Object.dictionary
                      (dictSet (dictSet pd "Count"
                          (Object.integer (insertPagesTable dst pts src fuel).length))
                        "Kids" (Object.array ((insertPagesTable dst pts src fuel).map
                          (fun kv => Object.reference kv.1)))))
                | none => objs1
              let objs3 :=
                match asDict catO with
                | some cd =>
                  btInsert objs2 catId
                    (Object.dictionary
                      (dictRemove (dictSet cd "Pages" (Object.reference pagesId)) "Outlines"))
                | none => objs2
              MergeResult.saved (compress (renumberWith 1
                { objects := objs3,
                  trailer := dictSet [] "Root" (Object.reference catId),
                  maxId := objs3.length }))) := rfl

/-- C3: if the `assert!`s pass and the type-classification pass finds no
object of declared type Catalog, or none of declared type Pages, then
`insert` returns without saving (`noWrite`): the destination file is left
untouched, with no error and no panic. -/
theorem insert_abort_no_write (dst src : Document) (pts : List Nat) (fuel : Nat)
    (ha1 : (pageIds dst fuel).length =
      (pagesWithObjs (insertDstRenum dst pts src fuel) fuel).length)
    (ha2 : (insertDstTable dst pts src fuel).length = (pageIds dst fuel).length)
    (ha3 : (insertPagesTable dst pts src fuel).length = insertNumPages dst pts src fuel)
    (h : (∀ e ∈ insertDocumentsObjects dst pts src fuel, typeName e.2 ≠ some "Catalog") ∨
         (∀ e ∈ insertDocumentsObjects dst pts src fuel, typeName e.2 ≠ some "Pages")) :
    insert dst pts src fuel = MergeResult.noWrite := by
  rcases hcl : classify (insertDocumentsObjects dst pts src fuel) with ⟨c, p, m⟩
  rw [insert_def, if_neg (by rw [ha1]; simp), if_neg (by rw [ha2]; simp),
    if_neg (by rw [ha3]; simp), hcl]
  rcases h with h | h
  · have hcatnil : catalogsIn (insertDocumentsObjects dst pts src fuel) = [] := by
      unfold catalogsIn
      rw [List.filter_eq_nil_iff]
      intro e he
      simpa using h e he
    have hc : c = none := by
      have hfst := classify_fst (insertDocumentsObjects dst pts src fuel) (none, none, [])
      rw [show (insertDocumentsObjects dst pts src fuel).foldl classifyStep (none, none, []) =
          (c, p, m) from hcl] at hfst
      rw [catalogFold_nil hcatnil] at hfst
      exact hfst
    subst hc
    cases p with
    | none => rfl
    | some x => rcases x with ⟨pid, po⟩; rfl
  · have hpgnil : pagesIn (insertDocumentsObjects dst pts src fuel) = [] := by
      unfold pagesIn
      rw [List.filter_eq_nil_iff]
      intro e he
      simpa using h e he
    have hp : p = none := by
      have hpg := classify_pages (insertDocumentsObjects dst pts src fuel) (none, none, [])
      rw [show (insertDocumentsObjects dst pts src fuel).foldl classifyStep (none, none, []) =
          (c, p, m) from hcl] at hpg
      rw [pagesFold_nil hpgnil] at hpg
      exact hpg
    subst hp
    rfl

/-- Witness for `insert_abort_no_write`: two loadable documents with
neither a Catalog nor a Pages object. -/
theorem insert_abort_no_write_witness :
    (∀ e ∈ insertDocumentsObjects exNoRoot [] exNoRoot 6, typeName e.2 ≠ some "Catalog") ∧
    insert exNoRoot [] exNoRoot 6 = MergeResult.noWrite := by
  have hcat : ∀ e ∈ insertDocumentsObjects exNoRoot [] exNoRoot 6,
      typeName e.2 ≠ some "Catalog" := by
    intro e he
    have hobjs : insertDocumentsObjects exNoRoot [] exNoRoot 6 =
        [((1, 0), Object.dictionary [("Type", Object.name "XObject")])] := rfl
    rw [hobjs] at he
    have he' : e = ((1, 0), Object.dictionary [("Type", Object.name "XObject")]) := by
      simpa using he
    subst he'
    decide
  exact ⟨hcat, insert_abort_no_write exNoRoot exNoRoot [] 6 rfl rfl rfl (Or.inl hcat)⟩

/-- C6 (code bug, at a failing input): after `insert`'s two renumbering
steps on the one-page documents `exDst1` (destination) and `exSrc1`
(source) with insertion points `[0]`, the destination occupies ids
`(3,0)..(5,0)` and the source ids `(5,0)..(7,0)` — the ranges OVERLAP at
the destination's high-water mark `(5,0)`, because the source is
renumbered starting AT `max_id` instead of above it.  Extending the
combined object table therefore overwrites the destination's page object
at `(5,0)` with the source's catalog. -/
theorem renumber_ranges_overlap :
    ((5, 0) : ObjectId) ∈ (insertDstRenum exDst1 [0] exSrc1 6).objects.map Prod.fst ∧
    ((5, 0) : ObjectId) ∈ (insertSrcRenum exDst1 [0] exSrc1 6).objects.map Prod.fst ∧
    btLookup (insertDstRenum exDst1 [0] exSrc1 6).objects (5, 0) =
      some (Object.dictionary [("Type", Object.name "Page"), ("M", Object.integer 1)]) ∧
    btLookup (insertDocumentsObjects exDst1 [0] exSrc1 6) (5, 0) =
      some (Object.dictionary
        [("Type", Object.name "Catalog"), ("Pages", Object.reference (6, 0)),
         ("X", Object.integer 2)]) :=
  ⟨by decide, by decide, rfl, rfl⟩

/-- C8: when the leaf-page count is even, `make_page_count_even` performs
no mutation and no save — the call returns immediately, so the file on
disk is unchanged and a second call behaves identically. -/
theorem make_even_noop (doc : Document) (fuel : Nat)
    (h : (pageIds doc fuel).length % 2 = 0) :
    makePageCountEven doc fuel = MergeResult.noWrite := by
  unfold makePageCountEven
  rw [if_neg (by simp [h])]

/-- Witness for `make_even_noop`: the two-page document `exDst2`. -/
theorem make_even_noop_witness :
    (pageIds exDst2 6).length % 2 = 0 ∧ makePageCountEven exDst2 6 = MergeResult.noWrite :=
  ⟨by decide, make_even_noop exDst2 6 (by decide)⟩

theorem btInsert_lookup_self {α : Type} (m : List (ObjectId × α)) (k : ObjectId) (v : α) :
    btLookup (btInsert m k v) k = some v := by
  induction m with
  | nil => simp [btInsert, btLookup]
  | cons e rest ih =>
    rcases e with ⟨k', v'⟩
    by_cases h1 : idLt k k'
    · simp [btInsert, h1, btLookup]
    · by_cases h2 : k = k'
      · simp [btInsert, h1, h2, idLt_irrefl, btLookup]
      · have h2' : ¬ k' = k := fun he => h2 he.symm
        simp [btInsert, h1, h2, btLookup, h2', ih]

theorem btInsert_lookup_other {α : Type} {m : List (ObjectId × α)} {k k' : ObjectId}
    (v : α) (h : k' ≠ k) : btLookup (btInsert m k v) k' = btLookup m k' := by
  have hne : ¬ k = k' := fun he => h he.symm
  induction m with
  | nil => simp [btInsert, btLookup, hne]
  | cons e rest ih =>
    rcases e with ⟨k0, v0⟩
    by_cases h1 : idLt k k0
    · simp [btInsert, h1, btLookup, hne]
    · by_cases h2 : k = k0
      · subst h2
        simp [btInsert, h1, idLt_irrefl, btLookup, hne]
      · simp [btInsert, h1, h2, btLookup, ih]

theorem btInsert_keys_superset {α : Type} {m : List (ObjectId × α)} {k' : ObjectId}
    (h : k' ∈ m.map Prod.fst) (k : ObjectId) (v : α) :
    k' ∈ (btInsert m k v).map Prod.fst := by
  induction m with
  | nil => cases h
  | cons e rest ih =>
    rcases e with ⟨k0, v0⟩
    rw [List.map_cons, List.mem_cons] at h
    by_cases h1 : idLt k k0
    · simp only [btInsert, if_pos h1, List.map_cons, List.mem_cons]
      rcases h with h | h
      · exact Or.inr (Or.inl h)
      · exact Or.inr (Or.inr h)
    · by_cases h2 : k = k0
      · subst h2
        have hred : btInsert ((k, v0) :: rest) k v = (k, v) :: rest := by
          simp [btInsert, h1, idLt_irrefl]
        rw [hred, List.map_cons, List.mem_cons]
        rcases h with h | h
        · exact Or.inl h
        · exact Or.inr h
      · simp only [btInsert, if_neg h1, if_neg h2, List.map_cons, List.mem_cons]
        rcases h with h | h
        · exact Or.inl h
        · exact Or.inr (ih h)

theorem docRootKids_renumber (doc : Document) (hs : doc.objects.Pairwise entLt) (s : Nat)
    {rootId pagesId : ObjectId} {rootObj : Object} {cat pd : Dict} {kids : List Object}
    (hroot : dictGet doc.trailer "Root" = some (Object.reference rootId))
    (hrootobj : btLookup doc.objects rootId = some rootObj)
    (hrootdict : objDict rootObj = some cat)
    (hpref : dictGet cat "Pages" = some (Object.reference pagesId))
    (hpobj : btLookup doc.objects pagesId = some (Object.dictionary pd))
    (hkids : dictGet pd "Kids" = some (Object.array kids)) :
    docRootKids (renumberWith s doc) =
      some (renameObjList (renumberId (doc.objects.map Prod.fst) s) kids) := by
  have htrR : (renumberWith s doc).trailer =
      renameDict (renumberId (doc.objects.map Prod.fst) s) doc.trailer := rfl
  have hgRoot : dictGet (renumberWith s doc).trailer "Root" =
      some (Object.reference (renumberId (doc.objects.map Prod.fst) s rootId)) := by
    rw [htrR, renameDict_get, hroot]
    simp [renameObj]
  have hlookRoot : btLookup (renumberWith s doc).objects
      (renumberId (doc.objects.map Prod.fst) s rootId) =
      some (renameObj (renumberId (doc.objects.map Prod.fst) s) rootObj) :=
    renumberWith_lookup hs (btLookup_some_mem hrootobj) s
  have hod : objDict (renameObj (renumberId (doc.objects.map Prod.fst) s) rootObj) =
      some (renameDict (renumberId (doc.objects.map Prod.fst) s) cat) := by
    rw [objDict_rename, hrootdict]
    rfl
  have hcatR : catalogDict (renumberWith s doc) =
      some (renameDict (renumberId (doc.objects.map Prod.fst) s) cat) := by
    simp [catalogDict, hgRoot, hlookRoot, hod]
  have hgPages : dictGet (renameDict (renumberId (doc.objects.map Prod.fst) s) cat) "Pages" =
      some (Object.reference (renumberId (doc.objects.map Prod.fst) s pagesId)) := by
    rw [renameDict_get, hpref]
    simp [renameObj]
  have hlookPages : btLookup (renumberWith s doc).objects
      (renumberId (doc.objects.map Prod.fst) s pagesId) =
      some (Object.dictionary (renameDict (renumberId (doc.objects.map Prod.fst) s) pd)) := by
    have h0 := renumberWith_lookup hs (btLookup_some_mem hpobj) s
    simpa [renameObj] using h0
  have hdR : derefChain (renumberWith s doc) ((renumberWith s doc).objects.length + 1)
      (Object.reference (renumberId (doc.objects.map Prod.fst) s pagesId)) =
      some (some (renumberId (doc.objects.map Prod.fst) s pagesId),
        Object.dictionary (renameDict (renumberId (doc.objects.map Prod.fst) s) pd)) := by
    simp [derefChain, hlookPages]
  have hgKids : dictGet (renameDict (renumberId (doc.objects.map Prod.fst) s) pd) "Kids" =
      some (Object.array (renameObjList (renumberId (doc.objects.map Prod.fst) s) kids)) := by
    rw [renameDict_get, hkids]
    simp [renameObj]
  simp [docRootKids, hcatR, hgPages, hdR, hgKids]

theorem pageIds_renumber (doc : Document) (hs : doc.objects.Pairwise entLt) (s fuel : Nat)
    {kids : List Object}
    (hrk : docRootKids doc = some kids)
    (hrkR : docRootKids (renumberWith s doc) =
      some (renameObjList (renumberId (doc.objects.map Prod.fst) s) kids))
    (hsub : ∀ v ∈ pagesVisitsAux doc fuel kids, v ∈ doc.objects.map Prod.fst) :
    (pageIds (renumberWith s doc) fuel).length = (pageIds doc fuel).length := by
  have hren := pagesFromAux_renumber hs s fuel kids hsub
  simp [pageIds, pagesWithObjs, hrk, hrkR, hren]

/-- C7: on a well-formed document with an odd leaf-page count `n`,
`make_page_count_even` adds exactly one new leaf `Page` object whose
`Parent` is the pages root, appends exactly one reference to it at the end
of the root's `Kids`, bumps the root's `Count` by one, renumbers and
saves; the saved document's leaf-page count is `n + 1`, which is even. -/
theorem make_even_adds_page (doc : Document) (fuel : Nat)
    (rootId pagesId : ObjectId) (rootObj : Object) (cat pd : Dict)
    (kids : List Object) (cnt : Int)
    (hsorted : doc.objects.Pairwise entLt)
    (hmax : ∀ k ∈ doc.objects.map Prod.fst, k.1 ≤ doc.maxId)
    (hroot : dictGet doc.trailer "Root" = some (Object.reference rootId))
    (hrootobj : btLookup doc.objects rootId = some rootObj)
    (hrootdict : objDict rootObj = some cat)
    (hpref : dictGet cat "Pages" = some (Object.reference pagesId))
    (hpobj : btLookup doc.objects pagesId = some (Object.dictionary pd))
    (hkids : dictGet pd "Kids" = some (Object.array kids))
    (hcount : dictGet pd "Count" = some (Object.integer cnt))
    (hrootne : rootId ≠ pagesId)
    (hvisits : ∀ v ∈ pagesVisitsAux doc fuel kids, v ∈ doc.objects.map Prod.fst)
    (hnotroot : pagesId ∉ pagesVisitsAux doc fuel kids)
    (hodd : (pageIds doc fuel).length % 2 = 1) :
    makePageCountEven doc fuel =
      MergeResult.saved (renumberWith 1 (makeEvenResultDoc doc pagesId pd kids cnt)) ∧
    (pageIds (renumberWith 1 (makeEvenResultDoc doc pagesId pd kids cnt)) fuel).length =
      (pageIds doc fuel).length + 1 ∧
    (pageIds (renumberWith 1 (makeEvenResultDoc doc pagesId pd kids cnt)) fuel).length % 2
      = 0 := by
  have hcatalog : catalogDict doc = some cat := by
    simp [catalogDict, hroot, hrootobj, hrootdict]
  have hderef : derefChain doc (doc.objects.length + 1) (Object.reference pagesId) =
      some (some pagesId, Object.dictionary pd) := by
    simp [derefChain, hpobj]
  have hpmem : pagesId ∈ doc.objects.map Prod.fst :=
    List.mem_map.mpr ⟨(pagesId, Object.dictionary pd), btLookup_some_mem hpobj, rfl⟩
  have hrmem : rootId ∈ doc.objects.map Prod.fst :=
    List.mem_map.mpr ⟨(rootId, rootObj), btLookup_some_mem hrootobj, rfl⟩
  have hpne : pagesId ≠ (doc.maxId + 1, 0) := by
    intro he
    have := hmax pagesId hpmem
    rw [he] at this
    simp at this
  have hrne2 : rootId ≠ (doc.maxId + 1, 0) := by
    intro he
    have := hmax rootId hrmem
    rw [he] at this
    simp at this
  have hl_pages1 : btLookup
      (btInsert doc.objects (doc.maxId + 1, 0)
        (Object.dictionary
          [("Type", Object.name "Page"), ("Parent", Object.reference pagesId)])) pagesId =
      some (Object.dictionary pd) := by
    rw [btInsert_lookup_other _ hpne]
    exact hpobj
  have hc1 : dictGet (dictSet pd "Kids"
      (Object.array (kids ++ [Object.reference (doc.maxId + 1, 0)]))) "Count" =
      some (Object.integer cnt) := by
    rw [dictGet_set_other _ (by decide)]
    exact hcount
  have hcond : (pageIds doc fuel).length % 2 ≠ 0 := by omega
  have hrun : makePageCountEven doc fuel =
      MergeResult.saved (renumberWith 1 (makeEvenResultDoc doc pagesId pd kids cnt)) := by
    unfold makePageCountEven
    rw [if_pos hcond]
    simp [hcatalog, hpref, hderef, hl_pages1, hkids, hc1, asI64, makeEvenResultDoc]
  have h2objs : (makeEvenResultDoc doc pagesId pd kids cnt).objects =
      btInsert
        (btInsert doc.objects (doc.maxId + 1, 0)
          (Object.dictionary
            [("Type", Object.name "Page"), ("Parent", Object.reference pagesId)]))
        pagesId
        (Object.dictionary
          (dictSet (dictSet pd "Kids"
              (Object.array (kids ++ [Object.reference (doc.maxId + 1, 0)])))
            "Count" (Object.integer (cnt + 1)))) := rfl
  have h2tr : (makeEvenResultDoc doc pagesId pd kids cnt).trailer = doc.trailer := rfl
  have h2sorted : (makeEvenResultDoc doc pagesId pd kids cnt).objects.Pairwise entLt := by
    rw [h2objs]
    exact btInsert_sorted (btInsert_sorted hsorted _ _) _ _
  have hl2_pages : btLookup (makeEvenResultDoc doc pagesId pd kids cnt).objects pagesId =
      some (Object.dictionary
        (dictSet (dictSet pd "Kids"
            (Object.array (kids ++ [Object.reference (doc.maxId + 1, 0)])))
          "Count" (Object.integer (cnt + 1)))) := by
    rw [h2objs]
    exact btInsert_lookup_self _ _ _
  have hl2_page : btLookup (makeEvenResultDoc doc pagesId pd kids cnt).objects
      (doc.maxId + 1, 0) =
      some (Object.dictionary
        [("Type", Object.name "Page"), ("Parent", Object.reference pagesId)]) := by
    rw [h2objs, btInsert_lookup_other _ (Ne.symm hpne), btInsert_lookup_self]
  have hl2_root : btLookup (makeEvenResultDoc doc pagesId pd kids cnt).objects rootId =
      some rootObj := by
    rw [h2objs, btInsert_lookup_other _ hrootne, btInsert_lookup_other _ hrne2]
    exact hrootobj
  have hvmem : ∀ v ∈ pagesVisitsAux doc fuel kids,
      btLookup (makeEvenResultDoc doc pagesId pd kids cnt).objects v =
        btLookup doc.objects v := by
    intro v hv
    have hvk := hvisits v hv
    have hv1 : v ≠ (doc.maxId + 1, 0) := by
      intro he
      have := hmax v hvk
      rw [he] at this
      simp at this
    have hv2 : v ≠ pagesId := fun he => hnotroot (he ▸ hv)
    rw [h2objs, btInsert_lookup_other _ hv2, btInsert_lookup_other _ hv1]
  have hagree := pagesAux_agree doc (makeEvenResultDoc doc pagesId pd kids cnt) fuel kids hvmem
  have hlastF : pagesFromAux (makeEvenResultDoc doc pagesId pd kids cnt) fuel
      [Object.reference (doc.maxId + 1, 0)] =
      [((doc.maxId + 1, 0),
        Object.dictionary
          [("Type", Object.name "Page"), ("Parent", Object.reference pagesId)])] := by
    rw [pagesFromAux_cons, pagesFromAux_nil]
    simp [hl2_page, typeName, dictTypeName, dictGet]
  have hlastV : pagesVisitsAux (makeEvenResultDoc doc pagesId pd kids cnt) fuel
      [Object.reference (doc.maxId + 1, 0)] = [(doc.maxId + 1, 0)] := by
    rw [pagesVisitsAux_cons, pagesVisitsAux_nil]
    simp [hl2_page, typeName, dictTypeName, dictGet]
  have hrk : docRootKids doc = some kids := by
    simp [docRootKids, hcatalog, hpref, hderef, hkids]
  have hg2kids : dictGet
      (dictSet (dictSet pd "Kids"
          (Object.array (kids ++ [Object.reference (doc.maxId + 1, 0)])))
        "Count" (Object.integer (cnt + 1))) "Kids" =
      some (Object.array (kids ++ [Object.reference (doc.maxId + 1, 0)])) := by
    rw [dictGet_set_other _ (by decide)]
    exact dictGet_set_self _ _ _
  have hd2 : derefChain (makeEvenResultDoc doc pagesId pd kids cnt)
      ((makeEvenResultDoc doc pagesId pd kids cnt).objects.length + 1)
      (Object.reference pagesId) =
      some (some pagesId, Object.dictionary
        (dictSet (dictSet pd "Kids"
            (Object.array (kids ++ [Object.reference (doc.maxId + 1, 0)])))
          "Count" (Object.integer (cnt + 1)))) := by
    simp [derefChain, hl2_pages]
  have hcat2 : catalogDict (makeEvenResultDoc doc pagesId pd kids cnt) = some cat := by
    simp [catalogDict, h2tr, hroot, hl2_root, hrootdict]
  have hrk2 : docRootKids (makeEvenResultDoc doc pagesId pd kids cnt) =
      some (kids ++ [Object.reference (doc.maxId + 1, 0)]) := by
    simp [docRootKids, hcat2, hpref, hd2, hg2kids]
  have hfrom2all : pagesFromAux (makeEvenResultDoc doc pagesId pd kids cnt) fuel
      (kids ++ [Object.reference (doc.maxId + 1, 0)]) =
      pagesFromAux doc fuel kids ++
        [((doc.maxId + 1, 0), Object.dictionary
          [("Type", Object.name "Page"), ("Parent", Object.reference pagesId)])] := by
    rw [pagesFromAux_append, hagree.1, hlastF]
  have hvis2all : pagesVisitsAux (makeEvenResultDoc doc pagesId pd kids cnt) fuel
      (kids ++ [Object.reference (doc.maxId + 1, 0)]) =
      pagesVisitsAux doc fuel kids ++ [(doc.maxId + 1, 0)] := by
    rw [pagesVisitsAux_append, hagree.2, hlastV]
  have hsub2 : ∀ v ∈ pagesVisitsAux (makeEvenResultDoc doc pagesId pd kids cnt) fuel
      (kids ++ [Object.reference (doc.maxId + 1, 0)]),
      v ∈ (makeEvenResultDoc doc pagesId pd kids cnt).objects.map Prod.fst := by
    intro v hv
    rw [hvis2all] at hv
    rcases List.mem_append.mp hv with hv | hv
    · have hk := hvisits v hv
      rw [h2objs]
      exact btInsert_keys_superset (btInsert_keys_superset hk _ _) _ _
    · have hv0 : v = (doc.maxId + 1, 0) := by simpa using hv
      subst hv0
      rw [h2objs]
      refine btInsert_keys_superset ?_ _ _
      exact List.mem_map.mpr
        ⟨((doc.maxId + 1, 0),
          Object.dictionary
            [("Type", Object.name "Page"), ("Parent", Object.reference pagesId)]),
          btLookup_some_mem (btInsert_lookup_self _ _ _), rfl⟩
  have hroot2 : dictGet (makeEvenResultDoc doc pagesId pd kids cnt).trailer "Root" =
      some (Object.reference rootId) := by
    rw [h2tr]
    exact hroot
  have hrkR := docRootKids_renumber (makeEvenResultDoc doc pagesId pd kids cnt)
    h2sorted 1 hroot2 hl2_root hrootdict hpref hl2_pages hg2kids
  have hcountR := pageIds_renumber (makeEvenResultDoc doc pagesId pd kids cnt)
    h2sorted 1 fuel hrk2 hrkR hsub2
  have hlen2 : (pageIds (makeEvenResultDoc doc pagesId pd kids cnt) fuel).length =
      (pageIds doc fuel).length + 1 := by
    simp [pageIds, pagesWithObjs, hrk2, hrk, hfrom2all]
  have hN : (pageIds (renumberWith 1 (makeEvenResultDoc doc pagesId pd kids cnt)) fuel).length
      = (pageIds doc fuel).length + 1 := by
    rw [hcountR, hlen2]
  refine ⟨hrun, hN, ?_⟩
  rw [hN]
  omega

/-- Witness for `make_even_adds_page`: the one-page document `exDst1` (odd
count 1) gains exactly one page and ends with an even count of 2. -/
theorem make_even_adds_page_witness :
    makePageCountEven exDst1 6 =
      MergeResult.saved (renumberWith 1 (makeEvenResultDoc exDst1 (2, 0)
        [("Type", Object.name "Pages"), ("Kids", Object.array [Object.reference (3, 0)]),
         ("Count", Object.integer 1)] [Object.reference (3, 0)] 1)) ∧
    (pageIds (renumberWith 1 (makeEvenResultDoc exDst1 (2, 0)
        [("Type", Object.name "Pages"), ("Kids", Object.array [Object.reference (3, 0)]),
         ("Count", Object.integer 1)] [Object.reference (3, 0)] 1)) 6).length =
      (pageIds exDst1 6).length + 1 ∧
    (pageIds (renumberWith 1 (makeEvenResultDoc exDst1 (2, 0)
        [("Type", Object.name "Pages"), ("Kids", Object.array [Object.reference (3, 0)]),
         ("Count", Object.integer 1)] [Object.reference (3, 0)] 1)) 6).length % 2 = 0 :=
  make_even_adds_page exDst1 6 (1, 0) (2, 0)
    (Object.dictionary
      [("Type", Object.name "Catalog"), ("Pages", Object.reference (2, 0)),
       ("X", Object.integer 1)])
    [("Type", Object.name "Catalog"), ("Pages", Object.reference (2, 0)),
     ("X", Object.integer 1)]
    [("Type", Object.name "Pages"), ("Kids", Object.array [Object.reference (3, 0)]),
     ("Count", Object.integer 1)]
    [Object.reference (3, 0)] 1
    (by simp [exDst1, List.pairwise_cons, entLt, idLt]) (by decide) rfl rfl rfl rfl rfl rfl rfl
    (by decide) (by decide) (by decide) (by decide)

theorem insert_run (dst src : Document) (pts : List Nat) (fuel : Nat)
    {catId pagesId : ObjectId} {catO pagesO : Object}
    {mains : List (ObjectId × Object)} {pd cd : Dict}
    (ha1 : (pageIds dst fuel).length =
      (pagesWithObjs (insertDstRenum dst pts src fuel) fuel).length)
    (ha2 : (insertDstTable dst pts src fuel).length = (pageIds dst fuel).length)
    (ha3 : (insertPagesTable dst pts src fuel).length = insertNumPages dst pts src fuel)
    (hclass : classify (insertDocumentsObjects dst pts src fuel) =
      (some (catId, catO), some (pagesId, pagesO), mains))
    (hpd : asDict pagesO = some pd)
    (hcd : asDict catO = some cd) :
    insert dst pts src fuel =
      MergeResult.saved (renumberWith 1
        (mergedDocOf
          (insertObjs3 mains (insertPagesTable dst pts src fuel) pagesId catId pd cd)
          catId)) := by
  rw [insert_def, if_neg (by omega), if_neg (by omega), if_neg (by omega), hclass]
  simp [hpd, hcd, insertObjs3, mergedDocOf, compress]

theorem isDictObj_asDict {o : Object} (h : isDictObj o = true) :
    ∃ d, o = Object.dictionary d ∧ asDict o = some d := by
  cases o <;> first
    | exact ⟨_, rfl, rfl⟩
    | simp [isDictObj] at h

theorem pagesWithObjs_post {doc : Document} {fuel : Nat} :
    ∀ e ∈ pagesWithObjs doc fuel,
      btLookup doc.objects e.1 = some e.2 ∧ typeName e.2 = some "Page" := by
  intro e he
  unfold pagesWithObjs at he
  cases h : docRootKids doc with
  | none => rw [h] at he; cases he
  | some ks => rw [h] at he; exact pagesFromAux_post doc fuel ks e he

theorem spliced_mem {src : List Object} :
    ∀ (rem : List Nat) (rest : List Object) (o : Nat), ∀ x ∈ spliced src rem rest o,
      x ∈ rest ∨ x ∈ src := by
  intro rem
  induction rem with
  | nil => intro rest o x hx; exact Or.inl hx
  | cons p ps ih =>
    intro rest o x hx
    simp only [spliced] at hx
    rcases List.mem_append.mp hx with hx | hx
    · rcases List.mem_append.mp hx with hx | hx
      · exact Or.inl (List.take_subset _ _ hx)
      · exact Or.inr hx
    · rcases ih _ p x hx with h2 | h2
      · exact Or.inl (List.drop_subset _ _ h2)
      · exact Or.inr h2

theorem pagesFromAux_flat (doc : Document) (fuel : Nat) :
    ∀ ks : List ObjectId,
      (∀ id ∈ ks, ∃ o, btLookup doc.objects id = some o ∧ typeName o = some "Page") →
      (pagesFromAux doc fuel (ks.map Object.reference)).map Prod.fst = ks ∧
      pagesVisitsAux doc fuel (ks.map Object.reference) = ks := by
  intro ks
  induction ks with
  | nil => intro _; simp [pagesFromAux_nil, pagesVisitsAux_nil]
  | cons id rest ih =>
    intro h
    rcases h id (by simp) with ⟨o, ho, hto⟩
    have hrest := ih (fun i hi => h i (List.mem_cons_of_mem _ hi))
    rw [List.map_cons, pagesFromAux_cons, pagesVisitsAux_cons]
    simp [ho, hto, hrest.1, hrest.2]

theorem parentLoop_nil (base : List (ObjectId × Object)) (pid : ObjectId) :
    parentLoop base [] pid = base := rfl

theorem parentLoop_cons (base : List (ObjectId × Object)) (kv : ObjectId × Object)
    (rest : List (ObjectId × Object)) (pid : ObjectId) :
    parentLoop base (kv :: rest) pid =
      parentLoop
        (match asDict kv.2 with
         | some d => btInsert base kv.1
             (Object.dictionary (dictSet d "Parent" (Object.reference pid)))
         | none => base) rest pid := rfl

theorem parentLoop_sorted {base : List (ObjectId × Object)} (h : base.Pairwise entLt)
    (table : List (ObjectId × Object)) (pid : ObjectId) :
    (parentLoop base table pid).Pairwise entLt := by
  induction table generalizing base with
  | nil => exact h
  | cons kv rest ih =>
    rw [parentLoop_cons]
    cases hd : asDict kv.2 with
    | none => simp only [hd]; exact ih h
    | some d => simp only [hd]; exact ih (btInsert_sorted h _ _)

theorem parentLoop_lookup_nmem {base : List (ObjectId × Object)} {k : ObjectId} :
    ∀ (table : List (ObjectId × Object)) (pid : ObjectId), k ∉ table.map Prod.fst →
      btLookup (parentLoop base table pid) k = btLookup base k := by
  intro table
  induction table generalizing base with
  | nil => intro pid _; rfl
  | cons kv rest ih =>
    intro pid h
    rw [List.map_cons, List.mem_cons] at h
    push_neg at h
    rw [parentLoop_cons]
    cases hd : asDict kv.2 with
    | none => simp only [hd]; exact ih pid h.2
    | some d =>
      simp only [hd]
      rw [ih pid h.2, btInsert_lookup_other _ h.1]

theorem parentLoop_lookup {base : List (ObjectId × Object)} :
    ∀ (table : List (ObjectId × Object)), (table.map Prod.fst).Nodup →
      ∀ kv ∈ table, ∀ {d : Dict}, asDict kv.2 = some d → ∀ (pid : ObjectId),
      btLookup (parentLoop base table pid) kv.1 =
        some (Object.dictionary (dictSet d "Parent" (Object.reference pid))) := by
  intro table
  induction table generalizing base with
  | nil => intro _ kv hkv; cases hkv
  | cons e rest ih =>
    intro hnd kv hkv d hd pid
    rw [List.map_cons, List.nodup_cons] at hnd
    rcases List.mem_cons.mp hkv with h | h
    · subst h
      rw [parentLoop_cons]
      simp only [hd]
      rw [parentLoop_lookup_nmem rest pid hnd.1, btInsert_lookup_self]
    · rw [parentLoop_cons]
      cases hde : asDict e.2 with
      | none => simp only [hde]; exact ih hnd.2 kv h hd pid
      | some d0 => simp only [hde]; exact ih hnd.2 kv h hd pid

theorem parentLoop_mem {base : List (ObjectId × Object)} :
    ∀ (table : List (ObjectId × Object)) (pid : ObjectId),
      ∀ x ∈ parentLoop base table pid,
        x ∈ base ∨ ∃ kv ∈ table, ∃ d, asDict kv.2 = some d ∧
          x = (kv.1, Object.dictionary (dictSet d "Parent" (Object.reference pid))) := by
  intro table
  induction table generalizing base with
  | nil => intro pid x hx; exact Or.inl hx
  | cons e rest ih =>
    intro pid x hx
    rw [parentLoop_cons] at hx
    cases hde : asDict e.2 with
    | none =>
      simp only [hde] at hx
      rcases ih pid x hx with h | ⟨kv, hkv, d, hd, hxe⟩
      · exact Or.inl h
      · exact Or.inr ⟨kv, List.mem_cons_of_mem _ hkv, d, hd, hxe⟩
    | some d0 =>
      simp only [hde] at hx
      rcases ih pid x hx with h | ⟨kv, hkv, d, hd, hxe⟩
      · rcases btInsert_mem x h with h2 | h2
        · exact Or.inr ⟨e, by simp, d0, hde, h2⟩
        · exact Or.inl h2
      · exact Or.inr ⟨kv, List.mem_cons_of_mem _ hkv, d, hd, hxe⟩

theorem classifyFold_mains_sorted (l : List (ObjectId × Object)) :
    ∀ acc, acc.2.2.Pairwise entLt → (l.foldl classifyStep acc).2.2.Pairwise entLt := by
  induction l with
  | nil => intro acc h; exact h
  | cons e rest ih =>
    intro acc h
    rw [List.foldl_cons]
    refine ih _ ?_
    rw [classifyStep_mains]
    by_cases hcond : (typeName e.2 = some "Catalog" ∨ typeName e.2 = some "Pages" ∨
        typeName e.2 = some "Page" ∨ typeName e.2 = some "Outlines" ∨
        typeName e.2 = some "Outline")
    · rw [if_pos hcond]; exact h
    · rw [if_neg hcond]; exact btInsert_sorted h _ _

theorem classify_mains_sorted (l : List (ObjectId × Object)) :
    (classify l).2.2.Pairwise entLt :=
  classifyFold_mains_sorted l (none, none, []) List.Pairwise.nil

theorem classifyFold_mains_no_outline (l : List (ObjectId × Object)) :
    ∀ acc, (∀ x ∈ acc.2.2, typeName x.2 ≠ some "Outlines" ∧ typeName x.2 ≠ some "Outline") →
      ∀ x ∈ (l.foldl classifyStep acc).2.2,
        typeName x.2 ≠ some "Outlines" ∧ typeName x.2 ≠ some "Outline" := by
  induction l with
  | nil => intro acc h; exact h
  | cons e rest ih =>
    intro acc h
    rw [List.foldl_cons]
    refine ih _ ?_
    rw [classifyStep_mains]
    by_cases hcond : (typeName e.2 = some "Catalog" ∨ typeName e.2 = some "Pages" ∨
        typeName e.2 = some "Page" ∨ typeName e.2 = some "Outlines" ∨
        typeName e.2 = some "Outline")
    · rw [if_pos hcond]; exact h
    · rw [if_neg hcond]
      push_neg at hcond
      intro x hx
      rcases btInsert_mem x hx with h2 | h2
      · subst h2
        exact ⟨hcond.2.2.2.1, hcond.2.2.2.2⟩
      · exact h x h2

theorem classify_mains_no_outline (l : List (ObjectId × Object)) :
    ∀ x ∈ (classify l).2.2, typeName x.2 ≠ some "Outlines" ∧ typeName x.2 ≠ some "Outline" :=
  classifyFold_mains_no_outline l (none, none, []) (fun x hx => absurd hx (List.not_mem_nil x))

theorem classifyFold_lookup_pres (l : List (ObjectId × Object)) :
    ∀ acc (k : ObjectId) (v : Object), btLookup acc.2.2 k = some v →
      k ∉ l.map Prod.fst →
      btLookup (l.foldl classifyStep acc).2.2 k = some v := by
  induction l with
  | nil => intro acc k v h _; exact h
  | cons e rest ih =>
    intro acc k v h hk
    rw [List.map_cons, List.mem_cons] at hk
    push_neg at hk
    rw [List.foldl_cons]
    refine ih _ k v ?_ hk.2
    rw [classifyStep_mains]
    by_cases hcond : (typeName e.2 = some "Catalog" ∨ typeName e.2 = some "Pages" ∨
        typeName e.2 = some "Page" ∨ typeName e.2 = some "Outlines" ∨
        typeName e.2 = some "Outline")
    · rw [if_pos hcond]; exact h
    · rw [if_neg hcond, btInsert_lookup_other _ hk.1]; exact h

theorem classifyFold_lookup (l : List (ObjectId × Object)) :
    ∀ acc, l.Pairwise entLt → ∀ e ∈ l,
      typeName e.2 ≠ some "Catalog" → typeName e.2 ≠ some "Pages" →
      typeName e.2 ≠ some "Page" → typeName e.2 ≠ some "Outlines" →
      typeName e.2 ≠ some "Outline" →
      btLookup (l.foldl classifyStep acc).2.2 e.1 = some e.2 := by
  induction l with
  | nil => intro _ _ e he; cases he
  | cons x rest ih =>
    intro acc hl e he h1 h2 h3 h4 h5
    rw [List.pairwise_cons] at hl
    rw [List.foldl_cons]
    rcases List.mem_cons.mp he with h | h
    · subst h
      refine classifyFold_lookup_pres rest _ e.1 e.2 ?_ ?_
      · rw [classifyStep_mains]
        have hcond : ¬(typeName e.2 = some "Catalog" ∨ typeName e.2 = some "Pages" ∨
            typeName e.2 = some "Page" ∨ typeName e.2 = some "Outlines" ∨
            typeName e.2 = some "Outline") := by
          push_neg
          exact ⟨h1, h2, h3, h4, h5⟩
        rw [if_neg hcond]
        exact btInsert_lookup_self _ _ _
      · intro hmem
        rcases List.mem_map.mp hmem with ⟨y, hy, hyk⟩
        have h6 : idLt e.1 y.1 := hl.1 y hy
        rw [hyk] at h6
        exact idLt_irrefl e.1 h6
    · exact ih _ hl.2 e h h1 h2 h3 h4 h5

theorem classify_lookup {l : List (ObjectId × Object)} (hl : l.Pairwise entLt)
    {e : ObjectId × Object} (he : e ∈ l)
    (h1 : typeName e.2 ≠ some "Catalog") (h2 : typeName e.2 ≠ some "Pages")
    (h3 : typeName e.2 ≠ some "Page") (h4 : typeName e.2 ≠ some "Outlines")
    (h5 : typeName e.2 ≠ some "Outline") :
    btLookup (classify l).2.2 e.1 = some e.2 :=
  classifyFold_lookup l (none, none, []) hl e he h1 h2 h3 h4 h5

theorem btExtend_lookup_left {α : Type} :
    ∀ (l m : List (ObjectId × α)) (k : ObjectId),
      k ∉ l.map Prod.fst → btLookup (btExtend m l) k = btLookup m k := by
  intro l
  induction l with
  | nil => intro m k _; rfl
  | cons e rest ih =>
    intro m k hk
    rw [List.map_cons, List.mem_cons] at hk
    push_neg at hk
    rw [btExtend_cons, ih _ k hk.2, btInsert_lookup_other _ hk.1]

theorem btExtend_lookup_right {α : Type} :
    ∀ (l m : List (ObjectId × α)), (l.map Prod.fst).Nodup →
      ∀ e ∈ l, btLookup (btExtend m l) e.1 = some e.2 := by
  intro l
  induction l with
  | nil => intro m _ e he; cases he
  | cons x rest ih =>
    intro m hnd e he
    rw [List.map_cons, List.nodup_cons] at hnd
    rw [btExtend_cons]
    rcases List.mem_cons.mp he with h | h
    · subst h
      rw [btExtend_lookup_left rest _ e.1 hnd.1, btInsert_lookup_self]
    · exact ih _ hnd.2 e h

theorem asDict_eq_some {o : Object} {d : Dict} (h : asDict o = some d) :
    o = Object.dictionary d := by
  cases o <;> simp_all [asDict]

theorem catalogDict_renumber (doc : Document) (hs : doc.objects.Pairwise entLt) (s : Nat)
    {rootId : ObjectId} {rootObj : Object} {cat : Dict}
    (hroot : dictGet doc.trailer "Root" = some (Object.reference rootId))
    (hrootobj : btLookup doc.objects rootId = some rootObj)
    (hrootdict : objDict rootObj = some cat) :
    catalogDict (renumberWith s doc) =
      some (renameDict (renumberId (doc.objects.map Prod.fst) s) cat) := by
  have htrR : (renumberWith s doc).trailer =
      renameDict (renumberId (doc.objects.map Prod.fst) s) doc.trailer := rfl
  have hgRoot : dictGet (renumberWith s doc).trailer "Root" =
      some (Object.reference (renumberId (doc.objects.map Prod.fst) s rootId)) := by
    rw [htrR, renameDict_get, hroot]
    simp [renameObj]
  have hlookRoot : btLookup (renumberWith s doc).objects
      (renumberId (doc.objects.map Prod.fst) s rootId) =
      some (renameObj (renumberId (doc.objects.map Prod.fst) s) rootObj) :=
    renumberWith_lookup hs (btLookup_some_mem hrootobj) s
  have hod : objDict (renameObj (renumberId (doc.objects.map Prod.fst) s) rootObj) =
      some (renameDict (renumberId (doc.objects.map Prod.fst) s) cat) := by
    rw [objDict_rename, hrootdict]
    rfl
  simp [catalogDict, hgRoot, hlookRoot, hod]

theorem rootPagesDict_renumber (doc : Document) (hs : doc.objects.Pairwise entLt) (s : Nat)
    {rootId pagesId : ObjectId} {rootObj : Object} {cat pd : Dict}
    (hroot : dictGet doc.trailer "Root" = some (Object.reference rootId))
    (hrootobj : btLookup doc.objects rootId = some rootObj)
    (hrootdict : objDict rootObj = some cat)
    (hpref : dictGet cat "Pages" = some (Object.reference pagesId))
    (hpobj : btLookup doc.objects pagesId = some (Object.dictionary pd)) :
    rootPagesDict (renumberWith s doc) =
      some (renameDict (renumberId (doc.objects.map Prod.fst) s) pd) := by
  have hcatR := catalogDict_renumber doc hs s hroot hrootobj hrootdict
  have hgPages : dictGet (renameDict (renumberId (doc.objects.map Prod.fst) s) cat) "Pages" =
      some (Object.reference (renumberId (doc.objects.map Prod.fst) s pagesId)) := by
    rw [renameDict_get, hpref]
    simp [renameObj]
  have hlookPages : btLookup (renumberWith s doc).objects
      (renumberId (doc.objects.map Prod.fst) s pagesId) =
      some (Object.dictionary (renameDict (renumberId (doc.objects.map Prod.fst) s) pd)) := by
    have h0 := renumberWith_lookup hs (btLookup_some_mem hpobj) s
    simpa [renameObj] using h0
  have hdR : derefChain (renumberWith s doc) ((renumberWith s doc).objects.length + 1)
      (Object.reference (renumberId (doc.objects.map Prod.fst) s pagesId)) =
      some (some (renumberId (doc.objects.map Prod.fst) s pagesId),
        Object.dictionary (renameDict (renumberId (doc.objects.map Prod.fst) s) pd)) := by
    simp [derefChain, hlookPages]
  simp [rootPagesDict, hcatR, hgPages, hdR]

/-- C2: merge page-count law.  For a destination with `d` pages, a source
with `s` pages and `k` ascending in-range insertion points (both documents
well formed and the classification finding a Catalog and a Pages root),
the document `insert` saves has exactly `d + k*s` leaf pages, and its
surviving Pages root carries `Count = d + k*s` and a `Kids` array of
exactly `d + k*s` references. -/
theorem insert_page_count (dst src : Document) (pts : List Nat) (fuel : Nat)
    (rootIdD pagesIdD : ObjectId) (rootObjD : Object) (catD pdD : Dict) (kidsD : List Object)
    (rootIdS pagesIdS : ObjectId) (rootObjS : Object) (catS pdS : Dict) (kidsS : List Object)
    (catId pagesId : ObjectId) (catO pagesO : Object) (mains : List (ObjectId × Object))
    (pd cd : Dict)
    (hp : pts.Pairwise (· < ·))
    (hrange : ∀ q ∈ pts, q < (pageIds dst fuel).length)
    (hdsorted : dst.objects.Pairwise entLt)
    (hdroot : dictGet dst.trailer "Root" = some (Object.reference rootIdD))
    (hdrobj : btLookup dst.objects rootIdD = some rootObjD)
    (hdrdict : objDict rootObjD = some catD)
    (hdpref : dictGet catD "Pages" = some (Object.reference pagesIdD))
    (hdpobj : btLookup dst.objects pagesIdD = some (Object.dictionary pdD))
    (hdkids : dictGet pdD "Kids" = some (Object.array kidsD))
    (hdsub : ∀ v ∈ pagesVisitsAux dst fuel kidsD, v ∈ dst.objects.map Prod.fst)
    (hssorted : src.objects.Pairwise entLt)
    (hsroot : dictGet src.trailer "Root" = some (Object.reference rootIdS))
    (hsrobj : btLookup src.objects rootIdS = some rootObjS)
    (hsrdict : objDict rootObjS = some catS)
    (hspref : dictGet catS "Pages" = some (Object.reference pagesIdS))
    (hspobj : btLookup src.objects pagesIdS = some (Object.dictionary pdS))
    (hskids : dictGet pdS "Kids" = some (Object.array kidsS))
    (hssub : ∀ v ∈ pagesVisitsAux src fuel kidsS, v ∈ src.objects.map Prod.fst)
    (hclass : classify (insertDocumentsObjects dst pts src fuel) =
      (some (catId, catO), some (pagesId, pagesO), mains))
    (hpdO : asDict pagesO = some pd)
    (hcdO : asDict catO = some cd)
    (hcatne : catId ≠ pagesId)
    (hpnt : pagesId ∉ (insertPagesTable dst pts src fuel).map Prod.fst)
    (hcnt : catId ∉ (insertPagesTable dst pts src fuel).map Prod.fst)
    (hdicts : ∀ kv ∈ insertPagesTable dst pts src fuel, isDictObj kv.2 = true) :
    insert dst pts src fuel =
      MergeResult.saved (renumberWith 1
        (mergedDocOf
          (insertObjs3 mains (insertPagesTable dst pts src fuel) pagesId catId pd cd)
          catId)) ∧
    (pageIds (renumberWith 1
        (mergedDocOf
          (insertObjs3 mains (insertPagesTable dst pts src fuel) pagesId catId pd cd)
          catId)) fuel).length =
      (pageIds dst fuel).length + pts.length * (pageIds src fuel).length ∧
    ∃ pdF, rootPagesDict (renumberWith 1
        (mergedDocOf
          (insertObjs3 mains (insertPagesTable dst pts src fuel) pagesId catId pd cd)
          catId)) = some pdF ∧
      dictGet pdF "Count" =
        some (Object.integer
          ((pageIds dst fuel).length + pts.length * (pageIds src fuel).length)) ∧
      ∃ ks, dictGet pdF "Kids" = some (Object.array ks) ∧
        ks.length = (pageIds dst fuel).length + pts.length * (pageIds src fuel).length ∧
        ∀ x ∈ ks, ∃ id, x = Object.reference id := by
  have hcatD : catalogDict dst = some catD := by
    simp [catalogDict, hdroot, hdrobj, hdrdict]
  have hderefD : derefChain dst (dst.objects.length + 1) (Object.reference pagesIdD) =
      some (some pagesIdD, Object.dictionary pdD) := by
    simp [derefChain, hdpobj]
  have hrkD : docRootKids dst = some kidsD := by
    simp [docRootKids, hcatD, hdpref, hderefD, hdkids]
  have hrkDR := docRootKids_renumber dst hdsorted (insertNumPages dst pts src fuel + 1)
    hdroot hdrobj hdrdict hdpref hdpobj hdkids
  have ha1r := pageIds_renumber dst hdsorted (insertNumPages dst pts src fuel + 1) fuel
    hrkD hrkDR hdsub
  have ha1 : (pageIds dst fuel).length =
      (pagesWithObjs (insertDstRenum dst pts src fuel) fuel).length := by
    have h0 : (pageIds (insertDstRenum dst pts src fuel) fuel).length =
        (pageIds dst fuel).length := ha1r
    simpa [pageIds] using h0.symm
  have hcatS : catalogDict src = some catS := by
    simp [catalogDict, hsroot, hsrobj, hsrdict]
  have hderefS : derefChain src (src.objects.length + 1) (Object.reference pagesIdS) =
      some (some pagesIdS, Object.dictionary pdS) := by
    simp [derefChain, hspobj]
  have hrkS : docRootKids src = some kidsS := by
    simp [docRootKids, hcatS, hspref, hderefS, hskids]
  have hrkSR := docRootKids_renumber src hssorted ((insertDstRenum dst pts src fuel).maxId)
    hsroot hsrobj hsrdict hspref hspobj hskids
  have ha2r := pageIds_renumber src hssorted ((insertDstRenum dst pts src fuel).maxId) fuel
    hrkS hrkSR hssub
  have hsl : (pagesWithObjs (insertSrcRenum dst pts src fuel) fuel).length =
      (pageIds src fuel).length := by
    have h0 : (pageIds (insertSrcRenum dst pts src fuel) fuel).length =
        (pageIds src fuel).length := ha2r
    simpa [pageIds] using h0
  have hrange' : ∀ q ∈ pts, q < (pagesWithObjs (insertDstRenum dst pts src fuel) fuel).length := by
    intro q hq
    rw [← ha1]
    exact hrange q hq
  have htab := @insertPagesTable_eq dst src pts fuel hp hrange' hsl
  have ha3 : (insertPagesTable dst pts src fuel).length = insertNumPages dst pts src fuel := by
    rw [htab, mergedSegs_length pts _ 0 0 hp (fun q _ => Nat.zero_le q)
      (fun q hq => by have := hrange' q hq; omega)]
    unfold insertNumPages
    rw [hsl, ← ha1]
  have hdt : insertDstTable dst pts src fuel =
      dstEntriesAux pts (pageIds src fuel).length
        (pagesWithObjs (insertDstRenum dst pts src fuel) fuel) 0 0 := by
    unfold insertDstTable
    rw [btExtend_asc_of_nil (dstEntriesAux_sorted _ 0 0),
      btExtend_asc_of_nil (dstEntriesAux_sorted _ 0 0)]
  have ha2 : (insertDstTable dst pts src fuel).length = (pageIds dst fuel).length := by
    rw [hdt, dstEntriesAux_length, ← ha1]
  have hrun := insert_run dst src pts fuel ha1 ha2 ha3 hclass hpdO hcdO
  have htabsorted : (insertPagesTable dst pts src fuel).Pairwise entLt := by
    rw [htab]
    exact mergedSegs_sorted hsl pts _ 0 0 hp (fun q _ => Nat.zero_le q)
      (fun q hq => by have := hrange' q hq; omega)
  have htabnodup := sorted_keys_nodup htabsorted
  have htype : ∀ kv ∈ insertPagesTable dst pts src fuel, typeName kv.2 = some "Page" := by
    intro kv hkv
    have hv : kv.2 ∈ (insertPagesTable dst pts src fuel).map Prod.snd :=
      List.mem_map.mpr ⟨kv, hkv, rfl⟩
    rw [htab, mergedSegs_values] at hv
    rcases spliced_mem pts _ 0 kv.2 hv with h | h
    · rcases List.mem_map.mp h with ⟨e, he, hee⟩
      rw [← hee]
      exact (pagesWithObjs_post e he).2
    · rcases List.mem_map.mp h with ⟨e, he, hee⟩
      rw [← hee]
      exact (pagesWithObjs_post e he).2
  have hlooks : ∀ kv ∈ insertPagesTable dst pts src fuel,
      ∃ d, asDict kv.2 = some d ∧
      btLookup (insertObjs3 mains (insertPagesTable dst pts src fuel) pagesId catId pd cd)
          kv.1 =
        some (Object.dictionary (dictSet d "Parent" (Object.reference pagesId))) := by
    intro kv hkv
    rcases isDictObj_asDict (hdicts kv hkv) with ⟨d, hdv, hda⟩
    refine ⟨d, hda, ?_⟩
    unfold insertObjs3
    have hk1 : kv.1 ≠ catId := fun he => hcnt (he ▸ List.mem_map.mpr ⟨kv, hkv, rfl⟩)
    have hk2 : kv.1 ≠ pagesId := fun he => hpnt (he ▸ List.mem_map.mpr ⟨kv, hkv, rfl⟩)
    rw [btInsert_lookup_other _ hk1, btInsert_lookup_other _ hk2]
    exact parentLoop_lookup _ htabnodup kv hkv hda pagesId
  have hlookid : ∀ id ∈ (insertPagesTable dst pts src fuel).map Prod.fst,
      ∃ o, btLookup (mergedDocOf
          (insertObjs3 mains (insertPagesTable dst pts src fuel) pagesId catId pd cd)
          catId).objects id = some o ∧ typeName o = some "Page" := by
    intro id hid
    rcases List.mem_map.mp hid with ⟨kv, hkv, rfl⟩
    rcases hlooks kv hkv with ⟨d, hda, hlk⟩
    refine ⟨_, hlk, ?_⟩
    have htn2 : dictTypeName d = some "Page" := by
      have htn : typeName kv.2 = some "Page" := htype kv hkv
      rw [asDict_eq_some hda] at htn
      exact htn
    have hgt : dictGet (dictSet d "Parent" (Object.reference pagesId)) "Type" =
        dictGet d "Type" := dictGet_set_other _ (by decide)
    show dictTypeName (dictSet d "Parent" (Object.reference pagesId)) = some "Page"
    unfold dictTypeName
    rw [hgt]
    exact htn2
  have hflat := pagesFromAux_flat
    (mergedDocOf (insertObjs3 mains (insertPagesTable dst pts src fuel) pagesId catId pd cd)
      catId) fuel ((insertPagesTable dst pts src fuel).map Prod.fst) hlookid
  have hkidseq : (insertPagesTable dst pts src fuel).map (fun kv => Object.reference kv.1) =
      ((insertPagesTable dst pts src fuel).map Prod.fst).map Object.reference := by
    rw [List.map_map]
    rfl
  have hl3cat : btLookup
      (insertObjs3 mains (insertPagesTable dst pts src fuel) pagesId catId pd cd) catId =
      some (Object.dictionary
        (dictRemove (dictSet cd "Pages" (Object.reference pagesId)) "Outlines")) := by
    unfold insertObjs3
    exact btInsert_lookup_self _ _ _
  have hl3pages : btLookup
      (insertObjs3 mains (insertPagesTable dst pts src fuel) pagesId catId pd cd) pagesId =
      some (Object.dictionary
        (dictSet (dictSet pd "Count" (Object.integer (insertPagesTable dst pts src fuel).length))
          "Kids" (Object.array
            ((insertPagesTable dst pts src fuel).map (fun kv => Object.reference kv.1))))) := by
    unfold insertObjs3
    rw [btInsert_lookup_other _ (Ne.symm hcatne)]
    exact btInsert_lookup_self _ _ _
  have hmtr : dictGet (mergedDocOf
      (insertObjs3 mains (insertPagesTable dst pts src fuel) pagesId catId pd cd)
      catId).trailer "Root" = some (Object.reference catId) := by
    show dictGet (dictSet [] "Root" (Object.reference catId)) "Root" = _
    rw [dictGet_set_self]
  have hmobj : (mergedDocOf
      (insertObjs3 mains (insertPagesTable dst pts src fuel) pagesId catId pd cd)
      catId).objects =
      insertObjs3 mains (insertPagesTable dst pts src fuel) pagesId catId pd cd := rfl
  have hgpc : dictGet (dictRemove (dictSet cd "Pages" (Object.reference pagesId)) "Outlines")
      "Pages" = some (Object.reference pagesId) := by
    rw [dictGet_remove_other (by decide), dictGet_set_self]
  have hmcat : catalogDict (mergedDocOf
      (insertObjs3 mains (insertPagesTable dst pts src fuel) pagesId catId pd cd) catId) =
      some (dictRemove (dictSet cd "Pages" (Object.reference pagesId)) "Outlines") := by
    simp [catalogDict, hmtr, hmobj, hl3cat, objDict]
  have hmd : derefChain (mergedDocOf
      (insertObjs3 mains (insertPagesTable dst pts src fuel) pagesId catId pd cd) catId)
      ((mergedDocOf
        (insertObjs3 mains (insertPagesTable dst pts src fuel) pagesId catId pd cd)
        catId).objects.length + 1)
      (Object.reference pagesId) =
      some (some pagesId, Object.dictionary
        (dictSet (dictSet pd "Count" (Object.integer (insertPagesTable dst pts src fuel).length))
          "Kids" (Object.array
            ((insertPagesTable dst pts src fuel).map (fun kv => Object.reference kv.1))))) := by
    simp [derefChain, hmobj, hl3pages]
  have hmk : docRootKids (mergedDocOf
      (insertObjs3 mains (insertPagesTable dst pts src fuel) pagesId catId pd cd) catId) =
      some ((insertPagesTable dst pts src fuel).map (fun kv => Object.reference kv.1)) := by
    simp [docRootKids, hmcat, hgpc, hmd, dictGet_set_self]
  have hmains : mains = (classify (insertDocumentsObjects dst pts src fuel)).2.2 := by
    rw [hclass]
  have hmainsorted : mains.Pairwise entLt := by
    rw [hmains]
    exact classify_mains_sorted _
  have hosorted : (insertObjs3 mains (insertPagesTable dst pts src fuel) pagesId catId pd
      cd).Pairwise entLt := by
    unfold insertObjs3
    exact btInsert_sorted (btInsert_sorted (parentLoop_sorted hmainsorted _ _) _ _) _ _
  have hrkMR := docRootKids_renumber
    (mergedDocOf
      (insertObjs3 mains (insertPagesTable dst pts src fuel) pagesId catId pd cd) catId)
    hosorted 1 hmtr hl3cat rfl hgpc hl3pages (dictGet_set_self _ _ _)
  have hsubM : ∀ v ∈ pagesVisitsAux (mergedDocOf
      (insertObjs3 mains (insertPagesTable dst pts src fuel) pagesId catId pd cd) catId)
      fuel ((insertPagesTable dst pts src fuel).map (fun kv => Object.reference kv.1)),
      v ∈ (mergedDocOf
        (insertObjs3 mains (insertPagesTable dst pts src fuel) pagesId catId pd cd)
        catId).objects.map Prod.fst := by
    intro v hv
    rw [hkidseq, hflat.2] at hv
    rcases List.mem_map.mp hv with ⟨kv, hkv, rfl⟩
    rcases hlooks kv hkv with ⟨d, _, hlk⟩
    exact List.mem_map.mpr ⟨(kv.1, _), btLookup_some_mem hlk, rfl⟩
  have hfinalrenum := pageIds_renumber
    (mergedDocOf
      (insertObjs3 mains (insertPagesTable dst pts src fuel) pagesId catId pd cd) catId)
    hosorted 1 fuel hmk hrkMR hsubM
  have hwalkKeys : (pagesWithObjs (mergedDocOf
      (insertObjs3 mains (insertPagesTable dst pts src fuel) pagesId catId pd cd) catId)
      fuel).map Prod.fst = (insertPagesTable dst pts src fuel).map Prod.fst := by
    have h1 : pagesWithObjs (mergedDocOf
        (insertObjs3 mains (insertPagesTable dst pts src fuel) pagesId catId pd cd) catId)
        fuel =
        pagesFromAux (mergedDocOf
          (insertObjs3 mains (insertPagesTable dst pts src fuel) pagesId catId pd cd) catId)
          fuel ((insertPagesTable dst pts src fuel).map (fun kv => Object.reference kv.1)) := by
      simp [pagesWithObjs, hmk]
    rw [h1, hkidseq]
    exact hflat.1
  have hmergedlen : (pageIds (mergedDocOf
      (insertObjs3 mains (insertPagesTable dst pts src fuel) pagesId catId pd cd) catId)
      fuel).length = (insertPagesTable dst pts src fuel).length := by
    have h2 := congrArg List.length hwalkKeys
    simpa [pageIds] using h2
  have ha3' : (insertPagesTable dst pts src fuel).length =
      (pageIds dst fuel).length + pts.length * (pageIds src fuel).length := ha3
  have hcount : (pageIds (renumberWith 1
      (mergedDocOf
        (insertObjs3 mains (insertPagesTable dst pts src fuel) pagesId catId pd cd)
        catId)) fuel).length =
      (pageIds dst fuel).length + pts.length * (pageIds src fuel).length := by
    rw [hfinalrenum, hmergedlen, ha3']
  have hrpF := rootPagesDict_renumber
    (mergedDocOf
      (insertObjs3 mains (insertPagesTable dst pts src fuel) pagesId catId pd cd) catId)
    hosorted 1 hmtr hl3cat rfl hgpc hl3pages
  refine ⟨hrun, hcount, _, hrpF, ?_, ?_⟩
  · rw [renameDict_get, dictGet_set_other _ (by decide), dictGet_set_self]
    show some (Object.integer ((insertPagesTable dst pts src fuel).length : Int)) = _
    rw [ha3']
    norm_cast
  · refine ⟨renameObjList
        (renumberId ((mergedDocOf
          (insertObjs3 mains (insertPagesTable dst pts src fuel) pagesId catId pd cd)
          catId).objects.map Prod.fst) 1)
        ((insertPagesTable dst pts src fuel).map (fun kv => Object.reference kv.1)), ?_, ?_, ?_⟩
    · rw [renameDict_get, dictGet_set_self]
      rfl
    · rw [renameObjList_eq_map, List.length_map, List.length_map]
      exact ha3'
    · intro x hx
      rw [renameObjList_eq_map] at hx
      rcases List.mem_map.mp hx with ⟨y, hy, rfl⟩
      rcases List.mem_map.mp hy with ⟨kv, hkv, rfl⟩
      exact ⟨_, rfl⟩

/-- Witness for `insert_page_count`: the reference fixture (nine-page
destination, two-page source, five insertion points) yields a 19-page
merged document. -/
theorem insert_page_count_witness :
    insert exDst9 [0, 1, 2, 4, 8] exSrc2 6 =
      MergeResult.saved (renumberWith 1
        (mergedDocOf
          (insertObjs3 [] (insertPagesTable exDst9 [0, 1, 2, 4, 8] exSrc2 6) (21, 0) (20, 0)
            [("Type", Object.name "Pages"),
             ("Kids", Object.array
                [Object.reference (22, 0), Object.reference (23, 0), Object.reference (24, 0),
                 Object.reference (25, 0), Object.reference (26, 0), Object.reference (27, 0),
                 Object.reference (28, 0), Object.reference (29, 0), Object.reference (30, 0)]),
             ("Count", Object.integer 9)]
            [("Type", Object.name "Catalog"), ("Pages", Object.reference (31, 0))])
          (20, 0))) ∧
    (pageIds (renumberWith 1
        (mergedDocOf
          (insertObjs3 [] (insertPagesTable exDst9 [0, 1, 2, 4, 8] exSrc2 6) (21, 0) (20, 0)
            [("Type", Object.name "Pages"),
             ("Kids", Object.array
                [Object.reference (22, 0), Object.reference (23, 0), Object.reference (24, 0),
                 Object.reference (25, 0), Object.reference (26, 0), Object.reference (27, 0),
                 Object.reference (28, 0), Object.reference (29, 0), Object.reference (30, 0)]),
             ("Count", Object.integer 9)]
            [("Type", Object.name "Catalog"), ("Pages", Object.reference (31, 0))])
          (20, 0))) 6).length = 19 := by
  have h := insert_page_count exDst9 exSrc2 [0, 1, 2, 4, 8] 6
    (1, 0) (2, 0)
    (Object.dictionary [("Type", Object.name "Catalog"), ("Pages", Object.reference (2, 0))])
    [("Type", Object.name "Catalog"), ("Pages", Object.reference (2, 0))]
    [("Type", Object.name "Pages"),
     ("Kids", Object.array
        [Object.reference (3, 0), Object.reference (4, 0), Object.reference (5, 0),
         Object.reference (6, 0), Object.reference (7, 0), Object.reference (8, 0),
         Object.reference (9, 0), Object.reference (10, 0), Object.reference (11, 0)]),
     ("Count", Object.integer 9)]
    [Object.reference (3, 0), Object.reference (4, 0), Object.reference (5, 0),
     Object.reference (6, 0), Object.reference (7, 0), Object.reference (8, 0),
     Object.reference (9, 0), Object.reference (10, 0), Object.reference (11, 0)]
    (1, 0) (2, 0)
    (Object.dictionary [("Type", Object.name "Catalog"), ("Pages", Object.reference (2, 0))])
    [("Type", Object.name "Catalog"), ("Pages", Object.reference (2, 0))]
    [("Type", Object.name "Pages"),
     ("Kids", Object.array [Object.reference (3, 0), Object.reference (4, 0)]),
     ("Count", Object.integer 2)]
    [Object.reference (3, 0), Object.reference (4, 0)]
    (20, 0) (21, 0)
    (Object.dictionary [("Type", Object.name "Catalog"), ("Pages", Object.reference (31, 0))])
    (Object.dictionary
      [("Type", Object.name "Pages"),
       ("Kids", Object.array
          [Object.reference (22, 0), Object.reference (23, 0), Object.reference (24, 0),
           Object.reference (25, 0), Object.reference (26, 0), Object.reference (27, 0),
           Object.reference (28, 0), Object.reference (29, 0), Object.reference (30, 0)]),
       ("Count", Object.integer 9)])
    []
    [("Type", Object.name "Pages"),
     ("Kids", Object.array
        [Object.reference (22, 0), Object.reference (23, 0), Object.reference (24, 0),
         Object.reference (25, 0), Object.reference (26, 0), Object.reference (27, 0),
         Object.reference (28, 0), Object.reference (29, 0), Object.reference (30, 0)]),
     ("Count", Object.integer 9)]
    [("Type", Object.name "Catalog"), ("Pages", Object.reference (31, 0))]
    (by decide) (by decide) (by decide) rfl rfl rfl rfl rfl rfl (by decide)
    (by decide) rfl rfl rfl rfl rfl rfl (by decide)
    rfl rfl rfl (by decide) (by decide) (by decide) (by decide)
  refine ⟨h.1, ?_⟩
  rw [h.2.1]
  rfl

/-- C9: outline dropping.  When either input contains an `Outlines`/`Outline`
typed object and the merge reaches the save, `insert` completes without
failing, the saved document contains no object of declared type `Outlines`
or `Outline`, and the surviving Catalog dictionary has no `Outlines`
key. -/
theorem insert_outline_drop (dst src : Document) (pts : List Nat) (fuel : Nat)
    (catId pagesId : ObjectId) (catO pagesO : Object) (mains : List (ObjectId × Object))
    (pd cd : Dict)
    (ha1 : (pageIds dst fuel).length =
      (pagesWithObjs (insertDstRenum dst pts src fuel) fuel).length)
    (ha2 : (insertDstTable dst pts src fuel).length = (pageIds dst fuel).length)
    (ha3 : (insertPagesTable dst pts src fuel).length = insertNumPages dst pts src fuel)
    (hclass : classify (insertDocumentsObjects dst pts src fuel) =
      (some (catId, catO), some (pagesId, pagesO), mains))
    (hpdO : asDict pagesO = some pd)
    (hcdO : asDict catO = some cd)
    (htcat : typeName catO = some "Catalog")
    (htpages : typeName pagesO = some "Pages")
    (htable : ∀ kv ∈ insertPagesTable dst pts src fuel, typeName kv.2 = some "Page")
    (houtline : (∃ kv ∈ dst.objects,
        typeName kv.2 = some "Outlines" ∨ typeName kv.2 = some "Outline") ∨
      (∃ kv ∈ src.objects,
        typeName kv.2 = some "Outlines" ∨ typeName kv.2 = some "Outline")) :
    insert dst pts src fuel =
      MergeResult.saved (renumberWith 1
        (mergedDocOf
          (insertObjs3 mains (insertPagesTable dst pts src fuel) pagesId catId pd cd)
          catId)) ∧
    (∀ kv ∈ (renumberWith 1
        (mergedDocOf
          (insertObjs3 mains (insertPagesTable dst pts src fuel) pagesId catId pd cd)
          catId)).objects,
      typeName kv.2 ≠ some "Outlines" ∧ typeName kv.2 ≠ some "Outline") ∧
    ∃ c, catalogDict (renumberWith 1
        (mergedDocOf
          (insertObjs3 mains (insertPagesTable dst pts src fuel) pagesId catId pd cd)
          catId)) = some c ∧
      dictGet c "Outlines" = none := by
  have hrun := insert_run dst src pts fuel ha1 ha2 ha3 hclass hpdO hcdO
  have hmains : mains = (classify (insertDocumentsObjects dst pts src fuel)).2.2 := by
    rw [hclass]
  have hmainsno := classify_mains_no_outline (insertDocumentsObjects dst pts src fuel)
  have hCD : typeName (Object.dictionary
      (dictRemove (dictSet cd "Pages" (Object.reference pagesId)) "Outlines")) =
      some "Catalog" := by
    show dictTypeName _ = some "Catalog"
    unfold dictTypeName
    rw [dictGet_remove_other (by decide), dictGet_set_other _ (by decide)]
    have h0 : dictTypeName cd = some "Catalog" := by
      rw [asDict_eq_some hcdO] at htcat
      exact htcat
    exact h0
  have hPD : typeName (Object.dictionary
      (dictSet (dictSet pd "Count" (Object.integer (insertPagesTable dst pts src fuel).length))
        "Kids" (Object.array
          ((insertPagesTable dst pts src fuel).map (fun kv => Object.reference kv.1))))) =
      some "Pages" := by
    show dictTypeName _ = some "Pages"
    unfold dictTypeName
    rw [dictGet_set_other _ (by decide), dictGet_set_other _ (by decide)]
    have h0 : dictTypeName pd = some "Pages" := by
      rw [asDict_eq_some hpdO] at htpages
      exact htpages
    exact h0
  have hT3 : ∀ x ∈ insertObjs3 mains (insertPagesTable dst pts src fuel) pagesId catId pd cd,
      typeName x.2 ≠ some "Outlines" ∧ typeName x.2 ≠ some "Outline" := by
    intro x hx
    unfold insertObjs3 at hx
    rcases btInsert_mem x hx with h | h
    · have hx2 : x.2 = Object.dictionary
          (dictRemove (dictSet cd "Pages" (Object.reference pagesId)) "Outlines") := by
        rw [h]
      refine ⟨?_, ?_⟩ <;> rw [hx2, hCD] <;> decide
    · rcases btInsert_mem x h with h2 | h2
      · have hx2 : x.2 = Object.dictionary
            (dictSet (dictSet pd "Count"
                (Object.integer (insertPagesTable dst pts src fuel).length))
              "Kids" (Object.array
                ((insertPagesTable dst pts src fuel).map (fun kv => Object.reference kv.1)))) := by
          rw [h2]
        refine ⟨?_, ?_⟩ <;> rw [hx2, hPD] <;> decide
      · rcases parentLoop_mem _ pagesId x h2 with h3 | ⟨kv, hkv, d, hd, hxe⟩
        · rw [hmains] at h3
          exact hmainsno x h3
        · have hx2 : x.2 = Object.dictionary (dictSet d "Parent" (Object.reference pagesId)) := by
            rw [hxe]
          have htn : typeName (Object.dictionary (dictSet d "Parent" (Object.reference pagesId))) =
              some "Page" := by
            show dictTypeName _ = some "Page"
            unfold dictTypeName
            rw [dictGet_set_other _ (by decide)]
            have h0 := htable kv hkv
            rw [asDict_eq_some hd] at h0
            exact h0
          refine ⟨?_, ?_⟩ <;> rw [hx2, htn] <;> decide
  have hfin : ∀ kv ∈ (renumberWith 1
      (mergedDocOf
        (insertObjs3 mains (insertPagesTable dst pts src fuel) pagesId catId pd cd)
        catId)).objects,
      typeName kv.2 ≠ some "Outlines" ∧ typeName kv.2 ≠ some "Outline" := by
    intro kv hkv
    rw [renumberWith_objects] at hkv
    rcases List.mem_map.mp hkv with ⟨e, he, heq⟩
    have hkv2 : kv.2 = renameObj
        (renumberId ((mergedDocOf
          (insertObjs3 mains (insertPagesTable dst pts src fuel) pagesId catId pd cd)
          catId).objects.map Prod.fst) 1) e.2 := by
      rw [← heq]
    rw [hkv2, typeName_rename]
    exact hT3 e he
  have hmainsorted : mains.Pairwise entLt := by
    rw [hmains]
    exact classify_mains_sorted _
  have hosorted : (insertObjs3 mains (insertPagesTable dst pts src fuel) pagesId catId pd
      cd).Pairwise entLt := by
    unfold insertObjs3
    exact btInsert_sorted (btInsert_sorted (parentLoop_sorted hmainsorted _ _) _ _) _ _
  have hmtr : dictGet (mergedDocOf
      (insertObjs3 mains (insertPagesTable dst pts src fuel) pagesId catId pd cd)
      catId).trailer "Root" = some (Object.reference catId) := by
    show dictGet (dictSet [] "Root" (Object.reference catId)) "Root" = _
    rw [dictGet_set_self]
  have hl3cat : btLookup
      (insertObjs3 mains (insertPagesTable dst pts src fuel) pagesId catId pd cd) catId =
      some (Object.dictionary
        (dictRemove (dictSet cd "Pages" (Object.reference pagesId)) "Outlines")) := by
    unfold insertObjs3
    exact btInsert_lookup_self _ _ _
  have hcatF := catalogDict_renumber
    (mergedDocOf
      (insertObjs3 mains (insertPagesTable dst pts src fuel) pagesId catId pd cd) catId)
    hosorted 1 hmtr hl3cat rfl
  refine ⟨hrun, hfin, _, hcatF, ?_⟩
  rw [renameDict_get, dictGet_remove_self]
  rfl

/-- Witness for `insert_outline_drop`: merging the one-page `exDst1` with
`exOutSrc`, whose catalog references an `Outlines` object. -/
theorem insert_outline_drop_witness :
    insert exDst1 [0] exOutSrc 6 =
      MergeResult.saved (renumberWith 1
        (mergedDocOf
          (insertObjs3 [] (insertPagesTable exDst1 [0] exOutSrc 6) (4, 0) (3, 0)
            [("Type", Object.name "Pages"), ("Kids", Object.array [Object.reference (5, 0)]),
             ("Count", Object.integer 1)]
            [("Type", Object.name "Catalog"), ("Pages", Object.reference (6, 0)),
             ("Outlines", Object.reference (8, 0))])
          (3, 0))) :=
  (insert_outline_drop exDst1 exOutSrc [0] 6 (3, 0) (4, 0)
    (Object.dictionary
      [("Type", Object.name "Catalog"), ("Pages", Object.reference (6, 0)),
       ("Outlines", Object.reference (8, 0))])
    (Object.dictionary
      [("Type", Object.name "Pages"), ("Kids", Object.array [Object.reference (5, 0)]),
       ("Count", Object.integer 1)])
    []
    [("Type", Object.name "Pages"), ("Kids", Object.array [Object.reference (5, 0)]),
     ("Count", Object.integer 1)]
    [("Type", Object.name "Catalog"), ("Pages", Object.reference (6, 0)),
     ("Outlines", Object.reference (8, 0))]
    (by decide) (by decide) (by decide) rfl rfl rfl rfl rfl (by decide)
    (Or.inr ⟨((4, 0), Object.dictionary
        [("Type", Object.name "Outlines"), ("Count", Object.integer 0)]),
      List.mem_cons_of_mem _ (List.mem_cons_of_mem _ (List.mem_cons_of_mem _
        (List.mem_cons_self _ _))),
      Or.inl rfl⟩)).1

theorem blocksList_mem {srcPairs : List (ObjectId × Object)} {s : Nat} :
    ∀ (rem : List Nat) (added : Nat) (m : Nat) (hm : m < rem.length)
      (j : Nat) (hj : j < srcPairs.length),
      ((rem.get ⟨m, hm⟩ + (added + m * s) + j + 1, (srcPairs.get ⟨j, hj⟩).1.2),
        (srcPairs.get ⟨j, hj⟩).2) ∈ blocksList srcPairs s rem added := by
  intro rem
  induction rem with
  | nil => intro added m hm; cases hm
  | cons p ps ih =>
    intro added m hm j hj
    cases m with
    | zero =>
      refine List.mem_append_left _ ?_
      have h0 := numberedFrom_get_mem (p + added) j hj
      simpa [show p + added + j + 1 = p + (added + 0 * s) + j + 1 from by ring] using h0
    | succ n =>
      refine List.mem_append_right _ ?_
      have hn : n < ps.length := by simpa using hm
      have harith : added + (n + 1) * s = added + s + n * s := by ring
      have hget : (p :: ps).get ⟨n + 1, hm⟩ = ps.get ⟨n, hn⟩ := rfl
      rw [harith, hget]
      exact ih (added + s) n hn j hj

/-- C10 (implicit): resource sharing across repeated insertions.  With `k ≥ 2`
insertion points, every source page is stored once per point under a
distinct position key — the `k` stored copies being the same source page
dictionary with the same `Parent` rewrite — while every renumbered
non-page source object (no `Catalog`/`Pages`/`Page`/`Outlines`/`Outline`
type) is looked up unchanged in the merged table, whose sorted keys make
each entry appear exactly once: non-page objects are shared, only `Page`
objects are duplicated. -/
theorem insert_shared_resources (dst src : Document) (pts : List Nat) (fuel : Nat)
    (catId pagesId : ObjectId) (catO pagesO : Object) (mains : List (ObjectId × Object))
    (pd cd : Dict)
    (ha1 : (pageIds dst fuel).length =
      (pagesWithObjs (insertDstRenum dst pts src fuel) fuel).length)
    (ha2 : (insertDstTable dst pts src fuel).length = (pageIds dst fuel).length)
    (ha3 : (insertPagesTable dst pts src fuel).length = insertNumPages dst pts src fuel)
    (hclass : classify (insertDocumentsObjects dst pts src fuel) =
      (some (catId, catO), some (pagesId, pagesO), mains))
    (hpdO : asDict pagesO = some pd)
    (hcdO : asDict catO = some cd)
    (hk : 2 ≤ pts.length)
    (hp : pts.Pairwise (· < ·))
    (hrange : ∀ q ∈ pts, q < (pagesWithObjs (insertDstRenum dst pts src fuel) fuel).length)
    (hsl : (pagesWithObjs (insertSrcRenum dst pts src fuel) fuel).length =
      (pageIds src fuel).length)
    (hssorted : src.objects.Pairwise entLt)
    (hdne : dst.objects ≠ [])
    (hpnt : pagesId ∉ (insertPagesTable dst pts src fuel).map Prod.fst)
    (hcnt : catId ∉ (insertPagesTable dst pts src fuel).map Prod.fst)
    (hdicts : ∀ kv ∈ insertPagesTable dst pts src fuel, isDictObj kv.2 = true)
    (hcatdoc : ∃ v, btLookup (insertDocumentsObjects dst pts src fuel) catId = some v ∧
      typeName v = some "Catalog")
    (hpagesdoc : ∃ v, btLookup (insertDocumentsObjects dst pts src fuel) pagesId = some v ∧
      typeName v = some "Pages") :
    insert dst pts src fuel =
      MergeResult.saved (renumberWith 1
        (mergedDocOf
          (insertObjs3 mains (insertPagesTable dst pts src fuel) pagesId catId pd cd)
          catId)) ∧
    (∀ j (hj : j < (pagesWithObjs (insertSrcRenum dst pts src fuel) fuel).length),
      ∃ d, asDict ((pagesWithObjs (insertSrcRenum dst pts src fuel) fuel).get ⟨j, hj⟩).2 =
          some d ∧
        ∀ m (hm : m < pts.length),
          btLookup (insertObjs3 mains (insertPagesTable dst pts src fuel) pagesId catId pd cd)
            (pts.get ⟨m, hm⟩ + m * (pageIds src fuel).length + j + 1,
             ((pagesWithObjs (insertSrcRenum dst pts src fuel) fuel).get ⟨j, hj⟩).1.2) =
          some (Object.dictionary (dictSet d "Parent" (Object.reference pagesId)))) ∧
    (∀ m m' (hm : m < pts.length) (hm' : m' < pts.length), m ≠ m' →
      pts.get ⟨m, hm⟩ + m * (pageIds src fuel).length ≠
        pts.get ⟨m', hm'⟩ + m' * (pageIds src fuel).length) ∧
    (∀ e ∈ (insertSrcRenum dst pts src fuel).objects,
      typeName e.2 ≠ some "Catalog" → typeName e.2 ≠ some "Pages" →
      typeName e.2 ≠ some "Page" → typeName e.2 ≠ some "Outlines" →
      typeName e.2 ≠ some "Outline" →
      btLookup (insertObjs3 mains (insertPagesTable dst pts src fuel) pagesId catId pd cd)
        e.1 = some e.2) ∧
    (insertObjs3 mains (insertPagesTable dst pts src fuel) pagesId catId pd cd).Pairwise
      entLt := by
  have hrun := insert_run dst src pts fuel ha1 ha2 ha3 hclass hpdO hcdO
  have hmains : mains = (classify (insertDocumentsObjects dst pts src fuel)).2.2 := by
    rw [hclass]
  have hmainsorted : mains.Pairwise entLt := by
    rw [hmains]
    exact classify_mains_sorted _
  have hosorted : (insertObjs3 mains (insertPagesTable dst pts src fuel) pagesId catId pd
      cd).Pairwise entLt := by
    unfold insertObjs3
    exact btInsert_sorted (btInsert_sorted (parentLoop_sorted hmainsorted _ _) _ _) _ _
  have htab := @insertPagesTable_eq dst src pts fuel hp hrange hsl
  have htabsorted : (insertPagesTable dst pts src fuel).Pairwise entLt := by
    rw [htab]
    exact mergedSegs_sorted hsl pts _ 0 0 hp (fun q _ => Nat.zero_le q)
      (fun q hq => by have := hrange q hq; omega)
  have htabnodup := sorted_keys_nodup htabsorted
  have hperm := @mergedSegs_perm (pagesWithObjs (insertSrcRenum dst pts src fuel) fuel)
    ((pageIds src fuel).length) pts
    (pagesWithObjs (insertDstRenum dst pts src fuel) fuel) 0 0 hp (le_refl 0)
    (fun q _ => Nat.zero_le q)
  have hmemtab : ∀ x ∈ blocksList (pagesWithObjs (insertSrcRenum dst pts src fuel) fuel)
      (pageIds src fuel).length pts 0, x ∈ insertPagesTable dst pts src fuel := by
    intro x hx
    rw [htab]
    exact (hperm.mem_iff).mpr (List.mem_append_right _ hx)
  refine ⟨hrun, ?_, ?_, ?_, hosorted⟩
  · intro j hj
    have hm0 : 0 < pts.length := by omega
    have hb0 := @blocksList_mem (pagesWithObjs (insertSrcRenum dst pts src fuel) fuel)
      ((pageIds src fuel).length) pts 0 0 hm0 j hj
    have ht0 := hmemtab _ hb0
    rcases isDictObj_asDict (hdicts _ ht0) with ⟨d, hdv, hda⟩
    refine ⟨d, hda, ?_⟩
    intro m hm
    have hbm := @blocksList_mem (pagesWithObjs (insertSrcRenum dst pts src fuel) fuel)
      ((pageIds src fuel).length) pts 0 m hm j hj
    have htm := hmemtab _ hbm
    have harith : pts.get ⟨m, hm⟩ + (0 + m * (pageIds src fuel).length) + j + 1 =
        pts.get ⟨m, hm⟩ + m * (pageIds src fuel).length + j + 1 := by ring
    rw [harith] at htm
    have hkeyin : (pts.get ⟨m, hm⟩ + m * (pageIds src fuel).length + j + 1,
        ((pagesWithObjs (insertSrcRenum dst pts src fuel) fuel).get ⟨j, hj⟩).1.2) ∈
        (insertPagesTable dst pts src fuel).map Prod.fst :=
      List.mem_map.mpr ⟨_, htm, rfl⟩
    have hk1 : (pts.get ⟨m, hm⟩ + m * (pageIds src fuel).length + j + 1,
        ((pagesWithObjs (insertSrcRenum dst pts src fuel) fuel).get ⟨j, hj⟩).1.2) ≠ catId :=
      fun he => hcnt (he ▸ hkeyin)
    have hk2 : (pts.get ⟨m, hm⟩ + m * (pageIds src fuel).length + j + 1,
        ((pagesWithObjs (insertSrcRenum dst pts src fuel) fuel).get ⟨j, hj⟩).1.2) ≠ pagesId :=
      fun he => hpnt (he ▸ hkeyin)
    unfold insertObjs3
    rw [btInsert_lookup_other _ hk1, btInsert_lookup_other _ hk2]
    exact parentLoop_lookup _ htabnodup _ htm hda pagesId
  · intro m m' hm hm' hne
    rcases Nat.lt_or_ge m m' with h | h
    · have hlt : pts.get ⟨m, hm⟩ < pts.get ⟨m', hm'⟩ :=
        List.pairwise_iff_get.mp hp ⟨m, hm⟩ ⟨m', hm'⟩ h
      have hmul : m * (pageIds src fuel).length ≤ m' * (pageIds src fuel).length :=
        Nat.mul_le_mul_right _ (Nat.le_of_lt h)
      omega
    · have h2 : m' < m := by omega
      have hlt : pts.get ⟨m', hm'⟩ < pts.get ⟨m, hm⟩ :=
        List.pairwise_iff_get.mp hp ⟨m', hm'⟩ ⟨m, hm⟩ h2
      have hmul : m' * (pageIds src fuel).length ≤ m * (pageIds src fuel).length :=
        Nat.mul_le_mul_right _ (Nat.le_of_lt h2)
      omega
  · intro e he h1 h2 h3 h4 h5
    have hsrcsorted : (insertSrcRenum dst pts src fuel).objects.Pairwise entLt :=
      renumberWith_sorted hssorted _
    have hdocsorted : (insertDocumentsObjects dst pts src fuel).Pairwise entLt := by
      unfold insertDocumentsObjects
      exact btExtend_sorted (btExtend_sorted List.Pairwise.nil)
    have hlookup_docs : btLookup (insertDocumentsObjects dst pts src fuel) e.1 = some e.2 := by
      unfold insertDocumentsObjects
      exact btExtend_lookup_right _ _ (sorted_keys_nodup hsrcsorted) e he
    have hmem_docs : (e.1, e.2) ∈ insertDocumentsObjects dst pts src fuel :=
      btLookup_some_mem hlookup_docs
    have hklow : insertNumPages dst pts src fuel + 1 + dst.objects.length - 1 ≤ e.1.1 :=
      renumberWith_keys_lower (List.mem_map.mpr ⟨e, he, rfl⟩)
    have hdlen : 0 < dst.objects.length := List.length_pos.mpr hdne
    have hub : ∀ k ∈ (insertPagesTable dst pts src fuel).map Prod.fst,
        k.1 ≤ insertNumPages dst pts src fuel := by
      intro k hkm
      rcases List.mem_map.mp hkm with ⟨kv, hkv, rfl⟩
      rw [htab] at hkv
      have hb := mergedSegs_key_ub hsl pts
        (pagesWithObjs (insertDstRenum dst pts src fuel) fuel) 0 0 hp
        (fun q _ => Nat.zero_le q) (fun q hq => by have := hrange q hq; omega) kv hkv
      have hnp : insertNumPages dst pts src fuel =
          (pageIds dst fuel).length + pts.length * (pageIds src fuel).length := rfl
      rw [hnp, ha1]
      omega
    have hnotintab : e.1 ∉ (insertPagesTable dst pts src fuel).map Prod.fst := by
      intro hmem
      have h6 := hub e.1 hmem
      omega
    have hnc : e.1 ≠ catId := by
      intro heq
      rcases hcatdoc with ⟨v, hv1, hv2⟩
      rw [← heq, hlookup_docs] at hv1
      have h10 : e.2 = v := by injection hv1
      apply h1
      rw [h10]
      exact hv2
    have hnp2 : e.1 ≠ pagesId := by
      intro heq
      rcases hpagesdoc with ⟨v, hv1, hv2⟩
      rw [← heq, hlookup_docs] at hv1
      have h10 : e.2 = v := by injection hv1
      apply h2
      rw [h10]
      exact hv2
    have hmlook : btLookup mains e.1 = some e.2 := by
      rw [hmains]
      exact classify_lookup hdocsorted hmem_docs h1 h2 h3 h4 h5
    unfold insertObjs3
    rw [btInsert_lookup_other _ hnc, btInsert_lookup_other _ hnp2,
      parentLoop_lookup_nmem _ _ hnotintab]
    exact hmlook

/-- Witness for `insert_shared_resources`: the two-page `exDst2` with source
`exSrc1` inserted at both points `[0, 1]`. -/
theorem insert_shared_resources_witness :
    insert exDst2 [0, 1] exSrc1 6 =
      MergeResult.saved (renumberWith 1
        (mergedDocOf
          (insertObjs3 [] (insertPagesTable exDst2 [0, 1] exSrc1 6) (6, 0) (5, 0)
            [("Type", Object.name "Pages"),
             ("Kids", Object.array [Object.reference (7, 0), Object.reference (8, 0)]),
             ("Count", Object.integer 2), ("S", Object.integer 7)]
            [("Type", Object.name "Catalog"), ("Pages", Object.reference (9, 0)),
             ("X", Object.integer 2)])
          (5, 0))) :=
  (insert_shared_resources exDst2 exSrc1 [0, 1] 6 (5, 0) (6, 0)
    (Object.dictionary
      [("Type", Object.name "Catalog"), ("Pages", Object.reference (9, 0)),
       ("X", Object.integer 2)])
    (Object.dictionary
      [("Type", Object.name "Pages"),
       ("Kids", Object.array [Object.reference (7, 0), Object.reference (8, 0)]),
       ("Count", Object.integer 2), ("S", Object.integer 7)])
    []
    [("Type", Object.name "Pages"),
     ("Kids", Object.array [Object.reference (7, 0), Object.reference (8, 0)]),
     ("Count", Object.integer 2), ("S", Object.integer 7)]
    [("Type", Object.name "Catalog"), ("Pages", Object.reference (9, 0)),
     ("X", Object.integer 2)]
    (by decide) (by decide) (by decide) rfl rfl rfl (by decide) (by decide) (by decide)
    (by decide) (by decide) (by simp [exDst2]) (by decide) (by decide) (by decide)
    ⟨Object.dictionary [("Type", Object.name "Catalog"), ("Pages", Object.reference (6, 0))],
      rfl, rfl⟩
    ⟨Object.dictionary
        [("Type", Object.name "Pages"),
         ("Kids", Object.array [Object.reference (7, 0), Object.reference (8, 0)]),
         ("Count", Object.integer 2)],
      rfl, rfl⟩).1
